import Mathlib

/-!
# openEMR Assistance: insertion engine, session state, response recovery, extraction

A shallow embedding of the parts of `assistant.js`, `content.js` and `popup.js` that

* write generated results back into the page (`insertionWorker`, `handleInsertion`,
  `insertCodesData`),
* keep the session state with its fee-slip cache (`handleFeeSlipGeneration`, the new-topic
  handler, the refresh in `handleUserMessage`),
* turn the text of the generation endpoint into a value (fence clean-up, the truncation
  checks of `handleSoapGeneration`, `JSON.parse` with its sanitised retry, validation),
* extract the corpus of a page and merge the frames (`pageExtractor`, `aggregateResults`,
  `getPageContent`), cap the corpus in the prompts, and route a message to its handler.

Conventions of the embedding

* JavaScript strings are Lean strings, one `Char` per character (texts outside the Basic
  Multilingual Plane, whose UTF-16 length differs, are not distinguished).  `toUpperCase` and
  `toLowerCase` act on the ASCII letters; `trim` and the regular expression class `\s` use
  the ECMAScript white space and line terminator code points.
* A table is the structure the HTML parser builds: the rows of its `thead`,
  the rows of its first `tbody`, and the rows of the remaining sections.
  Tables without a `tbody` element and tables nested in rows are not modelled.
* A cell carries the two texts the code reads (`innerText`, `textContent`);
  a row carries its cells and its own `innerText`.
* A row that `insertionWorker` creates is what the HTML parser of the browser builds from
  the markup assigned to `tr.innerHTML` (`rowMarkup`).  The parser is a parameter
  (`parseRow`) of the worker; `textRow` is the row it builds for fields without markup, and
  `exParser` is a parser that reads such fields, used in the examples.
* `findFeeSheetTable` is not embedded: a document carries the table that the
  discovery heuristic returns for it (or none).
* The data handed to the insertion code has the shape of the data model: codes
  are strings, optional fields may be missing.  Responses of the generation
  endpoint are untyped values (`JVal`), since the handlers validate them themselves.
* The handlers take the parser as a parameter (`parse`, `parseJson`); `jsonParse` is the
  embedding of the built-in `JSON.parse`: a lexer that reads the text character by character
  and a parser of the token list.  Integers are kept as values, other number literals as
  their text.
* A frame's document is the record of what the DOM queries of `pageExtractor` return for it
  (`PageDom`); a metadata object is the list of its keys and values in insertion order.
* The cache object is a finite map from keys to values (own properties only).
-/

namespace OpenEMR

/-! ## Strings -/

/-- ECMAScript `WhiteSpace` and `LineTerminator` code points: what `trim` removes and `\s` matches. -/
def jsIsWhiteSpace (c : Char) : Bool :=
  let n := c.toNat
  n == 9 || n == 10 || n == 11 || n == 12 || n == 13 || n == 32 || n == 160 ||
  n == 5760 || (8192 ≤ n && n ≤ 8202) || n == 8232 || n == 8233 || n == 8239 ||
  n == 8287 || n == 12288 || n == 65279

/-- Characters of `s.trim()`. -/
def trimChars (l : List Char) : List Char :=
  ((l.dropWhile jsIsWhiteSpace).reverse.dropWhile jsIsWhiteSpace).reverse

/-- The method `String.prototype.trim`. -/
def jsTrim (s : String) : String := ⟨trimChars s.data⟩

/-- The call `s.replace(/\s/g, '')`. -/
def stripWhiteSpace (s : String) : String := ⟨s.data.filter (fun c => !jsIsWhiteSpace c)⟩

/-- The method `toUpperCase`, on ASCII letters. -/
def toUpperCase (s : String) : String := ⟨s.data.map Char.toUpper⟩

/-- The method `toLowerCase`, on ASCII letters. -/
def toLowerCase (s : String) : String := ⟨s.data.map Char.toLower⟩

/-- Substring test on character lists. -/
def includesChars : List Char → List Char → Bool
  | [], sub => sub.isEmpty
  | c :: cs, sub => sub.isPrefixOf (c :: cs) || includesChars cs sub

/-- The method `String.prototype.includes`. -/
def includes (s sub : String) : Bool := includesChars s.data sub.data

/-- The expression `a || b` on strings: the empty string is falsy. -/
def strOr (a b : String) : String := if a = "" then b else a

/-! ## Tables -/

/-- A table cell (`td` or `th`) with the two texts the code reads from it. -/
structure Cell where
  innerText : String
  textContent : String
  deriving DecidableEq, Repr

/-- A table row: its cells (`querySelectorAll('td, th')`) and its rendered text. -/
structure Row where
  cells : List Cell
  innerText : String
  deriving DecidableEq, Repr

/-- A fee-sheet table: rows of the `thead`, rows of the first `tbody`, rows of the other sections. -/
structure Table where
  thead : List Row
  tbody : List Row
  rest : List Row
  deriving DecidableEq, Repr

/-- The rows `table.querySelectorAll('tr')` ranges over. -/
def Table.allTableRows (t : Table) : List Row := t.thead ++ t.tbody ++ t.rest

/-- Number of rows of the table. -/
def Table.rowCount (t : Table) : Nat := t.allTableRows.length

/-- A generated code `{ code, description, price }` as the insertion code reads it: `code` is a
string, `description` and `price` may be missing. -/
structure Code where
  code : String
  description : Option String
  price : Option Nat
  deriving DecidableEq, Repr

/-- The test `text.includes('type') && text.includes('code') && text.includes('description')` on the lower-cased row text. -/
def isHeaderText (rowInnerText : String) : Bool :=
  let text := toLowerCase rowInnerText
  includes text "type" && includes text "code" && includes text "description"

/-- The expression `(cells[i].innerText || cells[i].textContent || '')`. -/
def cellText (c : Cell) : String := strOr (strOr c.innerText c.textContent) ""

/-- The value `rowType` of `codeExists`: first cell, trimmed and upper-cased. -/
def rowTypeOf (c : Cell) : String := toUpperCase (jsTrim (cellText c))

/-- The value `rowCode` of `codeExists`: second cell, trimmed. -/
def rowCodeOf (c : Cell) : String := jsTrim (cellText c)

/-- The normalisation `x.replace(/\s/g, '').toUpperCase()` applied to type names. -/
def normalizeType (s : String) : String := toUpperCase (stripWhiteSpace s)

/-- One iteration of the row loop of `codeExists`. -/
def rowMatches (codeValue codeType : String) (row : Row) : Bool :=
  match row.cells with
  | c0 :: c1 :: _ =>
      normalizeType (rowTypeOf c0) == normalizeType codeType && rowCodeOf c1 == codeValue
  | _ => false

/-- The helper `codeExists` of `insertionWorker`: loops over all rows of the table. -/
def codeExists (table : Table) (codeValue codeType : String) : Bool :=
  table.allTableRows.any (rowMatches codeValue codeType)

/-- Plain text cell, as produced by markup `<td>text</td>`. -/
def textCell (s : String) : Cell := { innerText := s, textContent := s }

/-- The constant `inputStyle` of `createCodeRow`. -/
def inputStyle : String :=
  "width: 100%; padding: 4px; border: 1px solid #ccc; border-radius: 4px;"

/-- The template literal assigned to `tr.innerHTML` in `createCodeRow`, with its line breaks
and indentation: the type and the code are the contents of the first two cells, the
description is the `title` and the content of the third, the price the `value` of an input. -/
def rowMarkup (code : Code) (type : String) : String :=
  let i28 : String := String.mk (List.replicate 28 ' ')
  let i32 : String := String.mk (List.replicate 32 ' ')
  let description := code.description.getD ""
  let price := match code.price with
    | some p => if p = 0 then "" else toString p
    | none => ""
  "\n" ++
  i28 ++ "<td style=\"padding: 8px;\">" ++ type ++ "</td>\n" ++
  i28 ++ "<td style=\"padding: 8px;\">" ++ code.code ++ "</td>\n" ++
  i28 ++ "<td style=\"padding: 8px;\" title=\"" ++ description ++ "\">\n" ++
  i32 ++ "<div style=\"white-space:nowrap;overflow:hidden;text-overflow:ellipsis;" ++
    "max-width:350px;cursor:pointer;\"\n" ++
  i32 ++ "     onclick=\"this.style.whiteSpace=this.style.whiteSpace===" ++
    "'normal'?'nowrap':'normal'\">\n" ++
  i32 ++ "    " ++ description ++ "\n" ++
  i32 ++ "</div>\n" ++
  i28 ++ "</td>\n" ++
  i28 ++ "<td style=\"padding: 8px;\"><input type=\"text\" style=\"" ++ inputStyle ++
    "\"></td>\n" ++
  i28 ++ "<td style=\"padding: 8px;\"><input type=\"text\" value=\"" ++ price ++
    "\" style=\"" ++ inputStyle ++ "\"></td>\n" ++
  i28 ++ "<td style=\"padding: 8px;\"><input type=\"text\" value=\"" ++
    (if type = "CPT4" then "1" else "") ++ "\" style=\"" ++ inputStyle ++ "\"></td>\n" ++
  i28 ++ "<td style=\"padding: 8px;\"><select style=\"" ++ inputStyle ++
    "\"><option></option></select></td>\n" ++
  i28 ++ "<td style=\"padding: 8px;\"><input type=\"text\" style=\"" ++ inputStyle ++
    "\"></td>\n" ++
  i28 ++ "<td style=\"padding: 8px; text-align: center;\"><input type=\"checkbox\"></td>\n" ++
  i28 ++ "<td style=\"padding: 8px; text-align: center;\"><input type=\"checkbox\"></td>\n" ++
  String.mk (List.replicate 24 ' ')

/-- The row a browser builds from `rowMarkup` when the type, the code and the description
hold no markup: ten cells, of which the first three carry the three texts and the others
hold form controls without text. -/
def textRow (code : Code) (type : String) : Row :=
  let texts := [type, code.code, code.description.getD "", "", "", "", "", "", "", ""]
  { cells := texts.map textCell, innerText := String.intercalate "\t" texts }

/-- The helper `createCodeRow` of `insertionWorker`: the row is what the HTML parser of the
browser builds from the markup assigned to `tr.innerHTML`.  The parser is the parameter
`parseRow`; fields with markup or character references are read back as the parser renders
them. -/
def createCodeRow (parseRow : String → Row) (code : Code) (type : String) : Row :=
  parseRow (rowMarkup code type)

/-! ## Documents and the insertion worker (`assistant.js`) -/

/-- An element the SOAP insertion can address: its `id`, its `name` attribute and its `value`. -/
structure Element where
  id : String
  name : String
  value : String
  deriving DecidableEq, Repr

/-- A frame document as the insertion code sees it: its elements in document order and the
table `findFeeSheetTable` returns for it (`none` for `null`). -/
structure Document where
  elements : List Element
  feeSheetTable : Option Table
  deriving DecidableEq, Repr

/-- The SOAP part of the data: each section is a string or missing. -/
structure Soap where
  subjective : Option String
  objective : Option String
  assessment : Option String
  plan : Option String
  deriving DecidableEq, Repr

/-- The argument `data` of `insertionWorker` and `handleInsertion`. -/
structure InsertData where
  soap : Option Soap
  icdCodes : Option (List Code)
  cptCodes : Option (List Code)
  deriving DecidableEq, Repr

/-- An event dispatched on the element at position `target`. -/
structure DomEvent where
  target : Nat
  type : String
  deriving DecidableEq, Repr

/-- The returned object `{ success, error }`. -/
structure WorkerResult where
  success : Bool
  error : Option String
  deriving DecidableEq, Repr

/-- The constant `map` of `insertionWorker`, in the order of `Object.entries`. -/
def soapFieldMap : List (String × List String) :=
  [("subjective", ["subjective", "soap_subjective", "s_text"]),
   ("objective", ["objective", "soap_objective", "o_text"]),
   ("assessment", ["assessment", "soap_assessment", "a_text"]),
   ("plan", ["plan", "soap_plan", "p_text"])]

/-- The property read `data.soap[key]`. -/
def Soap.get (s : Soap) (key : String) : Option String :=
  if key = "subjective" then s.subjective
  else if key = "objective" then s.objective
  else if key = "assessment" then s.assessment
  else if key = "plan" then s.plan
  else none

/-- JavaScript truthiness of an optional string: missing and empty are falsy. -/
def truthyStr : Option String → Bool
  | none => false
  | some s => s != ""

/-- The lookup `document.getElementById(id) || document.querySelector('[name="id"]')`, as a position. -/
def findElement (els : List Element) (id : String) : Option Nat :=
  match els.findIdx? (fun e => e.id == id) with
  | some i => some i
  | none => els.findIdx? (fun e => e.name == id)

/-- State threaded through the body of `insertionWorker`. -/
structure WorkerState where
  elements : List Element
  events : List DomEvent
  inserted : Bool
  deriving DecidableEq, Repr

/-- The inner loop `for (const id of ids)`: writes the first element found and stops. -/
def writeFirstMatch (value : String) : List String → WorkerState → WorkerState
  | [], st => st
  | id :: ids, st =>
    match findElement st.elements id with
    | some i =>
      { elements := st.elements.modify (fun e => { e with value := value }) i
        events := st.events ++ [⟨i, "input"⟩, ⟨i, "change"⟩]
        inserted := true }
    | none => writeFirstMatch value ids st

/-- The outer loop `for (const [key, ids] of Object.entries(map))`. -/
def insertSoapFields (soap : Soap) : List (String × List String) → WorkerState → WorkerState
  | [], st => st
  | (key, ids) :: more, st =>
    match soap.get key with
    | some value =>
      if truthyStr (some value) then insertSoapFields soap more (writeFirstMatch value ids st)
      else insertSoapFields soap more st
    | none => insertSoapFields soap more st

/-- Part 1 of `insertionWorker` (`if (data.soap) { ... }`), starting with `inserted = false`. -/
def soapPhase (data : InsertData) (doc : Document) : WorkerState :=
  let st0 : WorkerState := { elements := doc.elements, events := [], inserted := false }
  match data.soap with
  | some soap => insertSoapFields soap soapFieldMap st0
  | none => st0

/-- Which row the variable `headerRow` refers to once the header search is over. -/
inductive HeaderRef where
  | tbodyFirst
  | theadFirst
  deriving DecidableEq, Repr

/-- The two fallbacks of the header search: the first `thead` row when its text contains
`type`, then `allRows[0]`; `none` when `headerRow` stays `null`. -/
def fallbackHeader (t : Table) : Option HeaderRef :=
  match t.thead with
  | theadRow :: _ =>
    if includes (toLowerCase theadRow.innerText) "type" then some .theadFirst
    else if t.tbody.length > 0 then some .tbodyFirst
    else none
  | [] => if t.tbody.length > 0 then some .tbodyFirst else none

/-- Steps 1 and 2 of the table insertion: the header search over `tbody.querySelectorAll('tr')`,
the promotion `tbody.prepend(headerRow)` when the header row is not the first child, and the
fallbacks when no row matched. -/
def locateHeader (t : Table) : Table × Option HeaderRef :=
  match t.tbody.span (fun r => !isHeaderText r.innerText) with
  | (before, headerRow :: after) =>
    if before.isEmpty then (t, some .tbodyFirst)
    else ({ t with tbody := headerRow :: (before ++ after) }, some .tbodyFirst)
  | (_, []) => (t, fallbackHeader t)

/-- The body of one `forEach` over a code list: the fragment and `insertedCount` after it. -/
def addCodes (parseRow : String → Row) (table : Table) (type : String) :
    List Code → List Row × Nat → List Row × Nat
  | [], acc => acc
  | code :: codes, (fragment, insertedCount) =>
    if !codeExists table code.code type then
      addCodes parseRow table type codes
        (fragment ++ [createCodeRow parseRow code type], insertedCount + 1)
    else
      addCodes parseRow table type codes (fragment, insertedCount)

/-- The guard `list && list.length > 0` followed by the `forEach`. -/
def addCodeList (parseRow : String → Row) (table : Table) (type : String)
    (list : Option (List Code)) (acc : List Row × Nat) : List Row × Nat :=
  match list with
  | some codes => if codes.length > 0 then addCodes parseRow table type codes acc else acc
  | none => acc

/-- The call `headerRow.after(fragment)`, or `tbody.appendChild(fragment)` without a header row. -/
def insertFragment (t : Table) (headerRow : Option HeaderRef) (fragment : List Row) : Table :=
  match headerRow with
  | some .tbodyFirst =>
    match t.tbody with
    | h :: others => { t with tbody := h :: (fragment ++ others) }
    | [] => t
  | some .theadFirst =>
    match t.thead with
    | h :: others => { t with thead := h :: (fragment ++ others) }
    | [] => t
  | none => { t with tbody := t.tbody ++ fragment }

/-- The branch `if (table) { ... }` of `insertionWorker`: the table afterwards and whether
`inserted` was set. -/
def insertIntoTable (parseRow : String → Row) (table : Table) (data : InsertData) :
    Table × Bool :=
  let (table1, headerRow) := locateHeader table
  let acc := addCodeList parseRow table1 "CPT4" data.cptCodes
    (addCodeList parseRow table1 "ICD10" data.icdCodes ([], 0))
  if acc.2 > 0 then (insertFragment table1 headerRow acc.1, true)
  else (table1, false)

/-- Outcome of a run of `insertionWorker`: the document afterwards, the events dispatched and
the returned object. -/
structure WorkerRun where
  document : Document
  events : List DomEvent
  result : WorkerResult
  deriving DecidableEq, Repr

/-- The function `insertionWorker(data)`, with the HTML parser of the browser as `parseRow`.
With data of this shape no statement of the `try` block raises, so the run ends at
`return { success: inserted }`. -/
def insertionWorker (parseRow : String → Row) (data : InsertData) (doc : Document) :
    WorkerRun :=
  let st1 := soapPhase data doc
  if data.icdCodes.isSome || data.cptCodes.isSome then
    match doc.feeSheetTable with
    | some table =>
      let (table2, insertedRows) := insertIntoTable parseRow table data
      { document := { elements := st1.elements, feeSheetTable := some table2 }
        events := st1.events
        result := { success := st1.inserted || insertedRows, error := none } }
    | none =>
      { document := { elements := st1.elements, feeSheetTable := none }
        events := st1.events
        result := { success := st1.inserted, error := none } }
  else
    { document := { elements := st1.elements, feeSheetTable := doc.feeSheetTable }
      events := st1.events
      result := { success := st1.inserted, error := none } }

/-- The `catch` branch of `insertionWorker`: `return { success: false, error: e.message }`. -/
def workerCatch (message : String) : WorkerResult := { success := false, error := some message }

/-! ## The content script (`content.js`) -/

/-- The helper `createCodeRow` of `insertCodesData`: `code` is `codeData.code || codeData` (an
empty code leaves the object itself, which a text node shows as `[object Object]`), the
description falls back to the code. -/
def ContentScript.createCodeRow (codeData : Code) (codeType : String) : Row :=
  let code := if codeData.code = "" then "[object Object]" else codeData.code
  let description := match codeData.description with
    | some d => if d = "" then code else d
    | none => code
  let texts := [codeType, code, description, "", "", "", "", "", "", ""]
  { cells := texts.map textCell, innerText := String.intercalate "\t" texts }

/-- The header search of `insertCodesData` over `tbody.querySelectorAll('tr')`: the position of
the first row whose text contains `type`, `code` and `description`. -/
def contentHeaderIndex (tbody : List Row) : Option Nat :=
  tbody.findIdx? (fun r => isHeaderText r.innerText)

/-- The statement `headerRow.parentNode.insertBefore(row, headerRow.nextSibling)` when a header
row was found (at position `i`), `tbody.appendChild(row)` otherwise. -/
def placeRow (headerRow : Option Nat) (tbody : List Row) (row : Row) : List Row :=
  match headerRow with
  | some i => tbody.take (i + 1) ++ row :: tbody.drop (i + 1)
  | none => tbody ++ [row]

/-- One `for (const code of codes)` loop of `insertCodesData`: every code gets a row. -/
def insertEach (headerRow : Option Nat) (codeType : String) :
    List Code → List Row × Nat → List Row × Nat
  | [], acc => acc
  | code :: codes, (tbody, insertedCount) =>
    insertEach headerRow codeType codes
      (placeRow headerRow tbody (ContentScript.createCodeRow code codeType), insertedCount + 1)

/-- The guard `codes && codes.length > 0` followed by the loop. -/
def insertEachList (headerRow : Option Nat) (codeType : String) (list : Option (List Code))
    (acc : List Row × Nat) : List Row × Nat :=
  match list with
  | some codes => if codes.length > 0 then insertEach headerRow codeType codes acc else acc
  | none => acc

/-- The function `insertCodesData(icdCodes, cptCodes)` on the table its own `findFeeSheetTable`
returns: the table afterwards and the returned flag `insertedCount > 0`. -/
def insertCodesData (icdCodes cptCodes : Option (List Code)) (located : Option Table) :
    Option Table × Bool :=
  match located with
  | none => (none, false)
  | some table =>
    let headerRow := contentHeaderIndex table.tbody
    let acc := insertEachList headerRow "CPT4" cptCodes
      (insertEachList headerRow "ICD10" icdCodes (table.tbody, 0))
    (some { table with tbody := acc.1 }, acc.2 > 0)

/-- The function `handleInsertion(data)`, the handler of the `insertData` message.  The SOAP
part only writes textarea values; `soapSuccess` is what `insertSoapData` returns on the page. -/
def handleInsertion (soapSuccess : Soap → Bool) (data : InsertData) (located : Option Table) :
    Option Table × WorkerResult :=
  let inserted1 := match data.soap with
    | some soap => soapSuccess soap
    | none => false
  let (table2, inserted2) :=
    if data.icdCodes.isSome || data.cptCodes.isSome then
      let (t, codesSuccess) := insertCodesData data.icdCodes data.cptCodes located
      (t, inserted1 || codesSuccess)
    else (located, inserted1)
  if !inserted2 then
    (table2, { success := false, error := some "Could not find matching fields on this page" })
  else (table2, { success := true, error := none })

/-! ## Parsed responses and the session state (`assistant.js`) -/

/-- A JavaScript value as `JSON.parse` yields it, with `undefined` for missing properties.
A number written as an integer is `num`; a number written with a fraction or an exponent is
kept as its literal (`numLit`). -/
inductive JVal where
  | undefined
  | null
  | bool (b : Bool)
  | num (n : Int)
  | numLit (text : String)
  | str (s : String)
  | arr (items : List JVal)
  | obj (fields : List (String × JVal))
  deriving Repr

/-- JavaScript truthiness.  A number literal is zero when its mantissa has no digit other
than `0` (rounding of a tiny non-zero literal to zero is not modelled). -/
def JVal.truthy : JVal → Bool
  | .undefined => false
  | .null => false
  | .bool b => b
  | .num n => n != 0
  | .numLit text => (text.data.takeWhile (fun c => c != 'e' && c != 'E')).any
      (fun c => '1' ≤ c && c ≤ '9')
  | .str s => s != ""
  | .arr _ => true
  | .obj _ => true

/-- The property read `v.key` for the data property names the code uses: a `TypeError` on
`null` and `undefined`, the own property of an object, `undefined` otherwise. -/
def JVal.getProp (v : JVal) (key : String) : Except String JVal :=
  match v with
  | .undefined => .error ("Cannot read properties of undefined (reading '" ++ key ++ "')")
  | .null => .error ("Cannot read properties of null (reading '" ++ key ++ "')")
  | .obj fields => .ok ((fields.lookup key).getD .undefined)
  | _ => .ok .undefined

/-- The receiver of a call `v.map(...)`: the items of an array, a `TypeError` for anything else. -/
def JVal.mapItems (v : JVal) (what : String) : Except String (List JVal) :=
  match v with
  | .arr items => .ok items
  | .undefined => .error "Cannot read properties of undefined (reading 'map')"
  | .null => .error "Cannot read properties of null (reading 'map')"
  | _ => .error (what ++ ".map is not a function")

/-- The merged metadata `{ pid, encounter, url }`; `none` stands for `null` or a missing key. -/
structure Metadata where
  pid : Option String
  encounter : Option String
  url : Option String
  deriving DecidableEq, Repr

/-- The four state variables of `assistant.js`. -/
structure Session where
  extractedContent : String
  lastGeneratedData : JVal
  currentMetadata : Option Metadata
  generatedCodesCache : List (String × JVal)

/-- The state when the script is loaded. -/
def Session.initial : Session :=
  { extractedContent := "", lastGeneratedData := .null, currentMetadata := none,
    generatedCodesCache := [] }

/-- The read `generatedCodesCache[cacheKey]` (own properties only). -/
def cacheGet (cache : List (String × JVal)) (key : String) : JVal :=
  (cache.lookup key).getD .undefined

/-- The write `generatedCodesCache[cacheKey] = result`. -/
def cachePut (cache : List (String × JVal)) (key : String) (value : JVal) :
    List (String × JVal) :=
  (key, value) :: cache.filter (fun e => e.1 != key)

/-- The click handler of the new-topic button, on the state variables. -/
def newTopic (s : Session) : Session :=
  { s with extractedContent := "", lastGeneratedData := .null, generatedCodesCache := [] }

/-- The expression `x || 'unknown'` on an optional string. -/
def orUnknown : Option String → String
  | some v => if v = "" then "unknown" else v
  | none => "unknown"

/-- The template `${currentMetadata?.encounter || 'unknown'}_${currentMetadata?.pid || 'unknown'}`. -/
def cacheKey (currentMetadata : Option Metadata) : String :=
  match currentMetadata with
  | some m => orUnknown m.encounter ++ "_" ++ orUnknown m.pid
  | none => "unknown_unknown"

/-- What `getPageContent` returns and stores: the merged text and metadata of the frames. -/
structure PageContent where
  text : String
  metadata : Option Metadata
  deriving DecidableEq, Repr

/-- The outcome of the request to the generation endpoint: the request or the decoding of its
body fails, the body carries `error`, or it carries the text `content[0].text`. -/
inductive EndpointReply where
  | failure (message : String)
  | error (message : String)
  | text (content : String)
  deriving DecidableEq, Repr

/-- What a fee-slip request finds around it: the page (`none` when there is no active tab),
the stored API key and the reply the endpoint would give. -/
structure FeeSlipEnv where
  page : Option PageContent
  apiKey : String
  reply : EndpointReply
  deriving DecidableEq, Repr

/-- The values a fee-slip message interpolates, in the order of the template. -/
structure RenderedSlip where
  patientName : JVal
  diagnoses : List JVal
  services : List JVal
  icd : List (JVal × JVal)
  cpt : List (JVal × JVal)
  charges : List JVal
  total : JVal

/-- A message added to the conversation by `addMessage`. -/
inductive Shown where
  | feeSlip (fromCache : Bool) (slip : RenderedSlip)
  | notice (text : String)
  | failure (text : String)

/-- Outcome of one call of `handleFeeSlipGeneration`: the state afterwards, the message shown
(if any), how many requests went to the endpoint, and the exception that left the function. -/
structure FeeSlipRun where
  session : Session
  shown : Option Shown
  endpointCalls : Nat
  thrown : Option String

/-- The pairs `(i.code, i.desc)` a template reads from the items of a billing list. -/
def codeDescPairs : List JVal → Except String (List (JVal × JVal))
  | [] => .ok []
  | i :: items => do
    let code ← i.getProp "code"
    let desc ← i.getProp "desc"
    let others ← codeDescPairs items
    pure ((code, desc) :: others)

/-- The values `c.price` a template reads from the items of the CPT list. -/
def prices : List JVal → Except String (List JVal)
  | [] => .ok []
  | c :: items => do
    let price ← c.getProp "price"
    let others ← prices items
    pure (price :: others)

/-- Evaluation of the fee-slip template literal on `result` (or `cachedData`). -/
def renderFeeSlip (result : JVal) : Except String RenderedSlip := do
  let patientName ← result.getProp "patientName"
  let diagnoses ← (← result.getProp "diagnoses").mapItems "diagnoses"
  let services ← (← result.getProp "services").mapItems "services"
  let billing ← result.getProp "billing"
  let icdItems ← (← billing.getProp "icd").mapItems "icd"
  let icd ← codeDescPairs icdItems
  let cptItems ← (← billing.getProp "cpt").mapItems "cpt"
  let cpt ← codeDescPairs cptItems
  let charges ← prices cptItems
  let total ← result.getProp "total"
  pure { patientName, diagnoses, services, icd, cpt, charges, total }

/-- The check `!result.billing || !result.billing.icd || !result.billing.cpt`, negated: `true`
when the response passes validation. -/
def validBilling (result : JVal) : Except String Bool := do
  let billing ← result.getProp "billing"
  if !billing.truthy then pure false
  else
    let icd ← billing.getProp "icd"
    if !icd.truthy then pure false
    else
      let cpt ← billing.getProp "cpt"
      pure cpt.truthy

/-- The mapping `i => ({ code: i.code, description: i.desc, codeType: 'ICD10' })` over a list. -/
def icdEntries : List JVal → Except String (List JVal)
  | [] => .ok []
  | i :: items => do
    let code ← i.getProp "code"
    let desc ← i.getProp "desc"
    let others ← icdEntries items
    pure (.obj [("code", code), ("description", desc), ("codeType", .str "ICD10")] :: others)

/-- The mapping `c => ({ code: c.code, description: c.desc, price: c.price, codeType: 'CPT4' })`. -/
def cptEntries : List JVal → Except String (List JVal)
  | [] => .ok []
  | c :: items => do
    let code ← c.getProp "code"
    let desc ← c.getProp "desc"
    let price ← c.getProp "price"
    let others ← cptEntries items
    pure (.obj [("code", code), ("description", desc), ("price", price),
                ("codeType", .str "CPT4")] :: others)

/-- The object stored in `lastGeneratedData` after a generation ("Store for insertion"). -/
def insertableOf (result : JVal) : Except String JVal := do
  let billing ← result.getProp "billing"
  let icd ← icdEntries (← (← billing.getProp "icd").mapItems "icd")
  let cpt ← cptEntries (← (← billing.getProp "cpt").mapItems "cpt")
  pure (.obj [("icdCodes", .arr icd), ("cptCodes", .arr cpt)])

/-- The object stored in `lastGeneratedData` on a cache hit ("Restore cached data"). -/
def restoredOf (cachedData : JVal) : Except String JVal := do
  let icdCodes ← cachedData.getProp "icdCodes"
  let cptCodes ← cachedData.getProp "cptCodes"
  pure (.obj [("icdCodes", icdCodes), ("cptCodes", cptCodes)])

/-- The `try` block of `handleFeeSlipGeneration` after the request was sent: the state it
leaves and the slip it renders, or the message of the exception the `catch` receives.
`parse` stands for the text-to-value stage (fence clean-up, `JSON.parse`, sanitised retry). -/
def feeSlipTry (parse : String → Option JVal) (reply : EndpointReply) (key : String)
    (s : Session) : Session × Except String RenderedSlip :=
  match reply with
  | .failure message => (s, .error message)
  | .error message => (s, .error message)
  | .text content =>
    match parse content with
    | none => (s, .error "The AI returned invalid JSON for the fee slip. Please try again.")
    | some result =>
      match validBilling result with
      | .error e => (s, .error e)
      | .ok false => (s, .error "The AI response is missing required billing sections.")
      | .ok true =>
        let s1 := { s with generatedCodesCache := cachePut s.generatedCodesCache key result }
        match insertableOf result with
        | .error e => (s1, .error e)
        | .ok data => ({ s1 with lastGeneratedData := data }, renderFeeSlip result)

/-- The function `handleFeeSlipGeneration`. -/
def handleFeeSlipGeneration (parse : String → Option JVal) (env : FeeSlipEnv) (s0 : Session) :
    FeeSlipRun :=
  let refreshed : Except String Session :=
    if s0.extractedContent = "" then
      match env.page with
      | some page => .ok { s0 with extractedContent := page.text, currentMetadata := page.metadata }
      | none => .error "No active tab"
    else .ok s0
  match refreshed with
  | .error e => { session := s0, shown := none, endpointCalls := 0, thrown := some e }
  | .ok s1 =>
    let key := cacheKey s1.currentMetadata
    let cachedData := cacheGet s1.generatedCodesCache key
    if cachedData.truthy then
      match restoredOf cachedData with
      | .error e => { session := s1, shown := none, endpointCalls := 0, thrown := some e }
      | .ok data =>
        let s2 := { s1 with lastGeneratedData := data }
        match renderFeeSlip cachedData with
        | .ok slip =>
          { session := s2, shown := some (.feeSlip true slip), endpointCalls := 0, thrown := none }
        | .error e => { session := s2, shown := none, endpointCalls := 0, thrown := some e }
    else if env.apiKey = "" then
      { session := s1
        shown := some (.notice "Please set your Anthropic API key in the extension settings.")
        endpointCalls := 0, thrown := none }
    else
      match feeSlipTry parse env.reply key s1 with
      | (s2, .ok slip) =>
        { session := s2, shown := some (.feeSlip false slip), endpointCalls := 1, thrown := none }
      | (s2, .error message) =>
        { session := s2
          shown := some (.failure ("❌ I had trouble generating the fee slip: " ++
            strOr message "Unknown error occurred"))
          endpointCalls := 1, thrown := none }

/-! ## Definitions used to state the properties -/

/-- The rows a code list contributes: one row per code that `codeExists` does not find, in
input order. -/
def pendingRows (parseRow : String → Row) (t : Table) (type : String)
    (list : Option (List Code)) : List Row :=
  ((list.getD []).filter (fun c => !codeExists t c.code type)).map
    (fun c => createCodeRow parseRow c type)

/-- The block of new rows: the non-duplicate ICD rows in input order, then the CPT rows. -/
def newRows (parseRow : String → Row) (t : Table) (data : InsertData) : List Row :=
  pendingRows parseRow t "ICD10" data.icdCodes ++ pendingRows parseRow t "CPT4" data.cptCodes

/-- The (type, code) pair `codeExists` reads from a row; rows with fewer than two cells have none. -/
def rowKey (row : Row) : Option (String × String) :=
  match row.cells with
  | c0 :: c1 :: _ => some (normalizeType (rowTypeOf c0), rowCodeOf c1)
  | _ => none

/-- No two rows of the table share a (type, code) pair. -/
def Table.duplicateFree (t : Table) : Prop := (t.allTableRows.filterMap rowKey).Nodup

/-- The located table of a document, if any, has no two rows with the same (type, code) pair. -/
def Document.duplicateFree (d : Document) : Prop :=
  match d.feeSheetTable with
  | some t => t.duplicateFree
  | none => True

instance (t : Table) : Decidable t.duplicateFree := by
  unfold Table.duplicateFree; infer_instance

instance (d : Document) : Decidable d.duplicateFree := by
  unfold Document.duplicateFree
  cases d.feeSheetTable <;> infer_instance

/-- Number of rows of the located table of a document (zero without a table). -/
def Document.tableRowCount (d : Document) : Nat :=
  match d.feeSheetTable with
  | some t => t.rowCount
  | none => 0

/-! ## Concrete pages and data used as examples -/

/-- A header row `Type | Code | Description`. -/
def exHeaderRow : Row :=
  { cells := [textCell "Type", textCell "Code", textCell "Description"],
    innerText := "Type\tCode\tDescription" }

/-- A table holding only the header row. -/
def exHeaderOnly : Table := { thead := [], tbody := [exHeaderRow], rest := [] }

/-- A row of plain text cells. -/
def exRow (type code description : String) : Row :=
  { cells := [textCell type, textCell code, textCell description],
    innerText := String.intercalate "\t" [type, code, description] }

/-- Codes only: the given ICD list and an empty CPT list. -/
def exIcdData (codes : List Code) : InsertData :=
  { soap := none, icdCodes := some codes, cptCodes := some [] }

/-- A document without SOAP fields whose located table is `t`. -/
def exDoc (t : Table) : Document := { elements := [], feeSheetTable := some t }

/-- Scenario D: the table already holds the row `ICD10 | E11.9`. -/
def exScenarioD : Table :=
  { thead := [], tbody := [exHeaderRow, exRow "ICD10" "E11.9" "Type 2 diabetes"], rest := [] }

/-- A table whose rows carry no header text (a page can hold such a table right after a
heading `Selected Fee Sheet Codes`, where the discovery finds it). -/
def exNoHeader : Table :=
  { thead := [], tbody := [exRow "ICD10" "I10" "Hypertension", exRow "CPT4" "99213" "Visit"],
    rest := [] }

/-- The code `E11.9`. -/
def exE119 : Code := { code := "E11.9", description := some "Type 2 diabetes", price := none }

/-- The code `E11.9` written with a leading blank. -/
def exPadded : Code := { code := " E11.9", description := some "Type 2 diabetes", price := none }

/-- The code `J45.909`. -/
def exJ45 : Code := { code := "J45.909", description := some "Asthma", price := none }

/-- A parser for rows whose fields hold no markup: it reads the type, the code and the
description at their places in the template of `rowMarkup` (the first two up to the next
`<`, the description in the `title` up to the closing quote) and builds the row of text
cells.  For such fields this is the row a browser builds. -/
def exParser (markup : String) : Row :=
  let cellOpen := "<td style=\"padding: 8px;\">".length
  let titleOpen := "<td style=\"padding: 8px;\" title=\"".length
  let lineEnd := "</td>\n".length
  let r1 := markup.data.drop (1 + 28 + cellOpen)
  let type := r1.takeWhile (fun c => c != '<')
  let r2 := (r1.dropWhile (fun c => c != '<')).drop (lineEnd + 28 + cellOpen)
  let code := r2.takeWhile (fun c => c != '<')
  let r3 := (r2.dropWhile (fun c => c != '<')).drop (lineEnd + 28 + titleOpen)
  let description := r3.takeWhile (fun c => c != '"')
  textRow { code := String.mk code, description := some (String.mk description), price := none }
    (String.mk type)

/-- A fee-slip response in the format the prompt asks for. -/
def exFeeSlip : JVal :=
  .obj [("patientName", .str "Jane Doe"),
        ("diagnoses", .arr [.str "Type 2 diabetes"]),
        ("services", .arr [.str "Office visit"]),
        ("billing", .obj [("icd", .arr [.obj [("code", .str "E11.9"), ("desc", .str "Type 2 diabetes")]]),
                          ("cpt", .arr [.obj [("code", .str "99213"), ("desc", .str "Office visit"),
                                              ("price", .num 100)]])]),
        ("total", .num 100)]

/-- A response that passes the billing validation but has no `diagnoses` and no `services`. -/
def exBareFeeSlip : JVal :=
  .obj [("billing", .obj [("icd", .arr [.obj [("code", .str "E11.9"), ("desc", .str "Type 2 diabetes")]]),
                          ("cpt", .arr [])])]

/-- A page of encounter 42 of patient 7, a stored API key, and an endpoint that answers. -/
def exFeeSlipEnv : FeeSlipEnv :=
  { page := some { text := "PAGE TYPE: Encounter", metadata := some { pid := some "7", encounter := some "42", url := none } },
    apiKey := "key",
    reply := .text "response text" }

/-- A session that has seen a page. -/
def exSessionWithPage : Session :=
  { extractedContent := "PAGE TYPE: Encounter", lastGeneratedData := .null,
    currentMetadata := some { pid := some "7", encounter := some "42", url := none },
    generatedCodesCache := [] }

/-! ## The built-in `JSON.parse` -/

/-- JSON white space: space, tab, line feed, carriage return. -/
def isJsonWs (c : Char) : Bool := c == ' ' || c == '\t' || c == '\n' || c == '\r'

/-- A lexical token of a JSON text. -/
inductive Token where
  | lbrace
  | rbrace
  | lbracket
  | rbracket
  | colon
  | comma
  | str (value : String)
  | num (text : List Char)
  | word (text : List Char)
  deriving DecidableEq, Repr

/-- What the lexer is reading: nothing, a string, an escape after a backslash, the four
hexadecimal digits of an escape, a number, or a word (`true`, `false`, `null`). -/
inductive LexMode where
  | idle
  | inString (acc : List Char)
  | inEscape (acc : List Char)
  | inUnicode (acc : List Char) (digits : List Char)
  | inNumber (acc : List Char)
  | inWord (acc : List Char)
  deriving DecidableEq, Repr

/-- State of the lexer: the tokens read so far and the current mode. -/
structure LexState where
  tokens : List Token
  mode : LexMode
  deriving DecidableEq, Repr

/-- Characters a number literal is made of. -/
def isNumberChar (c : Char) : Bool :=
  c.isDigit || c == '-' || c == '+' || c == '.' || c == 'e' || c == 'E'

/-- Characters the literals `true`, `false` and `null` are made of. -/
def isWordChar (c : Char) : Bool := c.isLower

/-- How a token may start. -/
inductive StartKind where
  | space
  | punct (t : Token)
  | quote
  | number
  | word
  deriving DecidableEq, Repr

/-- Classification of the first character of a token; `none` for a character that starts none. -/
def startKind (c : Char) : Option StartKind :=
  if isJsonWs c then some .space
  else if c == '{' then some (.punct .lbrace)
  else if c == '}' then some (.punct .rbrace)
  else if c == '[' then some (.punct .lbracket)
  else if c == ']' then some (.punct .rbracket)
  else if c == ':' then some (.punct .colon)
  else if c == ',' then some (.punct .comma)
  else if c == '"' then some .quote
  else if c == '-' || c.isDigit then some .number
  else if isWordChar c then some .word
  else none

/-- The lexer meets `c` between two tokens. -/
def startToken (tokens : List Token) (c : Char) : Option LexState :=
  match startKind c with
  | some .space => some { tokens := tokens, mode := .idle }
  | some (.punct t) => some { tokens := tokens ++ [t], mode := .idle }
  | some .quote => some { tokens := tokens, mode := .inString [] }
  | some .number => some { tokens := tokens, mode := .inNumber [c] }
  | some .word => some { tokens := tokens, mode := .inWord [c] }
  | none => none

/-- The character a one-letter escape stands for. -/
def escapeChar (c : Char) : Option Char :=
  if c == '"' then some '"'
  else if c == '\\' then some '\\'
  else if c == '/' then some '/'
  else if c == 'b' then some (Char.ofNat 8)
  else if c == 'f' then some (Char.ofNat 12)
  else if c == 'n' then some '\n'
  else if c == 'r' then some '\r'
  else if c == 't' then some '\t'
  else none

/-- Value of a hexadecimal digit. -/
def hexDigitValue (c : Char) : Option Nat :=
  if c.isDigit then some (c.toNat - 48)
  else if 'a' ≤ c && c ≤ 'f' then some (c.toNat - 87)
  else if 'A' ≤ c && c ≤ 'F' then some (c.toNat - 55)
  else none

/-- Value of a run of hexadecimal digits. -/
def hexValue (digits : List Char) : Nat :=
  digits.foldl (fun n c => 16 * n + (hexDigitValue c).getD 0) 0

/-- One step of the lexer. -/
def lexStep (st : LexState) (c : Char) : Option LexState :=
  match st.mode with
  | .idle => startToken st.tokens c
  | .inString acc =>
    if c == '"' then some { tokens := st.tokens ++ [.str ⟨acc⟩], mode := .idle }
    else if c == '\\' then some { tokens := st.tokens, mode := .inEscape acc }
    else if c.toNat < 32 then none
    else some { tokens := st.tokens, mode := .inString (acc ++ [c]) }
  | .inEscape acc =>
    if c == 'u' then some { tokens := st.tokens, mode := .inUnicode acc [] }
    else
      match escapeChar c with
      | some e => some { tokens := st.tokens, mode := .inString (acc ++ [e]) }
      | none => none
  | .inUnicode acc digits =>
    match hexDigitValue c with
    | none => none
    | some _ =>
      if digits.length == 3 then
        some { tokens := st.tokens
               mode := .inString (acc ++ [Char.ofNat (hexValue (digits ++ [c]))]) }
      else some { tokens := st.tokens, mode := .inUnicode acc (digits ++ [c]) }
  | .inNumber acc =>
    if isNumberChar c then some { tokens := st.tokens, mode := .inNumber (acc ++ [c]) }
    else startToken (st.tokens ++ [.num acc]) c
  | .inWord acc =>
    if isWordChar c then some { tokens := st.tokens, mode := .inWord (acc ++ [c]) }
    else startToken (st.tokens ++ [.word acc]) c

/-- End of input: a number or a word in progress is complete, a string in progress is not. -/
def lexFinish (st : LexState) : Option (List Token) :=
  match st.mode with
  | .idle => some st.tokens
  | .inNumber acc => some (st.tokens ++ [.num acc])
  | .inWord acc => some (st.tokens ++ [.word acc])
  | _ => none

/-- The tokens of a text, `none` when it is lexically ill-formed. -/
def tokenize (s : List Char) : Option (List Token) :=
  (s.foldlM lexStep { tokens := [], mode := .idle }).bind lexFinish

/-- Value of a run of decimal digits. -/
def decimalValue (digits : List Char) : Nat :=
  digits.foldl (fun n c => 10 * n + (c.toNat - 48)) 0

/-- The exponent part of a number literal is well formed: `e` or `E`, an optional sign, digits. -/
def validExponent : List Char → Bool
  | [] => true
  | e :: rest =>
    (e == 'e' || e == 'E') &&
      (match rest with
       | s :: ds => if s == '+' || s == '-' then !ds.isEmpty && ds.all Char.isDigit
                    else (s :: ds).all Char.isDigit
       | [] => false)

/-- The value of a number token, `none` when the text is not a JSON number. -/
def numberValue (text : List Char) : Option JVal :=
  let negative := text.head? == some '-'
  let r0 := if negative then text.drop 1 else text
  let intDigits := r0.takeWhile Char.isDigit
  let r1 := r0.dropWhile Char.isDigit
  let intOk := !intDigits.isEmpty && (intDigits.length == 1 || intDigits.head? != some '0')
  if !intOk then none
  else
    match r1 with
    | [] => some (.num (if negative then - (decimalValue intDigits : Int) else decimalValue intDigits))
    | c :: r =>
      if c == '.' then
        let fracDigits := r.takeWhile Char.isDigit
        if fracDigits.isEmpty then none
        else if validExponent (r.dropWhile Char.isDigit) then some (.numLit ⟨text⟩) else none
      else if validExponent (c :: r) then some (.numLit ⟨text⟩) else none

/-- The value of a word token. -/
def wordValue (text : List Char) : Option JVal :=
  if text == "true".data then some (.bool true)
  else if text == "false".data then some (.bool false)
  else if text == "null".data then some .null
  else none

/-- Definition of a property while an object is built: a repeated key keeps its place and
takes the later value. -/
def setField (fields : List (String × JVal)) (key : String) (value : JVal) :
    List (String × JVal) :=
  if fields.any (fun f => f.1 == key) then
    fields.map (fun f => if f.1 == key then (key, value) else f)
  else fields ++ [(key, value)]

/-- The elements of an array after `[`, given the parser for one value. -/
def parseElems (parseOne : List Token → Option (JVal × List Token)) :
    Nat → List Token → List JVal → Option (JVal × List Token)
  | 0, _, _ => none
  | k + 1, ts, acc =>
    match parseOne ts with
    | some (v, .comma :: rest) => parseElems parseOne k rest (acc ++ [v])
    | some (v, .rbracket :: rest) => some (.arr (acc ++ [v]), rest)
    | _ => none

/-- The members of an object after `{`, given the parser for one value. -/
def parseMembers (parseOne : List Token → Option (JVal × List Token)) :
    Nat → List Token → List (String × JVal) → Option (JVal × List Token)
  | 0, _, _ => none
  | k + 1, .str key :: .colon :: ts, acc =>
    match parseOne ts with
    | some (v, .comma :: rest) => parseMembers parseOne k rest (setField acc key v)
    | some (v, .rbrace :: rest) => some (.obj (setField acc key v), rest)
    | _ => none
  | _ + 1, _, _ => none

/-- One JSON value at the head of the tokens; the first argument bounds the nesting. -/
def parseValue : Nat → List Token → Option (JVal × List Token)
  | 0, _ => none
  | _ + 1, .str s :: rest => some (.str s, rest)
  | _ + 1, .num text :: rest => (numberValue text).map (fun v => (v, rest))
  | _ + 1, .word text :: rest => (wordValue text).map (fun v => (v, rest))
  | _ + 1, .lbracket :: .rbracket :: rest => some (.arr [], rest)
  | n + 1, .lbracket :: rest => parseElems (fun ts => parseValue n ts) rest.length rest []
  | _ + 1, .lbrace :: .rbrace :: rest => some (.obj [], rest)
  | n + 1, .lbrace :: rest => parseMembers (fun ts => parseValue n ts) rest.length rest []
  | _ + 1, _ => none

/-- A token list that is exactly one JSON value. -/
def parseTokens (ts : List Token) : Option JVal :=
  match parseValue (ts.length + 1) ts with
  | some (v, []) => some v
  | _ => none

/-- The built-in `JSON.parse`: the value of a JSON text, `none` where it throws. -/
def jsonParse (s : String) : Option JVal := (tokenize s.data).bind parseTokens

/-! ## Cleaning and recovery of the response text (`assistant.js`) -/

/-- The method `startsWith`. -/
def startsWith (s start : String) : Bool := start.data.isPrefixOf s.data

/-- The method `endsWith`. -/
def endsWith (s ending : String) : Bool := ending.data.isSuffixOf s.data

/-- The call `s.substring(0, n)`. -/
def substring0 (s : String) (n : Nat) : String := ⟨s.data.take n⟩

/-- Removal of one line feed at the head: the `\n?` after a fence marker. -/
def dropLineFeed : List Char → List Char
  | '\n' :: rest => rest
  | l => l

/-- The call `replace(/MARKER\n?/, '')`: the first occurrence of the marker goes, with the line
feed that follows it. -/
def dropFirstFence (marker : List Char) : List Char → List Char
  | [] => []
  | c :: cs =>
    if marker.isPrefixOf (c :: cs) then dropLineFeed ((c :: cs).drop marker.length)
    else c :: dropFirstFence marker cs

/-- The call `replace(/```$/, '')`: three backticks at the very end go. -/
def dropTrailingFence (l : List Char) : List Char :=
  if "```".data.isSuffixOf l then l.take (l.length - 3) else l

/-- The two statements under "Clean up if model adds markdown". -/
def cleanFences (jsonStr : String) : String :=
  let s1 : String :=
    if startsWith jsonStr "```json" then
      ⟨dropTrailingFence (dropFirstFence "```json".data jsonStr.data)⟩
    else jsonStr
  if startsWith s1 "```" then ⟨dropTrailingFence (dropFirstFence "```".data s1.data)⟩
  else s1

/-- The call `replace(/([^\\])C/g, '$1' + escape)` for a control character `C`: the matches
are found from left to right and do not overlap, each taking the character before `C`. -/
def replaceControl (control : Char) (escape : List Char) : List Char → List Char
  | [] => []
  | [x] => [x]
  | x :: y :: rest =>
    if x != '\\' && y == control then x :: (escape ++ replaceControl control escape rest)
    else x :: replaceControl control escape (y :: rest)

/-- One statement `if (sanitized.startsWith(C)) sanitized = escape + sanitized.substring(1)`. -/
def replaceLeading (control : Char) (escape : List Char) : List Char → List Char
  | [] => []
  | x :: rest => if x == control then escape ++ rest else x :: rest

/-- The sanitization pass: three replacements, then the three checks of the first character. -/
def sanitize (jsonStr : String) : String :=
  let s1 := replaceControl '\n' "\\n".data jsonStr.data
  let s2 := replaceControl '\r' "\\n".data s1
  let s3 := replaceControl '\t' "\\t".data s2
  let s4 := replaceLeading '\n' "\\n".data s3
  let s5 := replaceLeading '\r' "\\n".data s4
  ⟨replaceLeading '\t' "\\t".data s5⟩

/-- The parse with its sanitised retry: `JSON.parse(jsonStr)`, and on failure
`JSON.parse(sanitized)`; `none` when both throw. -/
def parseWithRetry (parseJson : String → Option JVal) (jsonStr : String) : Option JVal :=
  match parseJson jsonStr with
  | some result => some result
  | none => parseJson (sanitize jsonStr)

/-- The text-to-value stage of `handleFeeSlipGeneration`: trim, fence clean-up, parse with
sanitised retry. -/
def feeSlipParse (parseJson : String → Option JVal) (text : String) : Option JVal :=
  parseWithRetry parseJson (cleanFences (jsTrim text))

/-- Scan for `lastIndexOf`: `best` is the last position found before position `i`. -/
def lastIndexFrom (c : Char) : List Char → Nat → Int → Int
  | [], _, best => best
  | x :: xs, i, best => lastIndexFrom c xs (i + 1) (if x == c then (i : Int) else best)

/-- The method `lastIndexOf` for one character: `-1` when it does not occur. -/
def lastIndexOf (s : String) (c : Char) : Int := lastIndexFrom c s.data 0 (-1)

/-- The count `(jsonStr.match(/C/g) || []).length` for one character. -/
def countChar (s : String) (c : Char) : Nat := s.data.count c

/-- The text-to-value stage of `handleSoapGeneration`, from `data.content[0].text` and
`data.stop_reason` to the parsed result or the message of the error thrown. -/
def soapRecover (parseJson : String → Option JVal) (content stopReason : String) :
    Except String JVal :=
  let trimmed := jsTrim content
  if stopReason == "max_tokens" then
    .error ("The SOAP note was too long and got cut off. Try reducing the encounter details " ++
      "or generate a shorter note.")
  else
    let jsonStr := cleanFences trimmed
    if !endsWith (jsTrim jsonStr) "\x7d" then
      .error "The AI response was incomplete (no closing brace). Please try again."
    else
      let openBraces := countChar jsonStr '{'
      let closeBraces := countChar jsonStr '}'
      if openBraces != closeBraces then
        .error ("The AI response has mismatched braces (" ++ toString openBraces ++ " open, " ++
          toString closeBraces ++ " close). Please try again.")
      else if lastIndexOf jsonStr '"' > lastIndexOf jsonStr '}' then
        .error "The AI response has an unclosed string. Please try again."
      else
        match parseWithRetry parseJson jsonStr with
        | some result => .ok result
        | none => .error "The AI returned invalid JSON. Please try generating the note again."

/-- The values the SOAP message interpolates. -/
structure RenderedSoap where
  subjective : JVal
  objective : JVal
  assessment : JVal
  plan : JVal

/-- A message added to the conversation by `handleSoapGeneration`. -/
inductive SoapShown where
  | note (soap : RenderedSoap)
  | notice (text : String)
  | failure (text : String)

/-- What a SOAP request finds around it: the stored API key, the reply of the endpoint and
its `stop_reason`. -/
structure SoapEnv where
  apiKey : String
  reply : EndpointReply
  stopReason : String
  deriving DecidableEq, Repr

/-- Outcome of one call of `handleSoapGeneration`. -/
structure SoapRun where
  session : Session
  shown : SoapShown
  endpointCalls : Nat

/-- The check `!result.soap_content || !result.soap_content.subjective`, negated: the
`soap_content` of a response that passes validation, `none` for one that does not. -/
def validSoap (result : JVal) : Except String (Option JVal) := do
  let soapContent ← result.getProp "soap_content"
  if !soapContent.truthy then pure none
  else
    let subjective ← soapContent.getProp "subjective"
    if !subjective.truthy then pure none else pure (some soapContent)

/-- Evaluation of the SOAP template literal. -/
def renderSoap (soapContent : JVal) : Except String RenderedSoap := do
  let subjective ← soapContent.getProp "subjective"
  let objective ← soapContent.getProp "objective"
  let assessment ← soapContent.getProp "assessment"
  let plan ← soapContent.getProp "plan"
  pure { subjective, objective, assessment, plan }

/-- The `try` block of `handleSoapGeneration` after the request was sent. -/
def soapTry (parseJson : String → Option JVal) (env : SoapEnv) (s : Session) :
    Session × Except String RenderedSoap :=
  match env.reply with
  | .failure message => (s, .error message)
  | .error message => (s, .error message)
  | .text content =>
    match soapRecover parseJson content env.stopReason with
    | .error e => (s, .error e)
    | .ok result =>
      match validSoap result with
      | .error e => (s, .error e)
      | .ok none => (s, .error "The AI response is missing required SOAP sections.")
      | .ok (some soapContent) =>
        ({ s with lastGeneratedData := .obj [("soap", soapContent)] }, renderSoap soapContent)

/-- The function `handleSoapGeneration`. -/
def handleSoapGeneration (parseJson : String → Option JVal) (env : SoapEnv) (s : Session) :
    SoapRun :=
  if s.extractedContent = "" then
    { session := s
      shown := .notice "I couldn't find any clinical content on this page to analyze."
      endpointCalls := 0 }
  else if env.apiKey = "" then
    { session := s
      shown := .notice "Please set your Anthropic API key in the extension settings."
      endpointCalls := 0 }
  else
    match soapTry parseJson env s with
    | (s2, .ok soap) => { session := s2, shown := .note soap, endpointCalls := 1 }
    | (s2, .error message) =>
      { session := s2
        shown := .failure ("❌ I had trouble generating the note: " ++
          strOr message "Unknown error occurred")
        endpointCalls := 1 }

/-! ## Page extraction and frame aggregation (`assistant.js`) -/

/-- An element of the document as the label search sees it: its `textContent` and the
`textContent` of the element the search reads the value from (the next element sibling, or
the next element sibling of the parent), `none` when there is no such element. -/
structure LabelCandidate where
  textContent : String
  valueText : Option String
  deriving DecidableEq, Repr

/-- What `pageExtractor` reads from a frame's document.  Each field is the result of one DOM
query: `none` stands for "no such element" (or a missing query parameter). -/
structure PageDom where
  title : String
  href : String
  pidParam : Option String
  encounterParam : Option String
  patientText : Option String
  demographicsText : Option String
  vitalsText : Option String
  medicationsText : Option String
  allergiesText : Option String
  problemsText : Option String
  textareaValues : List String
  elements : List LabelCandidate
  reasonInputValues : List String
  body : Option String
  tableTexts : List String
  pidInputValue : Option String
  deriving DecidableEq, Repr

/-- A metadata object: keys with their values, `none` for `null`. -/
abbrev MetaObject := List (String × Option String)

/-- The object a frame returns: its text and, except on the failure path, its metadata. -/
structure FrameResult where
  text : String
  metadata : Option MetaObject
  deriving DecidableEq, Repr

/-- The `if`/`else if` chain under "Detect page type". -/
def pageTypeOf (title href : String) : String :=
  let pageTitle := toLowerCase title
  let url := toLowerCase href
  if includes url "fee_sheet" || includes pageTitle "fee sheet" then "Fee Sheet"
  else if includes url "encounter" || includes pageTitle "encounter" then "Encounter"
  else if includes url "patient_file" || includes url "demographics" then "Patient Chart"
  else if includes url "dashboard" then "Dashboard"
  else ""

/-- The loop over the textareas: values longer than 10 characters, each followed by a line feed. -/
def soapNotesOf : List String → String
  | [] => ""
  | value :: more =>
    if value != "" && value.length > 10 then value ++ "\n" ++ soapNotesOf more
    else soapNotesOf more

/-- The filter of Method 1: the trimmed, lower-cased text is one of the three labels. -/
def isReasonLabel (el : LabelCandidate) : Bool :=
  let text := toLowerCase (jsTrim el.textContent)
  text == "reason for visit" || text == "chief complaint" || text == "reason for visit:"

/-- The loop of Method 1 over the labels: the first value text of more than 5 and fewer than
500 characters; the empty string when the loop ends without one. -/
def chiefFromLabels : List LabelCandidate → String
  | [] => ""
  | label :: more =>
    match label.valueText with
    | some raw =>
      let text := jsTrim raw
      if text != "" && text.length > 5 && text.length < 500 then text
      else chiefFromLabels more
    | none => chiefFromLabels more

/-- The loop of Method 2 over the inputs: the first trimmed value of more than 5 characters. -/
def chiefFromInputs : List String → String
  | [] => ""
  | raw :: more =>
    let value := jsTrim raw
    if value != "" && value.length > 5 then value else chiefFromInputs more

/-- Position search for `Reason For Visit` without regard to case: the text after the first
occurrence. -/
def afterReasonForVisit : List Char → Option (List Char)
  | [] => none
  | c :: cs =>
    if "reason for visit".data.isPrefixOf ((c :: cs).map Char.toLower) then
      some ((c :: cs).drop 16)
    else afterReasonForVisit cs

/-- The class `[:\s]` of the regular expression. -/
def isColonOrSpace (c : Char) : Bool := c == ':' || jsIsWhiteSpace c

/-- The capture group of `bodyText.match(/Reason For Visit[:\s]*([^\n]+)/i)`: after the run of
colons and white space, the rest of the line; when the text ends with that run, the run gives
back its last character that is not a line feed. -/
def reasonMatch (bodyText : String) : Option String :=
  match afterReasonForVisit bodyText.data with
  | none => none
  | some rest =>
    let run := rest.takeWhile isColonOrSpace
    match rest.dropWhile isColonOrSpace with
    | c :: more => some ⟨(c :: more).takeWhile (fun x => x != '\n')⟩
    | [] =>
      match run.reverse.find? (fun x => x != '\n') with
      | some c => some ⟨[c]⟩
      | none => none

/-- Method 3: the trimmed capture, the empty string without a match. -/
def chiefFromBody (bodyText : String) : String :=
  match reasonMatch bodyText with
  | some captured => jsTrim captured
  | none => ""

/-- The variable `chiefComplaint` after the three methods. -/
def chiefComplaintOf (d : PageDom) (bodyText : String) : String :=
  let c1 := chiefFromLabels (d.elements.filter isReasonLabel)
  let c2 := if c1 = "" then chiefFromInputs d.reasonInputValues else c1
  if c2 = "" then chiefFromBody bodyText else c2

/-- The loop over the tables: texts of more than 20 and fewer than 5000 characters. -/
def tableDataOf : List String → String
  | [] => ""
  | text :: more =>
    if text != "" && text.length > 20 && text.length < 5000 then text ++ "\n" ++ tableDataOf more
    else tableDataOf more

/-- One labelled section of the corpus: present when its text is not empty. -/
def sectionOf (label : String) (text : String) (ending : String) : String :=
  if text = "" then "" else label ++ text ++ ending

/-- The labelled sections of `fullText`, before the raw page content. -/
def sectionsOf (d : PageDom) (bodyText : String) : String :=
  "PAGE TYPE: " ++ pageTypeOf d.title d.href ++ " \n\n" ++
  sectionOf "PATIENT: " (strOr (d.patientText.getD "") "") " \n" ++
  sectionOf "DEMOGRAPHICS: " (strOr (d.demographicsText.getD "") "") " \n\n" ++
  sectionOf "⚠️ CHIEF COMPLAINT / REASON FOR VISIT: \n" (chiefComplaintOf d bodyText) " \n\n" ++
  sectionOf "VITALS: \n" (d.vitalsText.getD "") " \n\n" ++
  sectionOf "MEDICATIONS: \n" (d.medicationsText.getD "") " \n\n" ++
  sectionOf "ALLERGIES: \n" (d.allergiesText.getD "") " \n\n" ++
  sectionOf "PROBLEMS: \n" (d.problemsText.getD "") " \n\n" ++
  sectionOf "CLINICAL NOTES: \n" (soapNotesOf d.textareaValues) " \n\n" ++
  sectionOf "TABLE DATA: \n" (tableDataOf d.tableTexts) " \n\n"

/-- The part `rawText.substring(0, 10000)` of the corpus. -/
def rawPartOf (bodyText : String) : String := substring0 bodyText 10000

/-- The variable `fullText`. -/
def fullTextOf (d : PageDom) (bodyText : String) : String :=
  sectionsOf d bodyText ++ "\nRAW PAGE CONTENT: \n" ++ rawPartOf bodyText ++ " "

/-- The identifier `pid` after the fallback to an input named `pid` or `patient_id`. -/
def resolvePid (d : PageDom) : Option String :=
  match d.pidParam with
  | some v => if v = "" then (match d.pidInputValue with | some w => some w | none => some v)
              else some v
  | none => d.pidInputValue

/-- The `catch` branch of `pageExtractor`:
`{ text: document.body?.innerText?.substring(0, 16000) || '' }`. -/
def extractorCatch (body : Option String) : FrameResult :=
  { text := match body with
      | some bodyText => substring0 bodyText 16000
      | none => ""
    metadata := none }

/-- The function `pageExtractor`.  The `try` block raises exactly when the document has no
body, at the read `document.body.innerText`. -/
def pageExtractor (d : PageDom) : FrameResult :=
  match d.body with
  | none => extractorCatch d.body
  | some bodyText =>
    { text := substring0 (fullTextOf d bodyText) 20000
      metadata := some [("pid", resolvePid d), ("encounter", d.encounterParam),
                        ("url", some d.href)] }

/-- The earlier declaration of `aggregateResults` (overridden by the later one). -/
def aggregateResultsEarlier (results : List FrameResult) : String :=
  String.intercalate "\n\n--- FRAME BOUNDARY ---\n\n" (results.map (fun r => r.text))

/-- Assignment of one property in a metadata object: an existing key keeps its place. -/
def setMeta (acc : MetaObject) (key : String) (value : Option String) : MetaObject :=
  if acc.any (fun f => f.1 == key) then
    acc.map (fun f => if f.1 == key then (key, value) else f)
  else acc ++ [(key, value)]

/-- The object spread `{ ...acc, ...metadata }`; spreading `undefined` adds nothing. -/
def spreadMeta (acc : MetaObject) (metadata : Option MetaObject) : MetaObject :=
  match metadata with
  | some m => m.foldl (fun a f => setMeta a f.1 f.2) acc
  | none => acc

/-- The later declaration of `aggregateResults`, the one in effect. -/
def aggregateResults (results : List FrameResult) : String × MetaObject :=
  (String.intercalate "\n" (results.map (fun r => r.text)),
   results.foldl (fun acc r => spreadMeta acc r.metadata) [])

/-- The read of a key of the merged metadata: `none` for `null` and for a missing key. -/
def metaGet (m : MetaObject) (key : String) : Option String := (m.lookup key).join

/-- The merged metadata as `currentMetadata`. -/
def Metadata.ofObject (m : MetaObject) : Metadata :=
  { pid := metaGet m "pid", encounter := metaGet m "encounter", url := metaGet m "url" }

/-- The function `getPageContent` on the results of the frames (`null` results are filtered
out): the text returned and the metadata stored in `currentMetadata`. -/
def getPageContent (frames : List (Option FrameResult)) : PageContent :=
  let agg := aggregateResults (frames.filterMap id)
  { text := agg.1, metadata := some (Metadata.ofObject agg.2) }

/-! ## Prompts and intent routing -/

/-- The corpus part of the fee-slip prompt: `extractedContent.substring(0, 4000)`. -/
def feeSlipCorpus (extractedContent : String) : String := substring0 extractedContent 4000

/-- The corpus part of the SOAP prompt of `assistant.js`: `extractedContent.substring(0, 2500)`. -/
def soapCorpus (extractedContent : String) : String := substring0 extractedContent 2500

/-- The variable `truncatedContent` of `generateSoap` in `popup.js`. -/
def truncatedContent (content : String) : String :=
  if content.length > 4000 then substring0 content 4000 ++ "..." else content

/-- A prompt template: fixed text, the corpus part, fixed text. -/
def promptOf (head corpus tail : String) : String := head ++ corpus ++ tail

/-- The branch `handleUserMessage` takes. -/
inductive Intent where
  | soap
  | feeSlip
  | codeExtraction
  | generalChat
  deriving DecidableEq, Repr

/-- The `if`/`else if` chain under "Process Intent" of `handleUserMessage`. -/
def routeIntent (text : String) : Intent :=
  let lowerText := toLowerCase text
  if includes lowerText "draft soap" || (includes lowerText "soap" && includes lowerText "note")
  then .soap
  else if includes lowerText "fee slip" || includes lowerText "superbill" then .feeSlip
  else if includes lowerText "find codes" ||
    (includes lowerText "code" && includes lowerText "extract") then .codeExtraction
  else .generalChat

/-- The follow-up suggestions of `createResponseFooter(intent)`. -/
def footerSuggestions (intent : String) : List String :=
  if intent = "summary" then
    ["Draft a SOAP note", "Find billing codes", "What are the current vital signs?"]
  else if intent = "soap" then
    ["Generate billing codes for this visit", "Summarize patient history",
     "What are the current medications?"]
  else if intent = "codes" then
    ["Draft a SOAP note", "Summarize patient history", "What are the current vital signs?"]
  else ["Draft a SOAP note", "Find billing codes", "Summarize patient history"]

/-- The statement `extractedContent = await getPageContent()` of `handleUserMessage`: the text
and the metadata of the page now shown replace the stored ones. -/
def refreshContext (page : PageContent) (s : Session) : Session :=
  { s with extractedContent := page.text, currentMetadata := page.metadata }

/-! ## Further examples and definitions used to state the properties -/

/-- A page with a body and nothing else. -/
def exBarePage (bodyText : String) : PageDom :=
  { title := "", href := "http://emr.example/interface/main.php", pidParam := none,
    encounterParam := none, patientText := none, demographicsText := none, vitalsText := none,
    medicationsText := none, allergiesText := none, problemsText := none,
    textareaValues := [], elements := [], reasonInputValues := [], body := some bodyText,
    tableTexts := [], pidInputValue := none }

/-- A body text of 10001 characters. -/
def exLongBody : String := ⟨List.replicate 10001 'x'⟩

/-- Two fragments without metadata. -/
def exTwoFragments : List FrameResult :=
  [{ text := "main frame", metadata := none }, { text := "inner frame", metadata := none }]

/-- A page of the fee sheet whose address has `pid` but no `encounter`. -/
def exFeeSheetPage : PageDom :=
  { title := "Fee Sheet", href := "http://emr.example/interface/fee_sheet.php?pid=7",
    pidParam := some "7", encounterParam := none, patientText := none,
    demographicsText := none, vitalsText := none, medicationsText := none,
    allergiesText := none, problemsText := none, textareaValues := [], elements := [],
    reasonInputValues := [], body := some "Fee Sheet", tableTexts := [],
    pidInputValue := none }

/-- A corpus of 4001 characters. -/
def exLongCorpus : String := ⟨List.replicate 4001 'x'⟩

/-- The last value written for a key by a list of fragments, in list order: `none` when no
fragment's metadata has the key, `some none` when the last one has it with `null`. -/
def lastWrite (results : List FrameResult) (key : String) : Option (Option String) :=
  results.reverse.findSome? (fun r =>
    match r.metadata with
    | some m => m.reverse.lookup key
    | none => none)

/-- Strategy (a) of the chief complaint as a search: the first value text next to a reason
label that, trimmed, has more than 5 and fewer than 500 characters. -/
def strategyLabel (d : PageDom) : Option String :=
  (((d.elements.filter isReasonLabel).filterMap (fun l => l.valueText)).map jsTrim).find?
    (fun t => t.length > 5 && t.length < 500)

/-- Strategy (b): the first reason or chief input whose trimmed value has more than 5 characters. -/
def strategyInput (d : PageDom) : Option String :=
  (d.reasonInputValues.map jsTrim).find? (fun v => v.length > 5)

/-- Strategy (c): the trimmed capture of the regular expression on the body text, when not empty. -/
def strategyBody (bodyText : String) : Option String :=
  ((reasonMatch bodyText).map jsTrim).filter (fun t => t != "")

/-- The labels of the page type in priority order, each with its test on the lower-cased
address and title. -/
def pageTypeRules : List (String × (String → String → Bool)) :=
  [("Fee Sheet", fun url title => includes url "fee_sheet" || includes title "fee sheet"),
   ("Encounter", fun url title => includes url "encounter" || includes title "encounter"),
   ("Patient Chart", fun url _ => includes url "patient_file" || includes url "demographics"),
   ("Dashboard", fun url _ => includes url "dashboard")]

/-- Some control character of the text is not immediately preceded by a backslash; `prev` is
the character before the text, `none` at position 0. -/
def hasBareControl : Option Char → List Char → Bool
  | _, [] => false
  | prev, c :: cs =>
    ((c == '\n' || c == '\r' || c == '\t') && prev != some '\\') || hasBareControl (some c) cs

/-- Every line feed written as the two-character escape. -/
def escapeNewlines : List Char → List Char
  | [] => []
  | c :: cs => if c == '\n' then '\\' :: 'n' :: escapeNewlines cs else c :: escapeNewlines cs

/-- The text has no carriage return and no tab, and none of its line feeds follows a backslash
or another line feed; `prev` is the character before the text, `none` at position 0. -/
def isolatedNewlines : Option Char → List Char → Bool
  | _, [] => true
  | prev, c :: cs =>
    c != '\r' && c != '\t' && (c != '\n' || (prev != some '\\' && prev != some '\n')) &&
      isolatedNewlines (some c) cs

/-- A page of encounter `1_2` of patient `3`. -/
def exPageA : PageContent :=
  { text := "PAGE TYPE: Encounter", metadata := some { pid := some "3", encounter := some "1_2", url := none } }

/-- A page of encounter `1` of patient `2_3`. -/
def exPageB : PageContent :=
  { text := "PAGE TYPE: Fee Sheet", metadata := some { pid := some "2_3", encounter := some "1", url := none } }

/-- The text of a fee-slip response in the format the prompt asks for. -/
def exFeeSlipText : String :=
  "\x7b\"patientName\":\"Jane Doe\",\"diagnoses\":[\"Type 2 diabetes\"],\"services\":[\"Office visit\"]," ++
  "\"billing\":\x7b\"icd\":[\x7b\"code\":\"E11.9\",\"desc\":\"Type 2 diabetes\"\x7d]," ++
  "\"cpt\":[\x7b\"code\":\"99213\",\"desc\":\"Office visit\",\"price\":100\x7d]\x7d,\"total\":100\x7d"

/-- The text of a response with billing codes but no `diagnoses` and no `services`. -/
def exBareFeeSlipText : String :=
  "\x7b\"billing\":\x7b\"icd\":[\x7b\"code\":\"E11.9\",\"desc\":\"Type 2 diabetes\"\x7d],\"cpt\":[]\x7d\x7d"

/-- A SOAP response whose subjective text contains one opening brace. -/
def exBraceInText : String :=
  "\x7b\"soap_content\":\x7b\"subjective\":\"pain \x7b\",\"objective\":\"y\",\"assessment\":\"z\",\"plan\":\"w\"\x7d\x7d"

/-- A stored API key and an endpoint that answers with the given text and stop reason. -/
def exSoapEnv (content stopReason : String) : SoapEnv :=
  { apiKey := "key", reply := .text content, stopReason := stopReason }

/-- A response whose `icd` is a text, not a list. -/
def exIcdTextSlip : String := "\x7b\"billing\":\x7b\"icd\":\"E11.9\",\"cpt\":[]\x7d\x7d"

/-- A SOAP response with a subjective text and nothing else. -/
def exSubjectiveOnly : String := "\x7b\"soap_content\":\x7b\"subjective\":\"x\"\x7d\x7d"

/-- Scenario B: a response with three opening and two closing braces. -/
def exScenarioB : String := "\x7b\"soap_content\":\x7b\"subjective\":\"\x7bx\"\x7d\x7d"

/-- A response cut off inside a string value. -/
def exCutOff : String := "\x7b\"soap_content\":\x7b\"subjective\":\"x"

/-- Scenario A: the SOAP response inside a fence. -/
def exScenarioA : String :=
  "```json\n\x7b\"soap_content\":\x7b\"subjective\":\"x\",\"objective\":\"y\",\"assessment\":\"z\",\"plan\":\"w\"\x7d\x7d\n```"

/-- A multi-line, indented object with a line feed inside its string value. -/
def exMultiLine : String := "\x7b\n  \"note\": \"first\nsecond\"\n\x7d"

/-- The same object on one line. -/
def exOneLine : String := "\x7b\"note\": \"first\nsecond\"\x7d"

/-- The condition under which a parsed SOAP response is accepted, read off an object: its
`soap_content` is an object whose `subjective` is present and truthy. -/
def soapAccepted (fields : List (String × JVal)) : Option JVal :=
  match fields.lookup "soap_content" with
  | some (.obj inner) =>
    if ((inner.lookup "subjective").getD .undefined).truthy then some (.obj inner) else none
  | _ => none

/-- The condition under which a parsed fee-slip response passes validation, read off an
object: its `billing` is an object whose `icd` and `cpt` are present and truthy. -/
def billingAccepted (fields : List (String × JVal)) : Bool :=
  match fields.lookup "billing" with
  | some (.obj inner) =>
    ((inner.lookup "icd").getD .undefined).truthy && ((inner.lookup "cpt").getD .undefined).truthy
  | _ => false

/-- A text inside a fence: the opening marker, an optional line feed, the text, an optional
line feed, the closing marker. -/
def fenced (marker : String) (afterOpen beforeClose : Bool) (j : String) : String :=
  marker ++ (if afterOpen then "\n" else "") ++ j ++ (if beforeClose then "\n" else "") ++ "```"
/-! ## Lemmas on strings -/

theorem jsIsWhiteSpace_toUpper (c : Char) : jsIsWhiteSpace c.toUpper = jsIsWhiteSpace c := by
  by_cases h : 97 ≤ c.toNat ∧ c.toNat ≤ 122
  · obtain ⟨n, hn⟩ : ∃ n, c.toNat = n := ⟨_, rfl⟩
    rw [hn] at h
    have hc : c = Char.ofNat n := by rw [← hn, Char.ofNat_toNat]
    subst hc
    obtain ⟨h1, h2⟩ := h
    interval_cases n <;> decide
  · have : c.toUpper = c := by
      unfold Char.toUpper
      simp only [ge_iff_le]
      rw [if_neg h]
    rw [this]

theorem toUpper_toUpper (c : Char) : c.toUpper.toUpper = c.toUpper := by
  by_cases h : 97 ≤ c.toNat ∧ c.toNat ≤ 122
  · obtain ⟨n, hn⟩ : ∃ n, c.toNat = n := ⟨_, rfl⟩
    rw [hn] at h
    have hc : c = Char.ofNat n := by rw [← hn, Char.ofNat_toNat]
    subst hc
    obtain ⟨h1, h2⟩ := h
    interval_cases n <;> decide
  · have : c.toUpper = c := by
      unfold Char.toUpper
      simp only [ge_iff_le]
      rw [if_neg h]
    rw [this, this]

theorem filter_dropWhile_not (p : Char → Bool) (l : List Char) :
    (l.dropWhile p).filter (fun c => !p c) = l.filter (fun c => !p c) := by
  induction l with
  | nil => rfl
  | cons a l ih =>
    by_cases h : p a = true
    · simp [List.dropWhile, h, ih]
    · simp [List.dropWhile, h]

theorem filter_trimChars (l : List Char) :
    (trimChars l).filter (fun c => !jsIsWhiteSpace c) = l.filter (fun c => !jsIsWhiteSpace c) := by
  unfold trimChars
  rw [List.filter_reverse, filter_dropWhile_not, List.filter_reverse, List.reverse_reverse,
    filter_dropWhile_not]

theorem normalizeType_rowType (s : String) :
    normalizeType (toUpperCase (jsTrim s)) = normalizeType s := by
  simp only [normalizeType, toUpperCase, stripWhiteSpace, jsTrim]
  congr 1
  rw [List.filter_map]
  have hcomp : ((fun c => !jsIsWhiteSpace c) ∘ Char.toUpper) = (fun c => !jsIsWhiteSpace c) := by
    funext c
    simp [Function.comp, jsIsWhiteSpace_toUpper]
  rw [hcomp, filter_trimChars, List.map_map]
  apply List.map_congr_left
  intro c _
  simp [Function.comp, toUpper_toUpper]

/-! ## Lemmas on the header search -/

theorem takeWhile_append_stop {α : Type} (p : α → Bool) (before : List α) (h : α)
    (after : List α) (hb : ∀ x ∈ before, p x = true) (hh : p h = false) :
    (before ++ h :: after).takeWhile p = before ∧
      (before ++ h :: after).dropWhile p = h :: after := by
  induction before with
  | nil => simp [List.takeWhile, List.dropWhile, hh]
  | cons a l ih =>
    have ha : p a = true := hb a (List.mem_cons_self _ _)
    have hl : ∀ x ∈ l, p x = true := fun x hx => hb x (List.mem_cons_of_mem _ hx)
    obtain ⟨h1, h2⟩ := ih hl
    simp [List.takeWhile, List.dropWhile, ha, h1, h2]

theorem span_append_stop {α : Type} (p : α → Bool) (before : List α) (h : α)
    (after : List α) (hb : ∀ x ∈ before, p x = true) (hh : p h = false) :
    (before ++ h :: after).span p = (before, h :: after) := by
  obtain ⟨h1, h2⟩ := takeWhile_append_stop p before h after hb hh
  rw [List.span_eq_take_drop, h1, h2]

theorem span_all {α : Type} (p : α → Bool) (l : List α) (hl : ∀ x ∈ l, p x = true) :
    l.span p = (l, []) := by
  rw [List.span_eq_take_drop]
  have h1 : l.takeWhile p = l := List.takeWhile_eq_self_iff.mpr hl
  have h2 : l.dropWhile p = [] := List.dropWhile_eq_nil_iff.mpr hl
  rw [h1, h2]

theorem all_or_split {α : Type} (p : α → Bool) (l : List α) :
    (∀ x ∈ l, p x = true) ∨
      ∃ before h after, l = before ++ h :: after ∧ (∀ x ∈ before, p x = true) ∧ p h = false := by
  induction l with
  | nil => left; simp
  | cons a l ih =>
    by_cases ha : p a = true
    · rcases ih with hall | ⟨before, h, after, rfl, hb, hh⟩
      · left
        intro x hx
        rcases List.mem_cons.mp hx with rfl | hx
        · exact ha
        · exact hall x hx
      · right
        refine ⟨a :: before, h, after, rfl, ?_, hh⟩
        intro x hx
        rcases List.mem_cons.mp hx with rfl | hx
        · exact ha
        · exact hb x hx
    · right
      exact ⟨[], a, l, rfl, by simp, by simpa using ha⟩

theorem locateHeader_found (t : Table) (before : List Row) (h : Row) (after : List Row)
    (ht : t.tbody = before ++ h :: after)
    (hb : ∀ r ∈ before, isHeaderText r.innerText = false)
    (hh : isHeaderText h.innerText = true) :
    locateHeader t = ({ t with tbody := h :: (before ++ after) }, some .tbodyFirst) := by
  have hs : t.tbody.span (fun r => !isHeaderText r.innerText) = (before, h :: after) := by
    rw [ht]
    apply span_append_stop
    · intro x hx; simp [hb x hx]
    · simp [hh]
  unfold locateHeader
  rw [hs]
  cases before with
  | nil =>
    simp only [List.isEmpty_nil, if_true, List.nil_append]
    cases t
    simp only [List.nil_append] at ht
    simp only at ht ⊢
    rw [ht]
  | cons a l => simp

theorem locateHeader_none (t : Table)
    (hb : ∀ r ∈ t.tbody, isHeaderText r.innerText = false) :
    locateHeader t = (t, fallbackHeader t) := by
  have hs : t.tbody.span (fun r => !isHeaderText r.innerText) = (t.tbody, []) := by
    apply span_all
    intro x hx; simp [hb x hx]
  unfold locateHeader
  rw [hs]

/-! ## Lemmas on the insertion -/

theorem addCodes_eq {parseRow : String → Row} (t : Table) (type : String) (codes : List Code) (acc : List Row × Nat) :
    addCodes parseRow t type codes acc =
      (acc.1 ++ pendingRows parseRow t type (some codes), acc.2 + (pendingRows parseRow t type (some codes)).length) := by
  induction codes generalizing acc with
  | nil => simp [addCodes, pendingRows]
  | cons c cs ih =>
    obtain ⟨fragment, n⟩ := acc
    by_cases h : codeExists t c.code type = true
    · simp only [addCodes, h, Bool.not_true, Bool.false_eq_true, if_false]
      rw [ih]
      simp [pendingRows, List.filter_cons, h]
    · have h2 : codeExists t c.code type = false := by simpa using h
      simp only [addCodes, h2, Bool.not_false, if_true]
      rw [ih]
      simp [pendingRows, List.filter_cons, h2]
      omega

theorem addCodeList_eq {parseRow : String → Row} (t : Table) (type : String) (list : Option (List Code))
    (acc : List Row × Nat) :
    addCodeList parseRow t type list acc =
      (acc.1 ++ pendingRows parseRow t type list, acc.2 + (pendingRows parseRow t type list).length) := by
  cases list with
  | none => simp [addCodeList, pendingRows]
  | some codes =>
    simp only [addCodeList]
    split_ifs with h
    · exact addCodes_eq t type codes acc
    · have : codes = [] := by
        cases codes with
        | nil => rfl
        | cons a l => simp at h
      subst this
      simp [pendingRows]

theorem codeExists_congr (t1 t2 : Table) (hperm : t1.allTableRows.Perm t2.allTableRows)
    (codeValue codeType : String) :
    codeExists t1 codeValue codeType = codeExists t2 codeValue codeType := by
  unfold codeExists
  rw [Bool.eq_iff_iff, List.any_eq_true, List.any_eq_true]
  constructor
  · rintro ⟨x, hx, hp⟩; exact ⟨x, hperm.mem_iff.mp hx, hp⟩
  · rintro ⟨x, hx, hp⟩; exact ⟨x, hperm.mem_iff.mpr hx, hp⟩

theorem pendingRows_congr {parseRow : String → Row} (t1 t2 : Table) (hperm : t1.allTableRows.Perm t2.allTableRows)
    (type : String) (list : Option (List Code)) :
    pendingRows parseRow t1 type list = pendingRows parseRow t2 type list := by
  unfold pendingRows
  congr 2
  funext c
  rw [codeExists_congr t1 t2 hperm]

theorem locateHeader_perm (t : Table) :
    (locateHeader t).1.allTableRows.Perm t.allTableRows := by
  rcases all_or_split (fun r => !isHeaderText r.innerText) t.tbody with hall | ⟨before, h, after, ht, hb, hh⟩
  · rw [locateHeader_none t (fun r hr => by simpa using hall r hr)]
  · rw [locateHeader_found t before h after ht (fun r hr => by simpa using hb r hr)
      (by simpa using hh)]
    simp only [Table.allTableRows, ht]
    apply List.Perm.append_right
    apply List.Perm.append_left
    exact (List.perm_middle).symm

theorem insertIntoTable_eq {parseRow : String → Row} (t : Table) (data : InsertData) :
    insertIntoTable parseRow t data =
      if (newRows parseRow t data).length > 0 then
        (insertFragment (locateHeader t).1 (locateHeader t).2 (newRows parseRow t data), true)
      else ((locateHeader t).1, false) := by
  unfold insertIntoTable
  simp only [addCodeList_eq]
  rw [pendingRows_congr _ t (locateHeader_perm t), pendingRows_congr _ t (locateHeader_perm t)]
  simp [newRows]

theorem insertFragment_perm (t : Table) (fragment : List Row) :
    (insertFragment (locateHeader t).1 (locateHeader t).2 fragment).allTableRows.Perm
      (t.allTableRows ++ fragment) := by
  rcases all_or_split (fun r => !isHeaderText r.innerText) t.tbody with
    hall | ⟨before, h, after, ht, hb, hh⟩
  · rw [locateHeader_none t (fun r hr => by simpa using hall r hr)]
    rw [List.perm_iff_count]
    intro a
    unfold fallbackHeader
    cases hth : t.thead with
    | nil =>
      cases htb : t.tbody with
      | nil =>
        simp [insertFragment, Table.allTableRows, hth, htb, List.count_cons, List.count_append]
        omega
      | cons b bs =>
        simp [insertFragment, Table.allTableRows, hth, htb, List.count_cons, List.count_append]
        omega
    | cons r rs =>
      simp only []
      split_ifs with h1 h2
      · simp [insertFragment, Table.allTableRows, hth, List.count_cons, List.count_append]
        omega
      · cases htb : t.tbody with
        | nil => simp [htb] at h2
        | cons b bs =>
          simp [insertFragment, Table.allTableRows, hth, htb, List.count_cons, List.count_append]
          omega
      · simp [insertFragment, Table.allTableRows, hth, List.count_cons, List.count_append]
        omega
  · rw [locateHeader_found t before h after ht (fun r hr => by simpa using hb r hr)
      (by simpa using hh)]
    rw [List.perm_iff_count]
    intro a
    simp [insertFragment, Table.allTableRows, ht, List.count_cons, List.count_append]
    omega

theorem insertIntoTable_perm {parseRow : String → Row} (t : Table) (data : InsertData) :
    (insertIntoTable parseRow t data).1.allTableRows.Perm (t.allTableRows ++ newRows parseRow t data) := by
  rw [insertIntoTable_eq]
  split_ifs with h
  · exact insertFragment_perm t _
  · have : newRows parseRow t data = [] := by
      cases hn : newRows parseRow t data with
      | nil => rfl
      | cons a l => simp [hn] at h
    rw [this, List.append_nil]
    exact locateHeader_perm t

theorem insertIntoTable_flag {parseRow : String → Row} (t : Table) (data : InsertData) :
    (insertIntoTable parseRow t data).2 = decide ((newRows parseRow t data).length > 0) := by
  rw [insertIntoTable_eq]
  split_ifs with h <;> simp [h]

theorem insertIntoTable_rowCount {parseRow : String → Row} (t : Table) (data : InsertData) :
    (insertIntoTable parseRow t data).1.rowCount = t.rowCount + (newRows parseRow t data).length := by
  unfold Table.rowCount
  rw [(insertIntoTable_perm t data).length_eq, List.length_append]

theorem cellText_textCell (s : String) : cellText (textCell s) = s := by
  unfold cellText textCell strOr
  by_cases h : s = ""
  · simp [h]
  · simp [h]

theorem rowMatches_iff (codeValue codeType : String) (row : Row) :
    rowMatches codeValue codeType row = true ↔
      ∃ c0 c1 tail, row.cells = c0 :: c1 :: tail ∧
        normalizeType (cellText c0) = normalizeType codeType ∧ jsTrim (cellText c1) = codeValue := by
  unfold rowMatches
  cases hc : row.cells with
  | nil => simp
  | cons c0 l =>
    cases l with
    | nil => simp
    | cons c1 tail =>
      simp only [rowTypeOf, rowCodeOf, normalizeType_rowType, Bool.and_eq_true, beq_iff_eq]
      constructor
      · rintro ⟨h1, h2⟩; exact ⟨c0, c1, tail, rfl, h1, h2⟩
      · rintro ⟨d0, d1, tl, he, h1, h2⟩
        simp only [List.cons.injEq] at he
        obtain ⟨rfl, rfl, rfl⟩ := he
        exact ⟨h1, h2⟩

theorem codeExists_iff (t : Table) (codeValue codeType : String) :
    codeExists t codeValue codeType = true ↔
      ∃ row ∈ t.allTableRows, ∃ c0 c1 tail, row.cells = c0 :: c1 :: tail ∧
        normalizeType (cellText c0) = normalizeType codeType ∧ jsTrim (cellText c1) = codeValue := by
  unfold codeExists
  rw [List.any_eq_true]
  constructor
  · rintro ⟨row, hr, hm⟩; exact ⟨row, hr, (rowMatches_iff _ _ _).mp hm⟩
  · rintro ⟨row, hr, hm⟩; exact ⟨row, hr, (rowMatches_iff _ _ _).mpr hm⟩

theorem rowMatches_createCodeRow {parseRow : String → Row} (c : Code) (type : String)
    (hc : jsTrim c.code = c.code) (hrow : parseRow (rowMarkup c type) = textRow c type) :
    rowMatches c.code type (createCodeRow parseRow c type) = true := by
  rw [rowMatches_iff]
  unfold createCodeRow
  rw [hrow]
  refine ⟨textCell type, textCell c.code, _, rfl, ?_, ?_⟩
  · rw [cellText_textCell]
  · rw [cellText_textCell, hc]

theorem codeExists_after {parseRow : String → Row} (t : Table) (data : InsertData) (c : Code) (type : String)
    (hc : jsTrim c.code = c.code) (hrow : parseRow (rowMarkup c type) = textRow c type)
    (hmem : codeExists t c.code type = true ∨
      createCodeRow parseRow c type ∈ newRows parseRow t data) :
    codeExists (insertIntoTable parseRow t data).1 c.code type = true := by
  have hperm := @insertIntoTable_perm parseRow t data
  unfold codeExists
  rw [List.any_eq_true]
  rcases hmem with h | h
  · unfold codeExists at h
    rw [List.any_eq_true] at h
    obtain ⟨row, hr, hm⟩ := h
    exact ⟨row, hperm.mem_iff.mpr (List.mem_append_left _ hr), hm⟩
  · exact ⟨_, hperm.mem_iff.mpr (List.mem_append_right _ h), rowMatches_createCodeRow c type hc hrow⟩

theorem pendingRows_after {parseRow : String → Row} (t : Table) (data : InsertData) (type : String)
    (list : Option (List Code))
    (hsub : ∀ c ∈ list.getD [], createCodeRow parseRow c type ∈ pendingRows parseRow t type list →
      createCodeRow parseRow c type ∈ newRows parseRow t data)
    (htrim : ∀ c ∈ list.getD [], jsTrim c.code = c.code)
    (hplain : ∀ c ∈ list.getD [], parseRow (rowMarkup c type) = textRow c type) :
    pendingRows parseRow (insertIntoTable parseRow t data).1 type list = [] := by
  unfold pendingRows
  rw [List.map_eq_nil_iff, List.filter_eq_nil_iff]
  intro c hc
  have : codeExists (insertIntoTable parseRow t data).1 c.code type = true := by
    apply codeExists_after t data c type (htrim c hc) (hplain c hc)
    by_cases h : codeExists t c.code type = true
    · exact Or.inl h
    · right
      apply hsub c hc
      unfold pendingRows
      exact List.mem_map.mpr ⟨c, List.mem_filter.mpr ⟨hc, by simpa using h⟩, rfl⟩
  simp [this]

/-- Supporting fact: when no code carries surrounding white space and the parser builds the
row of text cells for every code (the codes hold no markup), a second run on the table left
by the first finds every code and prepares no row. -/
theorem newRows_second_run {parseRow : String → Row} (t : Table) (data : InsertData)
    (hicd : ∀ c ∈ data.icdCodes.getD [], jsTrim c.code = c.code)
    (hcpt : ∀ c ∈ data.cptCodes.getD [], jsTrim c.code = c.code)
    (hpi : ∀ c ∈ data.icdCodes.getD [], parseRow (rowMarkup c "ICD10") = textRow c "ICD10")
    (hpc : ∀ c ∈ data.cptCodes.getD [], parseRow (rowMarkup c "CPT4") = textRow c "CPT4") :
    newRows parseRow (insertIntoTable parseRow t data).1 data = [] := by
  unfold newRows
  rw [pendingRows_after t data "ICD10" data.icdCodes
      (fun c _ h => List.mem_append_left _ h) hicd hpi,
    pendingRows_after t data "CPT4" data.cptCodes
      (fun c _ h => List.mem_append_right _ h) hcpt hpc]
  rfl

/-! ## Lemmas on the worker as a whole -/

theorem insertionWorker_table {parseRow : String → Row} (data : InsertData) (doc : Document) (t : Table)
    (ht : doc.feeSheetTable = some t)
    (hc : (data.icdCodes.isSome || data.cptCodes.isSome) = true) :
    (insertionWorker parseRow data doc).document.feeSheetTable = some (insertIntoTable parseRow t data).1 := by
  unfold insertionWorker
  simp only [hc, if_true, ht]

theorem insertionWorker_table_noCodes {parseRow : String → Row} (data : InsertData) (doc : Document)
    (hc : (data.icdCodes.isSome || data.cptCodes.isSome) = false) :
    (insertionWorker parseRow data doc).document.feeSheetTable = doc.feeSheetTable := by
  unfold insertionWorker
  simp only [hc, Bool.false_eq_true, if_false]

theorem insertionWorker_table_none {parseRow : String → Row} (data : InsertData) (doc : Document)
    (ht : doc.feeSheetTable = none) :
    (insertionWorker parseRow data doc).document.feeSheetTable = none := by
  unfold insertionWorker
  split_ifs <;> simp [ht]

theorem newRows_noCodes {parseRow : String → Row} (t : Table) (data : InsertData)
    (hc : (data.icdCodes.isSome || data.cptCodes.isSome) = false) : newRows parseRow t data = [] := by
  have h1 : data.icdCodes = none := by
    cases h : data.icdCodes with
    | none => rfl
    | some l => simp [h] at hc
  have h2 : data.cptCodes = none := by
    cases h : data.cptCodes with
    | none => rfl
    | some l => simp [h] at hc
  simp [newRows, pendingRows, h1, h2]

/-- Row count after a run: the rows before plus the prepared new rows. -/
theorem insertionWorker_rowCount {parseRow : String → Row} (data : InsertData) (doc : Document) (t : Table)
    (ht : doc.feeSheetTable = some t) :
    (insertionWorker parseRow data doc).document.tableRowCount = t.rowCount + (newRows parseRow t data).length := by
  cases hc : (data.icdCodes.isSome || data.cptCodes.isSome) with
  | true =>
    unfold Document.tableRowCount
    rw [insertionWorker_table data doc t ht hc]
    exact insertIntoTable_rowCount t data
  | false =>
    unfold Document.tableRowCount
    rw [insertionWorker_table_noCodes data doc hc, ht, newRows_noCodes t data hc]
    rfl

theorem rowKey_createCodeRow {parseRow : String → Row} (c : Code) (type : String)
    (hrow : parseRow (rowMarkup c type) = textRow c type) :
    rowKey (createCodeRow parseRow c type) = some (normalizeType type, jsTrim c.code) := by
  unfold createCodeRow
  rw [hrow]
  show some (normalizeType (rowTypeOf (textCell type)), rowCodeOf (textCell c.code)) = _
  simp only [rowTypeOf, rowCodeOf, cellText_textCell, normalizeType_rowType]

theorem rowKey_of_rowMatches (codeValue codeType : String) (row : Row) :
    rowMatches codeValue codeType row = true ↔
      rowKey row = some (normalizeType codeType, codeValue) := by
  unfold rowMatches rowKey
  cases row.cells with
  | nil => simp
  | cons c0 l =>
    cases l with
    | nil => simp
    | cons c1 tail => simp

theorem keys_pendingRows {parseRow : String → Row} (t : Table) (type : String)
    (list : Option (List Code))
    (htrim : ∀ c ∈ list.getD [], jsTrim c.code = c.code)
    (hplain : ∀ c ∈ list.getD [], parseRow (rowMarkup c type) = textRow c type) :
    (pendingRows parseRow t type list).filterMap rowKey =
      (((list.getD []).filter (fun c => !codeExists t c.code type)).map Code.code).map
        (fun code => (normalizeType type, code)) := by
  unfold pendingRows
  rw [List.filterMap_map, List.map_map]
  rw [← List.filterMap_eq_map]
  apply List.filterMap_congr
  intro c hc
  have hc2 : c ∈ list.getD [] := (List.mem_filter.mp hc).1
  simp [Function.comp, rowKey_createCodeRow c type (hplain c hc2), htrim c hc2]

theorem keys_pendingRows_nodup {parseRow : String → Row} (t : Table) (type : String)
    (list : Option (List Code))
    (htrim : ∀ c ∈ list.getD [], jsTrim c.code = c.code)
    (hplain : ∀ c ∈ list.getD [], parseRow (rowMarkup c type) = textRow c type)
    (hnd : ((list.getD []).map Code.code).Nodup) :
    ((pendingRows parseRow t type list).filterMap rowKey).Nodup := by
  rw [keys_pendingRows t type list htrim hplain]
  apply List.Nodup.map
  · intro a b h
    simpa using h
  · exact hnd.sublist ((List.filter_sublist _).map Code.code)

theorem keys_pendingRows_fresh {parseRow : String → Row} (t : Table) (type : String)
    (list : Option (List Code))
    (htrim : ∀ c ∈ list.getD [], jsTrim c.code = c.code)
    (hplain : ∀ c ∈ list.getD [], parseRow (rowMarkup c type) = textRow c type)
    (k : String × String)
    (hk : k ∈ (pendingRows parseRow t type list).filterMap rowKey) :
    k.1 = normalizeType type ∧ k ∉ t.allTableRows.filterMap rowKey := by
  rw [keys_pendingRows t type list htrim hplain] at hk
  simp only [List.mem_map, List.mem_filter] at hk
  obtain ⟨code, ⟨c, ⟨_, hne⟩, rfl⟩, rfl⟩ := hk
  refine ⟨rfl, ?_⟩
  intro hmem
  rw [List.mem_filterMap] at hmem
  obtain ⟨row, hr, hkey⟩ := hmem
  have : codeExists t c.code type = true := by
    unfold codeExists
    rw [List.any_eq_true]
    exact ⟨row, hr, (rowKey_of_rowMatches _ _ _).mpr hkey⟩
  simp [this] at hne

theorem insertIntoTable_duplicateFree {parseRow : String → Row} (t : Table) (data : InsertData)
    (h0 : t.duplicateFree)
    (hicd : ((data.icdCodes.getD []).map Code.code).Nodup)
    (hcpt : ((data.cptCodes.getD []).map Code.code).Nodup)
    (hti : ∀ c ∈ data.icdCodes.getD [], jsTrim c.code = c.code)
    (htc : ∀ c ∈ data.cptCodes.getD [], jsTrim c.code = c.code)
    (hpi : ∀ c ∈ data.icdCodes.getD [], parseRow (rowMarkup c "ICD10") = textRow c "ICD10")
    (hpc : ∀ c ∈ data.cptCodes.getD [], parseRow (rowMarkup c "CPT4") = textRow c "CPT4") :
    (insertIntoTable parseRow t data).1.duplicateFree := by
  unfold Table.duplicateFree at h0 ⊢
  rw [((insertIntoTable_perm t data).filterMap rowKey).nodup_iff]
  rw [List.filterMap_append, List.nodup_append]
  refine ⟨h0, ?_, ?_⟩
  · unfold newRows
    rw [List.filterMap_append, List.nodup_append]
    refine ⟨keys_pendingRows_nodup t _ _ hti hpi hicd, keys_pendingRows_nodup t _ _ htc hpc hcpt, ?_⟩
    intro k hk1 hk2
    have h1 := (keys_pendingRows_fresh t _ _ hti hpi k hk1).1
    have h2 := (keys_pendingRows_fresh t _ _ htc hpc k hk2).1
    rw [h1] at h2
    revert h2
    decide
  · intro k hk1 hk2
    unfold newRows at hk2
    rw [List.filterMap_append, List.mem_append] at hk2
    rcases hk2 with h | h
    · exact (keys_pendingRows_fresh t _ _ hti hpi k h).2 hk1
    · exact (keys_pendingRows_fresh t _ _ htc hpc k h).2 hk1

theorem writeFirstMatch_inv (value : String) (ids : List String) (st : WorkerState)
    (h : st.inserted = true ↔ st.events ≠ []) :
    (writeFirstMatch value ids st).inserted = true ↔ (writeFirstMatch value ids st).events ≠ [] := by
  induction ids with
  | nil => exact h
  | cons id ids ih =>
    unfold writeFirstMatch
    cases findElement st.elements id with
    | none => exact ih
    | some i => simp

theorem insertSoapFields_inv (soap : Soap) (entries : List (String × List String))
    (st : WorkerState) (h : st.inserted = true ↔ st.events ≠ []) :
    (insertSoapFields soap entries st).inserted = true ↔
      (insertSoapFields soap entries st).events ≠ [] := by
  induction entries generalizing st with
  | nil => exact h
  | cons e more ih =>
    obtain ⟨key, ids⟩ := e
    unfold insertSoapFields
    cases soap.get key with
    | none => exact ih st h
    | some value =>
      simp only []
      split_ifs
      · exact ih _ (writeFirstMatch_inv value ids st h)
      · exact ih st h

theorem soapPhase_inv (data : InsertData) (doc : Document) :
    (soapPhase data doc).inserted = true ↔ (soapPhase data doc).events ≠ [] := by
  unfold soapPhase
  cases data.soap with
  | none => simp
  | some soap => exact insertSoapFields_inv soap _ _ (by simp)

theorem soapPhase_none (data : InsertData) (doc : Document) (h : data.soap = none) :
    (soapPhase data doc).inserted = false := by
  unfold soapPhase
  rw [h]

theorem insertionWorker_events {parseRow : String → Row} (data : InsertData) (doc : Document) :
    (insertionWorker parseRow data doc).events = (soapPhase data doc).events := by
  unfold insertionWorker
  split_ifs
  · cases doc.feeSheetTable <;> rfl
  · rfl

theorem insertionWorker_success {parseRow : String → Row} (data : InsertData) (doc : Document) (t : Table)
    (ht : doc.feeSheetTable = some t) :
    (insertionWorker parseRow data doc).result.success =
      ((soapPhase data doc).inserted || decide ((newRows parseRow t data).length > 0)) := by
  cases hc : (data.icdCodes.isSome || data.cptCodes.isSome) with
  | true =>
    unfold insertionWorker
    simp only [hc, if_true, ht]
    rw [insertIntoTable_flag]
  | false =>
    unfold insertionWorker
    simp only [hc, Bool.false_eq_true, if_false]
    rw [newRows_noCodes t data hc]
    simp

theorem insertionWorker_success_noTable {parseRow : String → Row} (data : InsertData) (doc : Document)
    (ht : doc.feeSheetTable = none) :
    (insertionWorker parseRow data doc).result.success = (soapPhase data doc).inserted := by
  unfold insertionWorker
  split_ifs <;> simp [ht]

theorem insertionWorker_error {parseRow : String → Row} (data : InsertData) (doc : Document) :
    (insertionWorker parseRow data doc).result.error = none := by
  unfold insertionWorker
  split_ifs
  · cases doc.feeSheetTable <;> rfl
  · rfl

/-- Supporting fact: with codes free of surrounding white space and of markup (the parser
builds the row of text cells for each of them) the second run leaves the row count of the
first. -/
theorem insertionWorker_idempotent_of_trimmed {parseRow : String → Row} (data : InsertData)
    (doc : Document)
    (hicd : ∀ c ∈ data.icdCodes.getD [], jsTrim c.code = c.code)
    (hcpt : ∀ c ∈ data.cptCodes.getD [], jsTrim c.code = c.code)
    (hpi : ∀ c ∈ data.icdCodes.getD [], parseRow (rowMarkup c "ICD10") = textRow c "ICD10")
    (hpc : ∀ c ∈ data.cptCodes.getD [], parseRow (rowMarkup c "CPT4") = textRow c "CPT4") :
    (insertionWorker parseRow data (insertionWorker parseRow data doc).document).document.tableRowCount =
      (insertionWorker parseRow data doc).document.tableRowCount := by
  cases ht : doc.feeSheetTable with
  | none =>
    have h1 := @insertionWorker_table_none parseRow data doc ht
    have h2 := @insertionWorker_table_none parseRow data _ h1
    simp [Document.tableRowCount, h1, h2]
  | some t =>
    cases hc : (data.icdCodes.isSome || data.cptCodes.isSome) with
    | true =>
      have h1 := @insertionWorker_table parseRow data doc t ht hc
      rw [insertionWorker_rowCount data _ _ h1, newRows_second_run t data hicd hcpt hpi hpc]
      simp [Document.tableRowCount, h1]
    | false =>
      have h1 := @insertionWorker_table_noCodes parseRow data doc hc
      rw [insertionWorker_rowCount data _ t (by rw [h1, ht]), newRows_noCodes t data hc]
      simp [Document.tableRowCount, h1, ht]

/-- Supporting fact: for the example codes, which hold no markup, the example parser builds
the rows of text cells. -/
theorem exParser_textRow :
    ∀ p ∈ [(exE119, "ICD10"), (exPadded, "ICD10"), (exJ45, "ICD10"), (exE119, "CPT4"),
        (exPadded, "CPT4"), (exJ45, "CPT4")],
      exParser (rowMarkup p.1 p.2) = textRow p.1 p.2 := by
  decide

/-! ## Claims on `insertionWorker` -/

/-- C1. Idempotent insertion, at the input where the code departs from it: the code list holds
the code `" E11.9"` (leading blank).  The first run adds its row to the header-only table; the
second run reads the cell back trimmed, does not recognise the code and adds a second row. -/
theorem insertionWorker_reinserts_padded_code :
    (exDoc exHeaderOnly).tableRowCount = 1 ∧
    (insertionWorker exParser (exIcdData [exPadded]) (exDoc exHeaderOnly)).document.tableRowCount = 2 ∧
    (insertionWorker exParser (exIcdData [exPadded])
      (insertionWorker exParser (exIcdData [exPadded]) (exDoc exHeaderOnly)).document).document.tableRowCount
        = 3 := by
  decide

/-- C2. Duplicate-free writes, at an input where the code departs from it: the ICD list
names `E11.9` twice; both entries are checked against the table only, not against the rows
waiting in the fragment, so for every parser the header-only table ends with the same row
twice after its header, and with a parser that reads the text of the code the table, which
had no duplicate pair, holds the pair (ICD10, E11.9) twice. -/
theorem insertionWorker_repeated_code_duplicates :
    (exDoc exHeaderOnly).duplicateFree ∧
    ¬ (insertionWorker exParser (exIcdData [exE119, exE119])
      (exDoc exHeaderOnly)).document.duplicateFree ∧
    (insertionWorker exParser (exIcdData [exE119, exE119])
      (exDoc exHeaderOnly)).document.tableRowCount = 3 ∧
    ∀ parseRow : String → Row,
      (insertionWorker parseRow (exIcdData [exE119, exE119])
        (exDoc exHeaderOnly)).document.feeSheetTable =
        some { thead := []
               tbody := [exHeaderRow, createCodeRow parseRow exE119 "ICD10",
                         createCodeRow parseRow exE119 "ICD10"]
               rest := [] } := by
  refine ⟨by decide, by decide, by decide, fun _ => rfl⟩

/-- Supporting fact: when the table has no two rows with the same (type, code) pair, no code
occurs twice in the ICD list or twice in the CPT list, no code carries surrounding white
space and the parser builds the row of text cells for every code (the codes hold no markup),
the table after `insertionWorker` has no two rows with the same (type, code) pair. -/
theorem insertionWorker_duplicateFree {parseRow : String → Row} (data : InsertData)
    (doc : Document)
    (h0 : doc.duplicateFree)
    (hicd : ((data.icdCodes.getD []).map Code.code).Nodup)
    (hcpt : ((data.cptCodes.getD []).map Code.code).Nodup)
    (hti : ∀ c ∈ data.icdCodes.getD [], jsTrim c.code = c.code)
    (htc : ∀ c ∈ data.cptCodes.getD [], jsTrim c.code = c.code)
    (hpi : ∀ c ∈ data.icdCodes.getD [], parseRow (rowMarkup c "ICD10") = textRow c "ICD10")
    (hpc : ∀ c ∈ data.cptCodes.getD [], parseRow (rowMarkup c "CPT4") = textRow c "CPT4") :
    (insertionWorker parseRow data doc).document.duplicateFree := by
  cases ht : doc.feeSheetTable with
  | none =>
    have h1 := @insertionWorker_table_none parseRow data doc ht
    simp [Document.duplicateFree, h1]
  | some t =>
    have ht0 : t.duplicateFree := by simpa [Document.duplicateFree, ht] using h0
    cases hc : (data.icdCodes.isSome || data.cptCodes.isSome) with
    | true =>
      have h1 := @insertionWorker_table parseRow data doc t ht hc
      simp only [Document.duplicateFree, h1]
      exact insertIntoTable_duplicateFree t data ht0 hicd hcpt hti htc hpi hpc
    | false =>
      have h1 := @insertionWorker_table_noCodes parseRow data doc hc
      simp only [Document.duplicateFree, h1, ht]
      exact ht0

/-- C3, as stated, fails: the row holds `e11.9`, the candidate is `E11.9`; type and code agree
after stripping white space and upper-casing, yet `codeExists` returns false. -/
theorem codeExists_code_case_sensitive :
    codeExists { thead := [], tbody := [exRow "ICD10" "e11.9" ""], rest := [] } "E11.9" "ICD10"
      = false ∧
    ∃ row ∈ Table.allTableRows { thead := [], tbody := [exRow "ICD10" "e11.9" ""], rest := [] },
      ∃ c0 c1 tail, row.cells = c0 :: c1 :: tail ∧
        normalizeType (cellText c0) = normalizeType "ICD10" ∧
        normalizeType (cellText c1) = normalizeType "E11.9" := by
  refine ⟨by decide, exRow "ICD10" "e11.9" "", by decide, textCell "ICD10", textCell "e11.9",
    [textCell ""], rfl, by decide, by decide⟩

/-- C3, amended. For a candidate code without surrounding white space, `codeExists` returns
true exactly when some row with at least two cells has a type cell equal to the candidate type
after stripping white space and upper-casing both sides, and a code cell equal to the
candidate code after trimming both sides (case kept, inner white space kept). -/
theorem codeExists_iff_trimmed (t : Table) (codeValue codeType : String)
    (hc : jsTrim codeValue = codeValue) :
    codeExists t codeValue codeType = true ↔
      ∃ row ∈ t.allTableRows, ∃ c0 c1 tail, row.cells = c0 :: c1 :: tail ∧
        normalizeType (cellText c0) = normalizeType codeType ∧
        jsTrim (cellText c1) = jsTrim codeValue := by
  rw [codeExists_iff, hc]

/-- Witness for C3 amended: a padded, lower-case type cell and a padded code cell suppress
the candidate `E11.9` of type `ICD10`. -/
theorem codeExists_iff_trimmed_witness :
    jsTrim "E11.9" = "E11.9" ∧
    codeExists { thead := [], tbody := [exRow " icd 10 " " E11.9 " ""], rest := [] }
      "E11.9" "ICD10" = true :=
  ⟨by decide,
   (codeExists_iff_trimmed _ "E11.9" "ICD10" (by decide)).mpr
     ⟨exRow " icd 10 " " E11.9 " "", by decide, textCell " icd 10 ", textCell " E11.9 ",
       [textCell ""], rfl, by decide, by decide⟩⟩

/-- C4, as stated, fails on Scenario D itself: the code is found, no row is added, and the
returned `success` is false. -/
theorem insertionWorker_scenarioD_success_false :
    codeExists exScenarioD "E11.9" "ICD10" = true ∧
    (insertionWorker exParser (exIcdData [exE119]) (exDoc exScenarioD)).document.tableRowCount
      = (exDoc exScenarioD).tableRowCount ∧
    (insertionWorker exParser (exIcdData [exE119]) (exDoc exScenarioD)).result.success = false := by
  decide

/-- C4, amended. When `insertionWorker` is given only codes and every one of them already has
a row in the located table with the same normalised type and with a code cell that, trimmed,
equals the code, it adds zero rows and returns `success = false`. -/
theorem insertionWorker_all_present {parseRow : String → Row} (data : InsertData) (doc : Document) (t : Table)
    (hs : data.soap = none) (ht : doc.feeSheetTable = some t)
    (hicd : ∀ c ∈ data.icdCodes.getD [], ∃ row ∈ t.allTableRows, ∃ c0 c1 tail,
      row.cells = c0 :: c1 :: tail ∧ normalizeType (cellText c0) = normalizeType "ICD10" ∧
        jsTrim (cellText c1) = c.code)
    (hcpt : ∀ c ∈ data.cptCodes.getD [], ∃ row ∈ t.allTableRows, ∃ c0 c1 tail,
      row.cells = c0 :: c1 :: tail ∧ normalizeType (cellText c0) = normalizeType "CPT4" ∧
        jsTrim (cellText c1) = c.code) :
    (insertionWorker parseRow data doc).document.tableRowCount = doc.tableRowCount ∧
    (insertionWorker parseRow data doc).result.success = false := by
  have hnew : newRows parseRow t data = [] := by
    unfold newRows pendingRows
    rw [List.append_eq_nil]
    constructor
    · rw [List.map_eq_nil_iff, List.filter_eq_nil_iff]
      intro c hc
      simp [(codeExists_iff t c.code "ICD10").mpr (hicd c hc)]
    · rw [List.map_eq_nil_iff, List.filter_eq_nil_iff]
      intro c hc
      simp [(codeExists_iff t c.code "CPT4").mpr (hcpt c hc)]
  constructor
  · rw [insertionWorker_rowCount data doc t ht, hnew]
    simp [Document.tableRowCount, ht]
  · rw [insertionWorker_success data doc t ht, hnew, soapPhase_none data doc hs]
    rfl

/-- Witness for C4 amended: Scenario D. -/
theorem insertionWorker_all_present_witness :
    (insertionWorker exParser (exIcdData [exE119]) (exDoc exScenarioD)).document.tableRowCount = 2 ∧
    (insertionWorker exParser (exIcdData [exE119]) (exDoc exScenarioD)).result.success = false :=
  insertionWorker_all_present (exIcdData [exE119]) (exDoc exScenarioD) exScenarioD rfl rfl
    (by
      intro c hc
      have : c = exE119 := by simpa [exIcdData] using hc
      subst this
      exact ⟨exRow "ICD10" "E11.9" "Type 2 diabetes", by decide, textCell "ICD10",
        textCell "E11.9", [textCell "Type 2 diabetes"], rfl, by decide, by decide⟩)
    (by
      intro c hc
      simp [exIcdData] at hc)

/-- C5. Success flag: `insertionWorker` returns a result for every data and document; its
`success` is true exactly when an element was written in the SOAP part (events were
dispatched) or the table has more rows than before; the returned object carries no error;
and the `catch` branch returns `success = false`. -/
theorem insertionWorker_success_iff {parseRow : String → Row} (data : InsertData) (doc : Document) :
    ((insertionWorker parseRow data doc).result.success = true ↔
      ((insertionWorker parseRow data doc).events ≠ [] ∨
        doc.tableRowCount < (insertionWorker parseRow data doc).document.tableRowCount)) ∧
    (insertionWorker parseRow data doc).result.error = none ∧
    ∀ message, (workerCatch message).success = false := by
  refine ⟨?_, insertionWorker_error data doc, fun _ => rfl⟩
  rw [insertionWorker_events, ← soapPhase_inv]
  cases ht : doc.feeSheetTable with
  | none =>
    rw [insertionWorker_success_noTable data doc ht]
    have h1 := @insertionWorker_table_none parseRow data doc ht
    simp [Document.tableRowCount, h1, ht]
  | some t =>
    rw [insertionWorker_success data doc t ht, insertionWorker_rowCount data doc t ht]
    simp [Document.tableRowCount, ht]

theorem insertFragment_nil (t : Table) :
    insertFragment (locateHeader t).1 (locateHeader t).2 [] = (locateHeader t).1 := by
  rcases all_or_split (fun r => !isHeaderText r.innerText) t.tbody with
    hall | ⟨before, h, after, ht, hb, hh⟩
  · rw [locateHeader_none t (fun r hr => by simpa using hall r hr)]
    unfold fallbackHeader
    cases hth : t.thead with
    | nil =>
      cases htb : t.tbody with
      | nil => cases t; simp_all [insertFragment]
      | cons b bs => cases t; simp_all [insertFragment]
    | cons r rs =>
      simp only []
      split_ifs with h1 h2
      · cases t; simp_all [insertFragment]
      · cases htb : t.tbody with
        | nil => simp [htb] at h2
        | cons b bs => cases t; simp_all [insertFragment]
      · cases t; simp_all [insertFragment]
  · rw [locateHeader_found t before h after ht (fun r hr => by simpa using hb r hr)
      (by simpa using hh)]
    simp [insertFragment]

theorem insertIntoTable_fst {parseRow : String → Row} (t : Table) (data : InsertData) :
    (insertIntoTable parseRow t data).1 =
      insertFragment (locateHeader t).1 (locateHeader t).2 (newRows parseRow t data) := by
  rw [insertIntoTable_eq]
  split_ifs with h
  · rfl
  · have : newRows parseRow t data = [] := by
      cases hn : newRows parseRow t data with
      | nil => rfl
      | cons a l => simp [hn] at h
    rw [this, insertFragment_nil]

/-- C6, as stated, fails: no row of the table has a header text, and the new row is placed
after the first row of the body, not appended at its end. -/
theorem insertionWorker_block_not_appended :
    (∀ r ∈ exNoHeader.tbody, isHeaderText r.innerText = false) ∧
    (insertionWorker exParser (exIcdData [exE119]) (exDoc exNoHeader)).document.feeSheetTable =
      some { thead := [],
             tbody := [exRow "ICD10" "I10" "Hypertension", createCodeRow exParser exE119 "ICD10",
                       exRow "CPT4" "99213" "Visit"],
             rest := [] } ∧
    (insertionWorker exParser (exIcdData [exE119]) (exDoc exNoHeader)).document.feeSheetTable ≠
      some { thead := [], tbody := exNoHeader.tbody ++ [createCodeRow exParser exE119 "ICD10"],
             rest := [] } := by
  decide

/-- C6, amended. Batch position: the non-duplicate new rows (ICD rows in input order, then CPT
rows in input order) enter the located table as one contiguous block.  When some row of the
body has a text containing `type`, `code` and `description`, the first such row becomes the
first row of the body, the block follows it immediately and the other rows keep their order.
When no body row has such a text, the block is placed immediately after the first `thead` row
if that row's text contains `type`, otherwise immediately after the first row of the body, and
it is appended to the body only when the body has no row; all pre-existing rows keep their
order in these cases. -/
theorem insertionWorker_block_position {parseRow : String → Row} (data : InsertData) (doc : Document) (t : Table)
    (ht : doc.feeSheetTable = some t)
    (hc : (data.icdCodes.isSome || data.cptCodes.isSome) = true) :
    (∀ before h after, t.tbody = before ++ h :: after →
      (∀ r ∈ before, isHeaderText r.innerText = false) → isHeaderText h.innerText = true →
      (insertionWorker parseRow data doc).document.feeSheetTable =
        some { thead := t.thead, tbody := h :: (newRows parseRow t data ++ (before ++ after)),
               rest := t.rest }) ∧
    ((∀ r ∈ t.tbody, isHeaderText r.innerText = false) →
      (∀ th ths, t.thead = th :: ths → includes (toLowerCase th.innerText) "type" = true →
        (insertionWorker parseRow data doc).document.feeSheetTable =
          some { thead := th :: (newRows parseRow t data ++ ths), tbody := t.tbody, rest := t.rest }) ∧
      (∀ b bs, t.tbody = b :: bs →
        (t.thead = [] ∨ ∃ th ths, t.thead = th :: ths ∧
          includes (toLowerCase th.innerText) "type" = false) →
        (insertionWorker parseRow data doc).document.feeSheetTable =
          some { thead := t.thead, tbody := b :: (newRows parseRow t data ++ bs), rest := t.rest }) ∧
      (t.tbody = [] →
        (t.thead = [] ∨ ∃ th ths, t.thead = th :: ths ∧
          includes (toLowerCase th.innerText) "type" = false) →
        (insertionWorker parseRow data doc).document.feeSheetTable =
          some { thead := t.thead, tbody := newRows parseRow t data, rest := t.rest })) := by
  rw [insertionWorker_table data doc t ht hc, insertIntoTable_fst]
  refine ⟨?_, ?_⟩
  · intro before h after htb hb hh
    rw [locateHeader_found t before h after htb hb hh]
    simp [insertFragment]
  · intro hall
    rw [locateHeader_none t hall]
    refine ⟨?_, ?_, ?_⟩
    · intro th ths hth htype
      simp [fallbackHeader, hth, htype, insertFragment]
    · intro b bs htb hthead
      rcases hthead with hth | ⟨th, ths, hth, htype⟩
      · simp [fallbackHeader, hth, htb, insertFragment]
      · simp [fallbackHeader, hth, htb, htype, insertFragment]
    · intro htb hthead
      rcases hthead with hth | ⟨th, ths, hth, htype⟩
      · simp [fallbackHeader, hth, htb, insertFragment]
      · simp [fallbackHeader, hth, htb, htype, insertFragment]

/-- Witness for C6 amended: a header row in second position is promoted, the new rows (one
ICD, one CPT) follow it, the row that preceded it comes after the block. -/
theorem insertionWorker_block_position_witness :
    (insertionWorker exParser { soap := none, icdCodes := some [exJ45], cptCodes := some [exE119] }
      (exDoc { thead := [], tbody := [exRow "ICD10" "I10" "Hypertension", exHeaderRow],
               rest := [] })).document.feeSheetTable =
      some { thead := [],
             tbody := [exHeaderRow, createCodeRow exParser exJ45 "ICD10", createCodeRow exParser exE119 "CPT4",
                       exRow "ICD10" "I10" "Hypertension"],
             rest := [] } :=
  (insertionWorker_block_position
    { soap := none, icdCodes := some [exJ45], cptCodes := some [exE119] }
    (exDoc { thead := [], tbody := [exRow "ICD10" "I10" "Hypertension", exHeaderRow],
             rest := [] })
    { thead := [], tbody := [exRow "ICD10" "I10" "Hypertension", exHeaderRow], rest := [] }
    rfl rfl).1 [exRow "ICD10" "I10" "Hypertension"] exHeaderRow [] rfl (by decide) (by decide)

/-! ## Claim on the content script -/

/-- C7. Idempotence through `insertData`, at an input where the code departs from it:
`handleInsertion` with the code `E11.9` adds a row to the header-only table each time it is
handled (2 rows after one message, 3 after two), although the row of the first message
carries the same type and code; `insertionWorker` on the same input stays at 2 rows. -/
theorem handleInsertion_inserts_again :
    ((handleInsertion (fun _ => false) (exIcdData [exE119]) (some exHeaderOnly)).1.map
      Table.rowCount) = some 2 ∧
    ((handleInsertion (fun _ => false) (exIcdData [exE119])
      (handleInsertion (fun _ => false) (exIcdData [exE119]) (some exHeaderOnly)).1).1.map
      Table.rowCount) = some 3 ∧
    (insertionWorker exParser (exIcdData [exE119])
      (insertionWorker exParser (exIcdData [exE119]) (exDoc exHeaderOnly)).document).document.tableRowCount
        = 2 := by
  decide
/-! ## Claims on the fee-slip cache and the session state -/

theorem restoredOf_truthy (r : JVal) (h : r.truthy = true) :
    ∃ data, restoredOf r = .ok data := by
  cases r with
  | undefined => simp [JVal.truthy] at h
  | null => simp [JVal.truthy] at h
  | bool b => exact ⟨_, rfl⟩
  | num n => exact ⟨_, rfl⟩
  | numLit text => exact ⟨_, rfl⟩
  | str s => exact ⟨_, rfl⟩
  | arr items => exact ⟨_, rfl⟩
  | obj fields => exact ⟨_, rfl⟩

/-- Supporting fact: a request that finds a stored result under its key sends nothing
to the endpoint, leaves the cache as it is and, when the stored result can be rendered, shows
the slip rendered from the stored result. -/
theorem handleFeeSlipGeneration_cache_hit (parse : String → Option JVal) (env : FeeSlipEnv)
    (s : Session) (slip : RenderedSlip) (hne : s.extractedContent ≠ "")
    (htruthy : (cacheGet s.generatedCodesCache (cacheKey s.currentMetadata)).truthy = true)
    (hrender : renderFeeSlip (cacheGet s.generatedCodesCache (cacheKey s.currentMetadata))
      = .ok slip) :
    (handleFeeSlipGeneration parse env s).shown = some (.feeSlip true slip) ∧
    (handleFeeSlipGeneration parse env s).endpointCalls = 0 ∧
    (handleFeeSlipGeneration parse env s).session.generatedCodesCache = s.generatedCodesCache := by
  obtain ⟨data, hdata⟩ := restoredOf_truthy _ htruthy
  unfold handleFeeSlipGeneration
  simp only [hne, if_false, htruthy, if_true, hdata, hrender]
  exact ⟨trivial, trivial, trivial⟩

/-- C8. Cache consistency, at an input where the code departs from it: the response passes
the billing validation and is stored under the key `42_7`, although it has no `diagnoses`;
the next request with the same key takes the cache branch (no request to the endpoint) and
raises a `TypeError` while building the message, so that no billing list is presented. -/
theorem handleFeeSlipGeneration_cached_unrenderable :
    validBilling exBareFeeSlip = .ok true ∧
    (handleFeeSlipGeneration (fun _ => some exBareFeeSlip) exFeeSlipEnv
      Session.initial).session.generatedCodesCache = [("42_7", exBareFeeSlip)] ∧
    (handleFeeSlipGeneration (fun _ => some exBareFeeSlip) exFeeSlipEnv
      (handleFeeSlipGeneration (fun _ => some exBareFeeSlip) exFeeSlipEnv
        Session.initial).session).endpointCalls = 0 ∧
    (handleFeeSlipGeneration (fun _ => some exBareFeeSlip) exFeeSlipEnv
      (handleFeeSlipGeneration (fun _ => some exBareFeeSlip) exFeeSlipEnv
        Session.initial).session).shown.isNone = true ∧
    (handleFeeSlipGeneration (fun _ => some exBareFeeSlip) exFeeSlipEnv
      (handleFeeSlipGeneration (fun _ => some exBareFeeSlip) exFeeSlipEnv
        Session.initial).session).thrown
      = some "Cannot read properties of undefined (reading 'map')" := by
  refine ⟨rfl, rfl, rfl, rfl, rfl⟩

/-- C9. Cache hit and the insertable result, at an input where the code departs from the
claim: after the generating request `lastGeneratedData` holds the ICD and CPT entries built
from `billing.icd` and `billing.cpt`; after the next request, served from the cache without
a request to the endpoint, `lastGeneratedData` holds `undefined` for both lists, because the
restore reads `icdCodes` and `cptCodes` of the stored response, which has neither. -/
theorem handleFeeSlipGeneration_cache_hit_loses_codes :
    (handleFeeSlipGeneration (fun _ => some exFeeSlip) exFeeSlipEnv
      Session.initial).session.lastGeneratedData =
      .obj [("icdCodes", .arr [.obj [("code", .str "E11.9"),
                                     ("description", .str "Type 2 diabetes"),
                                     ("codeType", .str "ICD10")]]),
            ("cptCodes", .arr [.obj [("code", .str "99213"), ("description", .str "Office visit"),
                                     ("price", .num 100), ("codeType", .str "CPT4")]])] ∧
    (handleFeeSlipGeneration (fun _ => some exFeeSlip) exFeeSlipEnv
      (handleFeeSlipGeneration (fun _ => some exFeeSlip) exFeeSlipEnv
        Session.initial).session).endpointCalls = 0 ∧
    (handleFeeSlipGeneration (fun _ => some exFeeSlip) exFeeSlipEnv
      (handleFeeSlipGeneration (fun _ => some exFeeSlip) exFeeSlipEnv
        Session.initial).session).session.lastGeneratedData =
      .obj [("icdCodes", .undefined), ("cptCodes", .undefined)] := by
  refine ⟨rfl, rfl, rfl⟩

/-- C10, as stated, fails: after the new-topic action the current metadata is still the one
of the page seen before, not the initial empty value. -/
theorem newTopic_keeps_metadata :
    (newTopic exSessionWithPage).currentMetadata =
      some { pid := some "7", encounter := some "42", url := none } ∧
    (newTopic exSessionWithPage).currentMetadata ≠ Session.initial.currentMetadata := by
  decide

/-- C10, amended. Session reset: the new-topic action returns the last extracted text, the
last generated result and the fee-slip cache to their initial empty values (every key is
absent afterwards) and leaves the current metadata as it was. -/
theorem newTopic_resets (s : Session) :
    (newTopic s).extractedContent = Session.initial.extractedContent ∧
    (newTopic s).lastGeneratedData = Session.initial.lastGeneratedData ∧
    (newTopic s).generatedCodesCache = Session.initial.generatedCodesCache ∧
    (∀ key, cacheGet (newTopic s).generatedCodesCache key = .undefined) ∧
    (newTopic s).currentMetadata = s.currentMetadata :=
  ⟨rfl, rfl, rfl, fun _ => rfl, rfl⟩

/-! ## Lemmas on texts -/

theorem length_eq_data (s : String) : s.length = s.data.length := rfl

theorem length_substring0 (s : String) (n : Nat) : (substring0 s n).length = min n s.length := by
  show (s.data.take n).length = min n s.data.length
  exact List.length_take _ _

theorem length_substring0_le (s : String) (n : Nat) : (substring0 s n).length ≤ n := by
  rw [length_substring0]; exact Nat.min_le_left _ _

theorem intercalate_go_data (sep acc : String) (l : List String) :
    (String.intercalate.go acc sep l).data =
      acc.data ++ (l.map (fun a => sep.data ++ a.data)).flatten := by
  induction l generalizing acc with
  | nil => simp [String.intercalate.go]
  | cons a l ih => simp [String.intercalate.go, ih, String.data_append]

theorem intercalate_cons_data (sep a : String) (l : List String) :
    (String.intercalate sep (a :: l)).data =
      a.data ++ (l.map (fun b => sep.data ++ b.data)).flatten := by
  simp [String.intercalate, intercalate_go_data]

theorem pageExtractor_length_le (d : PageDom) : (pageExtractor d).text.length ≤ 20000 := by
  unfold pageExtractor
  cases d.body with
  | none => exact Nat.zero_le _
  | some bodyText => exact length_substring0_le _ _

theorem sum_length_le (pages : List PageDom) :
    ((pages.map (fun p => 1 + (pageExtractor p).text.length)).sum) ≤ 20001 * pages.length := by
  induction pages with
  | nil => simp
  | cons p ps ih =>
    have := pageExtractor_length_le p
    simp only [List.map_cons, List.sum_cons, List.length_cons]
    omega

theorem length_flatten_sep (sep : String) (l : List String) :
    ((l.map (fun b => sep.data ++ b.data)).flatten).length =
      (l.map (fun b => sep.length + b.length)).sum := by
  induction l with
  | nil => simp
  | cons a l ih =>
    simp only [List.map_cons, List.flatten_cons, List.length_append, List.sum_cons, ih,
      length_eq_data]

theorem filterMap_id_map_some {α β : Type} (f : α → β) (l : List α) :
    (l.map (fun p => some (f p))).filterMap id = l.map f := by
  induction l with
  | nil => rfl
  | cons a l ih => simp [ih]

/-! ## Claims on extraction and aggregation -/

/-- C20. Extractor bound: the text `pageExtractor` returns has at most 20000 characters; on
the regular path it is the first 20000 characters of the labelled sections followed by the
raw page content, which is a prefix of the body text of at most 10000 characters; on the
failure path (no body) the text has at most 16000 characters and there is no metadata, and
the `catch` branch respects both for every document. -/
theorem pageExtractor_bounds (d : PageDom) :
    (pageExtractor d).text.length ≤ 20000 ∧
    (∀ bodyText, d.body = some bodyText →
      (pageExtractor d).text =
        substring0 (sectionsOf d bodyText ++ "\nRAW PAGE CONTENT: \n" ++ rawPartOf bodyText ++ " ")
          20000 ∧
      (rawPartOf bodyText).length ≤ 10000 ∧
      (rawPartOf bodyText).data <+: bodyText.data) ∧
    (d.body = none →
      (pageExtractor d).text.length ≤ 16000 ∧ (pageExtractor d).metadata = none) ∧
    (∀ body, (extractorCatch body).text.length ≤ 16000 ∧ (extractorCatch body).metadata = none) := by
  refine ⟨pageExtractor_length_le d, ?_, ?_, ?_⟩
  · intro bodyText hb
    refine ⟨?_, length_substring0_le _ _, ?_⟩
    · simp [pageExtractor, hb, fullTextOf]
    · simp [rawPartOf, substring0, List.take_prefix]
  · intro hb
    have : pageExtractor d = extractorCatch none := by simp [pageExtractor, hb]
    rw [this]
    exact ⟨Nat.zero_le _, rfl⟩
  · intro body
    cases body with
    | none => exact ⟨Nat.zero_le _, rfl⟩
    | some b => exact ⟨length_substring0_le _ _, rfl⟩

theorem length_exLongBody : exLongBody.length = 10001 := by
  show (List.replicate 10001 'x').length = 10001
  exact List.length_replicate _ _

theorem pageExtractor_length_ge (bodyText : String) (h : 10000 ≤ bodyText.length) :
    10000 ≤ (pageExtractor (exBarePage bodyText)).text.length := by
  have h1 : (pageExtractor (exBarePage bodyText)).text
      = substring0 (fullTextOf (exBarePage bodyText) bodyText) 20000 := rfl
  rw [h1, length_substring0]
  have h2 : (rawPartOf bodyText).length = 10000 := by
    rw [rawPartOf, length_substring0]; omega
  have h3 : (rawPartOf bodyText).length ≤ (fullTextOf (exBarePage bodyText) bodyText).length := by
    simp only [fullTextOf, String.length_append]
    omega
  omega

theorem aggregateResults_text_data (r : FrameResult) (rs : List FrameResult) :
    (aggregateResults (r :: rs)).1.data =
      r.text.data ++ (rs.map (fun x => '\n' :: x.text.data)).flatten := by
  simp [aggregateResults, intercalate_cons_data, List.map_map, Function.comp]
  rfl

/-- C21, as stated, fails: two frames whose body has 10001 characters give a merged text of
more than 20000 characters. -/
theorem getPageContent_exceeds_cap :
    20000 < (getPageContent [some (pageExtractor (exBarePage exLongBody)),
      some (pageExtractor (exBarePage exLongBody))]).text.length := by
  have h := pageExtractor_length_ge exLongBody (by rw [length_exLongBody]; omega)
  have hd : (getPageContent [some (pageExtractor (exBarePage exLongBody)),
      some (pageExtractor (exBarePage exLongBody))]).text.data =
      (pageExtractor (exBarePage exLongBody)).text.data ++
        ('\n' :: (pageExtractor (exBarePage exLongBody)).text.data) := by
    show (aggregateResults [pageExtractor (exBarePage exLongBody),
      pageExtractor (exBarePage exLongBody)]).1.data = _
    rw [aggregateResults_text_data]
    simp only [List.map_cons, List.map_nil, List.flatten_cons, List.flatten_nil, List.append_nil]
  rw [length_eq_data] at h ⊢
  rw [hd, List.length_append, List.length_cons]
  omega

/-- C21, amended. Merged corpus bound: for `n` frame fragments each produced by
`pageExtractor`, the merged text returned by `aggregateResults` via `getPageContent` has at
most `20001 * n - 1` characters (20000 per fragment and one line feed between neighbours);
only for a single fragment is that 20000. -/
theorem getPageContent_length_le (pages : List PageDom) :
    (getPageContent (pages.map (fun p => some (pageExtractor p)))).text.length
      ≤ 20001 * pages.length - 1 := by
  cases pages with
  | nil => exact Nat.zero_le _
  | cons p ps =>
    have hp := pageExtractor_length_le p
    have hs := sum_length_le ps
    have hd : (getPageContent ((p :: ps).map (fun p => some (pageExtractor p)))).text.data =
        (pageExtractor p).text.data ++
          ((ps.map pageExtractor).map (fun x => '\n' :: x.text.data)).flatten := by
      show (aggregateResults (((p :: ps).map (fun p => some (pageExtractor p))).filterMap id)).1.data
        = _
      rw [filterMap_id_map_some, List.map_cons, aggregateResults_text_data]
    have hl : (((ps.map pageExtractor).map (fun x => '\n' :: x.text.data)).flatten).length =
        (ps.map (fun p => 1 + (pageExtractor p).text.length)).sum := by
      have := length_flatten_sep "\n" ((ps.map pageExtractor).map (fun x => x.text))
      simp only [List.map_map, Function.comp] at this ⊢
      exact this
    rw [length_eq_data] at hp ⊢
    rw [hd, List.length_append, hl]
    simp only [List.length_cons]
    omega

/-- C22, as stated, fails: the declaration in effect joins the texts with a single line feed;
the text `FRAME BOUNDARY` occurs only in the result of the earlier, overridden declaration. -/
theorem aggregateResults_without_marker :
    (aggregateResults exTwoFragments).1 = "main frame\ninner frame" ∧
    includes (aggregateResults exTwoFragments).1 "FRAME BOUNDARY" = false ∧
    aggregateResultsEarlier exTwoFragments
      = "main frame\n\n--- FRAME BOUNDARY ---\n\ninner frame" := by
  decide

/-- C22, amended. Aggregator text: the `aggregateResults` in effect (the later declaration)
returns the fragments' texts in list order with a single line feed between each adjacent
pair; the empty list gives the empty text. -/
theorem aggregateResults_text :
    (aggregateResults []).1 = "" ∧
    ∀ (r : FrameResult) (rs : List FrameResult),
      (aggregateResults (r :: rs)).1.data =
        r.text.data ++ (rs.map (fun x => '\n' :: x.text.data)).flatten :=
  ⟨rfl, aggregateResults_text_data⟩

theorem lookup_cons (k fk : String) (fv : Option String) (fs : MetaObject) :
    List.lookup k ((fk, fv) :: fs) = if k = fk then some fv else fs.lookup k := by
  by_cases h : k = fk
  · subst h
    simp [List.lookup]
  · have h2 : (k == fk) = false := by simpa using h
    simp [List.lookup, h2, h]

theorem lookup_map_replace (acc : MetaObject) (key : String) (value : Option String)
    (k : String) :
    (acc.map (fun f => if f.1 == key then (key, value) else f)).lookup k =
      if k = key then (if acc.any (fun f => f.1 == key) then some value else none)
      else acc.lookup k := by
  induction acc with
  | nil => simp [List.lookup]
  | cons f fs ih =>
    obtain ⟨fk, fv⟩ := f
    by_cases hf : fk = key
    · subst hf
      have e : (if (fk == fk) = true then (fk, value) else (fk, fv)) = (fk, value) := by simp
      show List.lookup k ((if (fk == fk) = true then (fk, value) else (fk, fv)) ::
        fs.map (fun f => if f.1 == fk then (fk, value) else f)) = _
      rw [e, lookup_cons, ih, lookup_cons]
      by_cases h : k = fk
      · simp [h]
      · simp [h]
    · have hf2 : (fk == key) = false := by simpa using hf
      have e : (if (fk == key) = true then (key, value) else (fk, fv)) = (fk, fv) := by
        simp [hf]
      show List.lookup k ((if (fk == key) = true then (key, value) else (fk, fv)) ::
        fs.map (fun f => if f.1 == key then (key, value) else f)) = _
      rw [e, lookup_cons, ih, lookup_cons]
      by_cases h : k = fk
      · subst h
        simp [hf]
      · simp only [h, if_false, List.any_cons, hf2, Bool.false_or]

theorem lookup_append_single (l : MetaObject) (key : String) (value : Option String)
    (k : String) :
    (l ++ [(key, value)]).lookup k =
      (l.lookup k).orElse (fun _ => if k = key then some value else none) := by
  induction l with
  | nil =>
    show List.lookup k [(key, value)] = _
    rw [lookup_cons]
    rfl
  | cons g gs ihg =>
    obtain ⟨gk, gv⟩ := g
    simp only [List.cons_append, lookup_cons, ihg]
    by_cases hg : k = gk
    · simp [hg]
    · simp [hg]

theorem lookup_eq_none_of_not_any (acc : MetaObject) (key : String)
    (h : acc.any (fun f => f.1 == key) = false) : acc.lookup key = none := by
  induction acc with
  | nil => rfl
  | cons f fs ih =>
    obtain ⟨fk, fv⟩ := f
    simp only [List.any_cons, Bool.or_eq_false_iff] at h
    have hne : ¬ key = fk := by
      intro e
      subst e
      simp at h
    simp [lookup_cons, hne, ih h.2]

theorem lookup_setMeta (acc : MetaObject) (key : String) (value : Option String) (k : String) :
    (setMeta acc key value).lookup k = if k = key then some value else acc.lookup k := by
  unfold setMeta
  by_cases hany : acc.any (fun f => f.1 == key) = true
  · simp only [hany, if_true]
    rw [lookup_map_replace]
    simp [hany]
  · have hany2 : acc.any (fun f => f.1 == key) = false := by
      cases hb : acc.any (fun f => f.1 == key)
      · rfl
      · exact absurd hb hany
    simp only [hany2, Bool.false_eq_true, if_false]
    rw [lookup_append_single]
    by_cases h : k = key
    · subst h
      simp [lookup_eq_none_of_not_any acc k hany2]
    · simp only [h, if_false]
      cases acc.lookup k <;> rfl

theorem lookup_foldl_setMeta (m : MetaObject) (acc : MetaObject) (k : String) :
    (m.foldl (fun a f => setMeta a f.1 f.2) acc).lookup k =
      (m.reverse.lookup k).orElse (fun _ => acc.lookup k) := by
  induction m generalizing acc with
  | nil => simp [List.lookup]
  | cons f fs ih =>
    obtain ⟨fk, fv⟩ := f
    simp only [List.foldl_cons, List.reverse_cons]
    rw [ih, lookup_setMeta]
    have happ := lookup_append_single fs.reverse fk fv k
    rw [happ]
    cases fs.reverse.lookup k with
    | some v => rfl
    | none =>
      by_cases h : k = fk
      · simp [h]
      · simp [h]

/-- C23. Aggregator metadata is last-write-wins: for every list of fragments and every key,
the merged metadata maps the key to the value of the last fragment in list order whose
metadata contains the key, also when that value is `null`; fragments without metadata change
nothing; the empty list gives the empty metadata. -/
theorem aggregateResults_metadata (results : List FrameResult) (key : String) :
    (aggregateResults results).2.lookup key = lastWrite results key ∧
    (aggregateResults []).2 = [] ∧
    (∀ text, (aggregateResults (results ++ [{ text := text, metadata := none }])).2
      = (aggregateResults results).2) := by
  refine ⟨?_, rfl, ?_⟩
  · unfold aggregateResults lastWrite
    simp only []
    have hgen : ∀ (rs : List FrameResult) (acc : MetaObject),
        (rs.foldl (fun acc r => spreadMeta acc r.metadata) acc).lookup key =
          (rs.reverse.findSome? (fun r =>
            match r.metadata with
            | some m => m.reverse.lookup key
            | none => none)).orElse (fun _ => acc.lookup key) := by
      intro rs
      induction rs with
      | nil => intro acc; simp
      | cons r rs ih =>
        intro acc
        simp only [List.foldl_cons, List.reverse_cons, List.findSome?_append]
        rw [ih]
        cases hfs : rs.reverse.findSome? (fun r =>
            match r.metadata with
            | some m => m.reverse.lookup key
            | none => none) with
        | some v => simp
        | none =>
          cases hm : r.metadata with
          | none => simp [spreadMeta, hm]
          | some m =>
            simp only [spreadMeta, hm, Option.none_orElse, List.findSome?_cons,
              List.findSome?_nil]
            rw [lookup_foldl_setMeta]
            cases m.reverse.lookup key <;> simp
    rw [hgen]
    cases results.reverse.findSome? _ <;> simp [List.lookup]
  · intro text
    simp [aggregateResults, spreadMeta]

/-- C24, evaluated where the code departs from it: the address has `pid` but no `encounter`
parameter; whatever inputs the document holds, the returned `encounter` is the (missing)
query parameter, since no input is consulted for it, while `pid` does fall back to an input
when the parameter is missing. -/
theorem pageExtractor_encounter_without_fallback :
    ((pageExtractor exFeeSheetPage).metadata.map (fun m => metaGet m "encounter")) = some none ∧
    (∀ d bodyText, d.body = some bodyText →
      (pageExtractor d).metadata.map (fun m => m.lookup "encounter")
        = some (some d.encounterParam)) ∧
    ((pageExtractor { exFeeSheetPage with pidParam := none, pidInputValue := some "7" }).metadata.map
      (fun m => metaGet m "pid")) = some (some "7") := by
  refine ⟨by decide, ?_, by decide⟩
  intro d bodyText hb
  simp [pageExtractor, hb, List.lookup]

/-! ## Prompts, chief complaint, page type and routing: lemmas and claims -/

theorem length_exLongCorpus : exLongCorpus.length = 4001 := by
  show (List.replicate 4001 'x').length = 4001
  rw [List.length_replicate]

/-- C25, as stated, fails for `generateSoap` of `popup.js`: a corpus of 4001 characters
contributes 4003 characters, its first 4000 followed by three dots. -/
theorem truncatedContent_exceeds_cap :
    exLongCorpus.length = 4001 ∧
    (truncatedContent exLongCorpus).length = 4003 ∧
    truncatedContent exLongCorpus ≠ substring0 exLongCorpus 4000 := by
  have hlen := length_exLongCorpus
  have h1 : truncatedContent exLongCorpus = substring0 exLongCorpus 4000 ++ "..." := by
    unfold truncatedContent
    rw [if_pos (by rw [hlen]; decide)]
  have h2 : (truncatedContent exLongCorpus).length = 4003 := by
    rw [h1, String.length_append, length_substring0, hlen]
    rfl
  refine ⟨hlen, h2, ?_⟩
  intro h
  rw [h, length_substring0, hlen] at h2
  revert h2
  decide

/-- C25, amended. Prompt corpus cap: the fee-slip and SOAP prompts of `assistant.js` embed
exactly the first 4000 and the first 2500 characters of the corpus, which is the whole corpus
when it is no longer than the cap; `generateSoap` of `popup.js` embeds a corpus of at most
4000 characters unchanged and, of a longer one, the first 4000 characters followed by three
dots (4003 characters). -/
theorem prompt_corpus_cap (content head tail : String) :
    (promptOf head (feeSlipCorpus content) tail).data
      = head.data ++ content.data.take 4000 ++ tail.data ∧
    (promptOf head (soapCorpus content) tail).data
      = head.data ++ content.data.take 2500 ++ tail.data ∧
    (content.length ≤ 4000 → feeSlipCorpus content = content) ∧
    (content.length ≤ 2500 → soapCorpus content = content) ∧
    (4000 < content.length → (feeSlipCorpus content).length = 4000) ∧
    (2500 < content.length → (soapCorpus content).length = 2500) ∧
    (content.length ≤ 4000 → truncatedContent content = content) ∧
    (4000 < content.length →
      (truncatedContent content).data = content.data.take 4000 ++ ['.', '.', '.'] ∧
      (truncatedContent content).length = 4003) := by
  have htake : ∀ n, content.length ≤ n → substring0 content n = content := by
    intro n h
    rw [length_eq_data] at h
    show String.mk (content.data.take n) = content
    rw [List.take_of_length_le h]
  have hlen : ∀ n, n < content.length → (substring0 content n).length = n := by
    intro n h
    rw [length_substring0]
    omega
  refine ⟨rfl, rfl, htake 4000, htake 2500, hlen 4000, hlen 2500, ?_, ?_⟩
  · intro h
    unfold truncatedContent
    rw [if_neg (by omega)]
  · intro h
    have e : truncatedContent content = substring0 content 4000 ++ "..." := by
      unfold truncatedContent
      rw [if_pos h]
    refine ⟨by rw [e]; rfl, ?_⟩
    rw [e, String.length_append, hlen 4000 h]
    rfl

theorem ne_empty_of_length_pos (t : String) (h : 0 < t.length) : t ≠ "" := by
  intro e
  rw [e] at h
  exact absurd h (by decide)

theorem chiefFromLabels_eq (ls : List LabelCandidate) :
    chiefFromLabels ls =
      ((((ls.filterMap (fun l => l.valueText)).map jsTrim).find?
        (fun t => t.length > 5 && t.length < 500)).getD "") := by
  induction ls with
  | nil => rfl
  | cons label more ih =>
    cases hv : label.valueText with
    | none => simp only [chiefFromLabels, hv, List.filterMap_cons, ih]
    | some raw =>
      simp only [chiefFromLabels, hv, List.filterMap_cons, List.map_cons, List.find?_cons, ih]
      by_cases hp : ((jsTrim raw).length > 5 && (jsTrim raw).length < 500) = true
      · have hlen : 0 < (jsTrim raw).length := by
          simp only [Bool.and_eq_true, decide_eq_true_eq] at hp
          omega
        have hne : ((jsTrim raw) != "") = true := by
          simpa using ne_empty_of_length_pos _ hlen
        have hp1 : decide ((jsTrim raw).length > 5) = true := by
          simp only [Bool.and_eq_true] at hp
          exact hp.1
        have hp2 : decide ((jsTrim raw).length < 500) = true := by
          simp only [Bool.and_eq_true] at hp
          exact hp.2
        simp only [hne, hp1, hp2, Bool.and_self, if_true, Option.getD_some]
      · have hp3 : ((jsTrim raw).length > 5 && (jsTrim raw).length < 500) = false := by
          simpa using hp
        have hq : ((jsTrim raw) != "" && decide ((jsTrim raw).length > 5)
            && decide ((jsTrim raw).length < 500)) = false := by
          rw [Bool.and_assoc, hp3, Bool.and_false]
        simp only [hq, hp3, Bool.false_eq_true, if_false]

theorem chiefFromInputs_eq (vs : List String) :
    chiefFromInputs vs = (((vs.map jsTrim).find? (fun v => v.length > 5)).getD "") := by
  induction vs with
  | nil => rfl
  | cons raw more ih =>
    simp only [chiefFromInputs, List.map_cons, List.find?_cons, ih]
    by_cases hp : decide ((jsTrim raw).length > 5) = true
    · have hlen : 0 < (jsTrim raw).length := by
        simp only [decide_eq_true_eq] at hp
        omega
      have hne : ((jsTrim raw) != "") = true := by
        simpa using ne_empty_of_length_pos _ hlen
      simp only [hne, hp, Bool.and_self, if_true, Option.getD_some]
    · have hp3 : decide ((jsTrim raw).length > 5) = false := by simpa using hp
      simp only [hp3, Bool.and_false, Bool.false_eq_true, if_false]

theorem strategyLabel_ne_empty (d : PageDom) (t : String) (h : strategyLabel d = some t) :
    t ≠ "" := by
  have hp := List.find?_some h
  simp only [Bool.and_eq_true, decide_eq_true_eq] at hp
  exact ne_empty_of_length_pos t (by omega)

theorem strategyInput_ne_empty (d : PageDom) (t : String) (h : strategyInput d = some t) :
    t ≠ "" := by
  have hp := List.find?_some h
  simp only [decide_eq_true_eq] at hp
  exact ne_empty_of_length_pos t (by omega)

theorem strategyBody_ne_empty (bodyText t : String) (h : strategyBody bodyText = some t) :
    t ≠ "" := by
  unfold strategyBody at h
  rw [Option.filter_eq_some] at h
  simpa using h.2

theorem chiefFromBody_eq (bodyText : String) :
    chiefFromBody bodyText = (strategyBody bodyText).getD "" := by
  unfold chiefFromBody strategyBody
  cases reasonMatch bodyText with
  | none => rfl
  | some captured =>
    by_cases h : jsTrim captured = ""
    · simp [Option.filter, h]
    · simp [Option.filter, h]

theorem sectionOf_eq_empty (label text ending : String) (hl : label ≠ "") :
    sectionOf label text ending = "" ↔ text = "" := by
  unfold sectionOf
  by_cases h : text = ""
  · simp [h]
  · simp only [h, if_false, iff_false]
    intro e
    have := congrArg String.length e
    simp only [String.length_append] at this
    have hpos : 0 < label.length := by
      rcases Nat.eq_zero_or_pos label.length with h0 | h0
      · exfalso
        apply hl
        rw [length_eq_data] at h0
        show label = String.mk []
        rw [← List.length_eq_zero.mp h0]
      · exact h0
    have h0 : "".length = 0 := rfl
    omega

/-- C26. Chief-complaint fallback order: the extracted chief complaint is the result of the
label strategy when it yields a text, otherwise that of the input strategy when it yields
one, otherwise that of the regular expression on the body text; and the chief-complaint
section is left out of the corpus exactly when all three strategies fail. -/
theorem chiefComplaintOf_fallback_order (d : PageDom) (bodyText : String) :
    chiefComplaintOf d bodyText =
      (match strategyLabel d with
       | some a => a
       | none =>
         match strategyInput d with
         | some b => b
         | none => (strategyBody bodyText).getD "") ∧
    (sectionOf "⚠️ CHIEF COMPLAINT / REASON FOR VISIT: \n" (chiefComplaintOf d bodyText) " \n\n" = ""
      ↔ strategyLabel d = none ∧ strategyInput d = none ∧ strategyBody bodyText = none) := by
  have hmain : chiefComplaintOf d bodyText =
      (match strategyLabel d with
       | some a => a
       | none =>
         match strategyInput d with
         | some b => b
         | none => (strategyBody bodyText).getD "") := by
    unfold chiefComplaintOf
    simp only [chiefFromLabels_eq, chiefFromInputs_eq, chiefFromBody_eq]
    change (if (if (strategyLabel d).getD "" = "" then (strategyInput d).getD ""
        else (strategyLabel d).getD "") = "" then (strategyBody bodyText).getD ""
      else (if (strategyLabel d).getD "" = "" then (strategyInput d).getD ""
        else (strategyLabel d).getD "")) = _
    cases ha : strategyLabel d with
    | some a =>
      have hne := strategyLabel_ne_empty d a ha
      simp [hne]
    | none =>
      cases hb : strategyInput d with
      | some b =>
        have hne := strategyInput_ne_empty d b hb
        simp [hne]
      | none => simp
  refine ⟨hmain, ?_⟩
  rw [sectionOf_eq_empty _ _ _ (by decide), hmain]
  cases ha : strategyLabel d with
  | some a => simpa using strategyLabel_ne_empty d a ha
  | none =>
    cases hb : strategyInput d with
    | some b => simpa using strategyInput_ne_empty d b hb
    | none =>
      cases hc : strategyBody bodyText with
      | some c => simpa using strategyBody_ne_empty bodyText c hc
      | none => simp

/-- C27, as stated, fails: the title `Dashboard` contains the keyword of the label Dashboard
and the address contains no keyword, yet the page type is the empty string. -/
theorem pageTypeOf_title_not_consulted :
    includes (toLowerCase "Dashboard") "dashboard" = true ∧
    pageTypeOf "Dashboard" "http://emr.example/interface/main/tabs/main.php" = "" ∧
    pageTypeOf "Demographics" "http://emr.example/interface/main/tabs/main.php" = "" := by
  decide

/-- C27, amended. Page-type classification: the page type is the first label in the order
Fee Sheet, Encounter, Patient Chart, Dashboard whose test holds, and the empty string when
none holds.  The tests: Fee Sheet, the lower-cased address contains `fee_sheet` or the
lower-cased title contains `fee sheet`; Encounter, either contains `encounter`; Patient
Chart, the address contains `patient_file` or `demographics`; Dashboard, the address contains
`dashboard`.  The title is consulted for the first two labels only. -/
theorem pageTypeOf_first_rule (title href : String) :
    pageTypeOf title href =
      ((pageTypeRules.find? (fun r => r.2 (toLowerCase href) (toLowerCase title))).map
        (fun r => r.1)).getD "" := by
  unfold pageTypeOf pageTypeRules
  simp only [List.find?_cons, List.find?_nil]
  cases h1 : (includes (toLowerCase href) "fee_sheet" || includes (toLowerCase title) "fee sheet")
  · cases h2 : (includes (toLowerCase href) "encounter" || includes (toLowerCase title) "encounter")
    · cases h3 : (includes (toLowerCase href) "patient_file" ||
          includes (toLowerCase href) "demographics")
      · cases h4 : includes (toLowerCase href) "dashboard" <;> simp
      · simp
    · simp
  · simp

/-- C28. Brace counting ignores JSON structure: the response below is well-formed JSON with
all four SOAP fields non-empty, its subjective text containing one opening brace; the handler
counts 3 opening and 2 closing braces and reports the mismatched-braces error, leaving the
session as it was. -/
theorem handleSoapGeneration_brace_in_text :
    jsonParse exBraceInText =
      some (.obj [("soap_content", .obj [("subjective", .str "pain \x7b"), ("objective", .str "y"),
                                         ("assessment", .str "z"), ("plan", .str "w")])]) ∧
    countChar exBraceInText '{' = 3 ∧ countChar exBraceInText '}' = 2 ∧
    (handleSoapGeneration jsonParse (exSoapEnv exBraceInText "end_turn") exSessionWithPage).shown
      = .failure ("❌ I had trouble generating the note: The AI response has mismatched " ++
          "braces (3 open, 2 close). Please try again.") ∧
    (handleSoapGeneration jsonParse (exSoapEnv exBraceInText "end_turn")
      exSessionWithPage).session.lastGeneratedData = .null := by
  refine ⟨rfl, rfl, rfl, rfl, rfl⟩

set_option maxRecDepth 100000

/-- C29. The cache key is not injective: it is the encounter, an underscore and the patient
identifier, with `unknown` for a missing or empty identifier; encounter `1_2` of patient `3`
and encounter `1` of patient `2_3` share the key `1_2_3`, pages without identifiers share
`unknown_unknown`, and a fee slip generated for the first pair is shown for the second one
from the cache, without a request to the endpoint. -/
theorem cacheKey_not_injective :
    (∀ m : Metadata, cacheKey (some m) = orUnknown m.encounter ++ "_" ++ orUnknown m.pid) ∧
    orUnknown none = "unknown" ∧ orUnknown (some "") = "unknown" ∧
    cacheKey exPageA.metadata = "1_2_3" ∧ cacheKey exPageB.metadata = "1_2_3" ∧
    exPageA.metadata ≠ exPageB.metadata ∧
    (∀ url, cacheKey (some { pid := none, encounter := none, url := url }) = "unknown_unknown") ∧
    (∀ url, cacheKey (some { pid := some "", encounter := some "", url := url })
      = "unknown_unknown") ∧
    cacheKey none = "unknown_unknown" ∧
    (∃ slip,
      (handleFeeSlipGeneration (feeSlipParse jsonParse)
        { page := some exPageA, apiKey := "key", reply := .text exFeeSlipText }
        (refreshContext exPageA Session.initial)).shown = some (.feeSlip false slip) ∧
      (handleFeeSlipGeneration (feeSlipParse jsonParse)
        { page := some exPageB, apiKey := "key", reply := .text exFeeSlipText }
        (refreshContext exPageB
          (handleFeeSlipGeneration (feeSlipParse jsonParse)
            { page := some exPageA, apiKey := "key", reply := .text exFeeSlipText }
            (refreshContext exPageA Session.initial)).session)).shown
        = some (.feeSlip true slip) ∧
      slip.patientName = .str "Jane Doe") ∧
    (handleFeeSlipGeneration (feeSlipParse jsonParse)
      { page := some exPageB, apiKey := "key", reply := .text exFeeSlipText }
      (refreshContext exPageB
        (handleFeeSlipGeneration (feeSlipParse jsonParse)
          { page := some exPageA, apiKey := "key", reply := .text exFeeSlipText }
          (refreshContext exPageA Session.initial)).session)).endpointCalls = 0 := by
  refine ⟨fun _ => rfl, rfl, rfl, rfl, rfl, by decide, fun _ => rfl, fun _ => rfl, rfl,
    ⟨_, rfl, rfl, rfl⟩, rfl⟩

/-- C30. Intent routing is a total, priority-ordered function of the lower-cased message:
SOAP when it contains `draft soap` or both `soap` and `note`; otherwise fee slip when it
contains `fee slip` or `superbill`; otherwise code extraction when it contains `find codes`
or both `code` and `extract`; otherwise general chat.  A message naming both a SOAP note and
a fee slip goes to SOAP; the suggestions `Find billing codes` and `Generate billing codes
for this visit` go to general chat and `Draft a SOAP note` goes to SOAP. -/
theorem routeIntent_priority (text : String) :
    (routeIntent text = .soap ↔
      (includes (toLowerCase text) "draft soap" ||
        (includes (toLowerCase text) "soap" && includes (toLowerCase text) "note")) = true) ∧
    (routeIntent text = .feeSlip ↔
      (includes (toLowerCase text) "draft soap" ||
        (includes (toLowerCase text) "soap" && includes (toLowerCase text) "note")) = false ∧
      (includes (toLowerCase text) "fee slip" || includes (toLowerCase text) "superbill")
        = true) ∧
    (routeIntent text = .codeExtraction ↔
      (includes (toLowerCase text) "draft soap" ||
        (includes (toLowerCase text) "soap" && includes (toLowerCase text) "note")) = false ∧
      (includes (toLowerCase text) "fee slip" || includes (toLowerCase text) "superbill")
        = false ∧
      (includes (toLowerCase text) "find codes" ||
        (includes (toLowerCase text) "code" && includes (toLowerCase text) "extract")) = true) ∧
    (routeIntent text = .generalChat ↔
      (includes (toLowerCase text) "draft soap" ||
        (includes (toLowerCase text) "soap" && includes (toLowerCase text) "note")) = false ∧
      (includes (toLowerCase text) "fee slip" || includes (toLowerCase text) "superbill")
        = false ∧
      (includes (toLowerCase text) "find codes" ||
        (includes (toLowerCase text) "code" && includes (toLowerCase text) "extract")) = false) ∧
    routeIntent "Draft a SOAP note and a fee slip" = .soap ∧
    "Find billing codes" ∈ footerSuggestions "summary" ∧
    routeIntent "Find billing codes" = .generalChat ∧
    "Generate billing codes for this visit" ∈ footerSuggestions "soap" ∧
    routeIntent "Generate billing codes for this visit" = .generalChat ∧
    "Draft a SOAP note" ∈ footerSuggestions "codes" ∧
    routeIntent "Draft a SOAP note" = .soap := by
  refine ⟨?_, ?_, ?_, ?_, by decide, by decide, by decide, by decide, by decide, by decide,
    by decide⟩
  all_goals
    unfold routeIntent
    simp only []
    cases (includes (toLowerCase text) "draft soap" ||
        (includes (toLowerCase text) "soap" && includes (toLowerCase text) "note")) <;>
      cases (includes (toLowerCase text) "fee slip" || includes (toLowerCase text) "superbill") <;>
      cases (includes (toLowerCase text) "find codes" ||
        (includes (toLowerCase text) "code" && includes (toLowerCase text) "extract")) <;>
      simp

/-! ## Failure atomicity and the sanitization pass on examples -/

/-- Supporting fact: a SOAP request that ends with an error message leaves the state
variables as they were. -/
theorem handleSoapGeneration_failure_keeps_session (parseJson : String → Option JVal)
    (env : SoapEnv) (s : Session) (message : String)
    (h : (handleSoapGeneration parseJson env s).shown = .failure message) :
    (handleSoapGeneration parseJson env s).session = s := by
  unfold handleSoapGeneration at h ⊢
  by_cases h1 : s.extractedContent = ""
  · simp only [h1, if_true]
  · simp only [h1, if_false] at h ⊢
    by_cases h2 : env.apiKey = ""
    · simp only [h2, if_true]
    · simp only [h2, if_false] at h ⊢
      unfold soapTry at h ⊢
      cases hr : env.reply with
      | failure m => simp only [hr]
      | error m => simp only [hr]
      | text content =>
        simp only [hr] at h ⊢
        cases hrec : soapRecover parseJson content env.stopReason with
        | error e => simp only [hrec]
        | ok result =>
          simp only [hrec] at h ⊢
          cases hv : validSoap result with
          | error e => simp only [hv]
          | ok o =>
            cases o with
            | none => simp only [hv]
            | some soapContent =>
              simp only [hv] at h ⊢
              exfalso
              have hobj : ∃ inner, soapContent = .obj inner := by
                unfold validSoap at hv
                cases hg : result.getProp "soap_content" with
                | error e => simp [hg, bind, Except.bind] at hv
                | ok sc =>
                  simp only [hg, bind, Except.bind, pure, Except.pure] at hv
                  by_cases ht : sc.truthy = true
                  · simp only [ht, Bool.not_true, Bool.false_eq_true, if_false] at hv
                    cases sc with
                    | obj inner =>
                      cases hs : (JVal.obj inner).getProp "subjective" with
                      | error e => simp [hs] at hv
                      | ok sub =>
                        simp only [hs] at hv
                        by_cases hst : sub.truthy = true
                        · simp only [hst, Bool.not_true, Bool.false_eq_true, if_false] at hv
                          injection hv with hv
                          injection hv with hv
                          exact ⟨inner, hv.symm⟩
                        · simp [hst] at hv
                    | undefined => simp [JVal.truthy] at ht
                    | null => simp [JVal.truthy] at ht
                    | bool b => simp [JVal.getProp, JVal.truthy] at hv
                    | num n => simp [JVal.getProp, JVal.truthy] at hv
                    | numLit t => simp [JVal.getProp, JVal.truthy] at hv
                    | str t => simp [JVal.getProp, JVal.truthy] at hv
                    | arr items => simp [JVal.getProp, JVal.truthy] at hv
                  · simp [ht] at hv
              obtain ⟨inner, rfl⟩ := hobj
              simp [renderSoap, JVal.getProp, bind, Except.bind, pure, Except.pure] at h

/-- C11, evaluated where the code departs from it: the response passes the billing validation
but has no `diagnoses`; the run ends with an error message (the `TypeError` raised while the
slip is rendered), and yet the cache holds the response under `42_7` and `lastGeneratedData`
holds its codes, where both were empty before the run. -/
theorem handleFeeSlipGeneration_failure_keeps_writes :
    exSessionWithPage.generatedCodesCache = [] ∧
    (handleFeeSlipGeneration (feeSlipParse jsonParse)
      { page := none, apiKey := "key", reply := .text exBareFeeSlipText }
      exSessionWithPage).shown
      = some (.failure ("❌ I had trouble generating the fee slip: " ++
          "Cannot read properties of undefined (reading 'map')")) ∧
    (handleFeeSlipGeneration (feeSlipParse jsonParse)
      { page := none, apiKey := "key", reply := .text exBareFeeSlipText }
      exSessionWithPage).session.generatedCodesCache = [("42_7", exBareFeeSlip)] ∧
    (handleFeeSlipGeneration (feeSlipParse jsonParse)
      { page := none, apiKey := "key", reply := .text exBareFeeSlipText }
      exSessionWithPage).session.lastGeneratedData
      = .obj [("icdCodes", .arr [.obj [("code", .str "E11.9"),
                                       ("description", .str "Type 2 diabetes"),
                                       ("codeType", .str "ICD10")]]),
              ("cptCodes", .arr [])] := by
  refine ⟨rfl, rfl, rfl, rfl⟩

/-- C13, evaluated where the code departs from it: of two consecutive line feeds the pass
escapes the first only, so its output still holds a line feed that no backslash precedes;
a single line feed, also at position 0, is escaped. -/
theorem sanitize_leaves_second_line_feed :
    sanitize "a\n\nb" = "a\\n\nb" ∧
    hasBareControl none (sanitize "a\n\nb").data = true ∧
    sanitize "a\t\tb" = "a\\t\tb" ∧
    hasBareControl none (sanitize "a\nb").data = false ∧
    hasBareControl none (sanitize "\nb").data = false := by
  decide

/-- C15, evaluated where the code departs from it: the string value of the raw response holds
a carriage return between `a` and `b`; the direct parse fails, the parse after the pass
succeeds, and the value of the result holds a line feed there. -/
theorem feeSlipParse_carriage_return_becomes_line_feed :
    jsonParse "\x7b\"note\":\"a\rb\"\x7d" = none ∧
    sanitize "\x7b\"note\":\"a\rb\"\x7d" = "\x7b\"note\":\"a\\nb\"\x7d" ∧
    feeSlipParse jsonParse "\x7b\"note\":\"a\rb\"\x7d" = some (.obj [("note", .str "a\nb")]) ∧
    soapRecover jsonParse "\x7b\"soap_content\":\x7b\"subjective\":\"a\rb\"\x7d\x7d" "end_turn"
      = .ok (.obj [("soap_content", .obj [("subjective", .str "a\nb")])]) := by
  refine ⟨rfl, by decide, rfl, rfl⟩

/-! ## The truncation checks of the SOAP handler -/

theorem dropWhile_append_single (p : Char → Bool) (l : List Char) (a : Char)
    (ha : p a = false) : (l ++ [a]).dropWhile p = l.dropWhile p ++ [a] := by
  induction l with
  | nil => simp [List.dropWhile, ha]
  | cons c cs ih =>
    by_cases hc : p c = true
    · simp [List.dropWhile, hc, ih]
    · simp [List.dropWhile, hc]

theorem trimChars_append_single (l : List Char) (a : Char) (ha : jsIsWhiteSpace a = false) :
    trimChars (l ++ [a]) = l.dropWhile jsIsWhiteSpace ++ [a] := by
  unfold trimChars
  rw [dropWhile_append_single _ _ _ ha, List.reverse_append]
  simp [List.dropWhile, ha]

theorem endsWith_iff (s : String) (c : Char) :
    endsWith s (String.mk [c]) = true ↔ ∃ l, s.data = l ++ [c] := by
  unfold endsWith
  rw [List.isSuffixOf_iff_suffix]
  constructor
  · rintro ⟨l, h⟩
    exact ⟨l, h.symm⟩
  · rintro ⟨l, h⟩
    exact ⟨l, h.symm⟩

theorem endsWith_jsTrim (s : String) (h : endsWith s "\x7d" = true) :
    endsWith (jsTrim s) "\x7d" = true := by
  have h1 : endsWith s (String.mk ['}']) = true := h
  obtain ⟨l, hl⟩ := (endsWith_iff s '}').mp h1
  show endsWith (jsTrim s) (String.mk ['}']) = true
  rw [endsWith_iff]
  refine ⟨l.dropWhile jsIsWhiteSpace, ?_⟩
  show trimChars s.data = _
  rw [hl, trimChars_append_single _ _ (by decide)]

theorem strOr_append (a b c : String) (h : a ≠ "") : strOr (a ++ b) c = a ++ b := by
  unfold strOr
  rw [if_neg]
  intro e
  apply h
  have hd := congrArg String.data e
  rw [String.data_append] at hd
  have ha : a.data = [] := (List.append_eq_nil.mp hd).1
  show a = String.mk []
  rw [← ha]

theorem beq_max_tokens (stopReason : String) (h : stopReason ≠ "max_tokens") :
    (stopReason == "max_tokens") = false := by
  simpa using h

/-- C16. Brace-mismatch detection: for every SOAP response not stopped by the length limit
whose cleaned text ends with a closing brace and holds N opening and M closing braces with N
different from M, the text-to-value stage fails with the mismatched-braces error citing N and
M, whatever the parser is (it is not called); the handler shows that error and leaves the
state as it was. -/
theorem handleSoapGeneration_mismatched_braces (parseJson : String → Option JVal)
    (s : Session) (apiKey content stopReason : String)
    (hcontent : s.extractedContent ≠ "") (hkey : apiKey ≠ "")
    (hstop : stopReason ≠ "max_tokens")
    (hend : endsWith (cleanFences (jsTrim content)) "\x7d" = true)
    (hne : countChar (cleanFences (jsTrim content)) '{'
      ≠ countChar (cleanFences (jsTrim content)) '}') :
    soapRecover parseJson content stopReason =
      .error ("The AI response has mismatched braces (" ++
        toString (countChar (cleanFences (jsTrim content)) '{') ++ " open, " ++
        toString (countChar (cleanFences (jsTrim content)) '}') ++
        " close). Please try again.") ∧
    (handleSoapGeneration parseJson
      { apiKey := apiKey, reply := .text content, stopReason := stopReason } s).shown =
      .failure ("❌ I had trouble generating the note: " ++
        ("The AI response has mismatched braces (" ++
          toString (countChar (cleanFences (jsTrim content)) '{') ++ " open, " ++
          toString (countChar (cleanFences (jsTrim content)) '}') ++
          " close). Please try again.")) ∧
    (handleSoapGeneration parseJson
      { apiKey := apiKey, reply := .text content, stopReason := stopReason } s).session = s := by
  have hrec : soapRecover parseJson content stopReason =
      .error ("The AI response has mismatched braces (" ++
        toString (countChar (cleanFences (jsTrim content)) '{') ++ " open, " ++
        toString (countChar (cleanFences (jsTrim content)) '}') ++
        " close). Please try again.") := by
    unfold soapRecover
    have hbne : (countChar (cleanFences (jsTrim content)) '{'
        != countChar (cleanFences (jsTrim content)) '}') = true := by
      simpa using hne
    simp only [beq_max_tokens stopReason hstop, Bool.false_eq_true, if_false,
      endsWith_jsTrim _ hend, Bool.not_true, hbne, if_true]
  refine ⟨hrec, ?_, ?_⟩
  · unfold handleSoapGeneration soapTry
    simp only [hcontent, hkey, if_false, hrec]
    simp only [String.append_assoc]
    rw [strOr_append _ _ _ (by decide)]
  · unfold handleSoapGeneration soapTry
    simp only [hcontent, hkey, if_false, hrec]

theorem handleSoapGeneration_mismatched_braces_witness :
    (handleSoapGeneration jsonParse
      { apiKey := "key", reply := .text exScenarioB, stopReason := "end_turn" }
      exSessionWithPage).shown =
      .failure ("❌ I had trouble generating the note: " ++
        "The AI response has mismatched braces (3 open, 2 close). Please try again.") :=
  (handleSoapGeneration_mismatched_braces jsonParse exSessionWithPage "key" exScenarioB
    "end_turn" (by decide) (by decide) (by decide) (by decide) (by decide)).2.1

theorem lastIndexFrom_ge (c : Char) (l : List Char) (i : Nat) (best : Int)
    (h : best ≤ (i : Int)) : best ≤ lastIndexFrom c l i best := by
  induction l generalizing i best with
  | nil => exact le_refl _
  | cons x xs ih =>
    unfold lastIndexFrom
    by_cases hx : (x == c) = true
    · simp only [hx, if_true]
      have := ih (i + 1) (i : Int) (by push_cast; omega)
      omega
    · simp only [hx, if_false]
      exact ih (i + 1) best (by push_cast; omega)

theorem lastIndexFrom_absent (c : Char) (l : List Char) (i : Nat) (best : Int)
    (h : ∀ x ∈ l, (x == c) = false) : lastIndexFrom c l i best = best := by
  induction l generalizing i best with
  | nil => rfl
  | cons x xs ih =>
    unfold lastIndexFrom
    rw [h x (List.mem_cons_self _ _)]
    simp only [Bool.false_eq_true, if_false]
    exact ih (i + 1) best (fun y hy => h y (List.mem_cons_of_mem _ hy))

theorem lastIndexFrom_quote_le_brace (a w : List Char) (i : Nat) (bq bb : Int)
    (hw : ∀ x ∈ w, (x == '"') = false) (hq : bq < (i : Int)) :
    lastIndexFrom '"' (a ++ '}' :: w) i bq ≤ lastIndexFrom '}' (a ++ '}' :: w) i bb := by
  induction a generalizing i bq bb with
  | nil =>
    simp only [List.nil_append]
    unfold lastIndexFrom
    have e1 : ('}' == '"') = false := by decide
    have e2 : ('}' == '}') = true := by decide
    simp only [e1, e2, if_true, Bool.false_eq_true, if_false]
    rw [lastIndexFrom_absent '"' w (i + 1) bq hw]
    have := lastIndexFrom_ge '}' w (i + 1) (i : Int) (by push_cast; omega)
    omega
  | cons x xs ih =>
    simp only [List.cons_append]
    unfold lastIndexFrom
    apply ih
    by_cases hx : (x == '"') = true
    · simp only [hx, if_true]
      push_cast
      omega
    · simp only [hx, if_false]
      push_cast
      omega

theorem dropWhile_reverse_split (p : Char → Bool) (m : List Char) :
    ∃ w, m = (m.reverse.dropWhile p).reverse ++ w ∧ ∀ x ∈ w, p x = true := by
  refine ⟨(m.reverse.takeWhile p).reverse, ?_, ?_⟩
  · rw [← List.reverse_append, List.takeWhile_append_dropWhile, List.reverse_reverse]
  · intro x hx
    rw [List.mem_reverse] at hx
    exact (List.mem_takeWhile_imp hx)

theorem trimChars_split (l : List Char) :
    ∃ pre w, l = pre ++ trimChars l ++ w ∧ ∀ x ∈ w, jsIsWhiteSpace x = true := by
  obtain ⟨w, hw, hall⟩ := dropWhile_reverse_split jsIsWhiteSpace (l.dropWhile jsIsWhiteSpace)
  refine ⟨l.takeWhile jsIsWhiteSpace, w, ?_, hall⟩
  unfold trimChars
  rw [List.append_assoc, ← hw, List.takeWhile_append_dropWhile]

theorem quote_not_after_brace (s : String) (h : endsWith (jsTrim s) "\x7d" = true) :
    ¬ (lastIndexOf s '"' > lastIndexOf s '}') := by
  have h1 : endsWith (jsTrim s) (String.mk ['}']) = true := h
  obtain ⟨t, ht⟩ := (endsWith_iff _ '}').mp h1
  obtain ⟨pre, w, hsplit, hw⟩ := trimChars_split s.data
  have ht2 : trimChars s.data = t ++ ['}'] := ht
  rw [ht2] at hsplit
  have hdata : s.data = (pre ++ t) ++ '}' :: w := by
    rw [hsplit]
    simp
  have hwq : ∀ x ∈ w, (x == '"') = false := by
    intro x hx
    have hws := hw x hx
    by_cases hxq : x = '"'
    · subst hxq
      revert hws
      decide
    · simpa using hxq
  have := lastIndexFrom_quote_le_brace (pre ++ t) w 0 (-1) (-1) hwq (by decide)
  unfold lastIndexOf
  rw [hdata]
  omega

/-- Supporting fact: whatever the parser, the response and the stop reason, the
text-to-value stage of the SOAP handler never fails with the unclosed-string error. -/
theorem soapRecover_never_unclosed_string (parseJson : String → Option JVal)
    (content stopReason : String) :
    soapRecover parseJson content stopReason
      ≠ .error "The AI response has an unclosed string. Please try again." := by
  unfold soapRecover
  by_cases h1 : (stopReason == "max_tokens") = true
  · simp only [h1, if_true]
    intro h
    injection h with h
    revert h
    decide
  · simp only [h1, if_false]
    by_cases h2 : endsWith (jsTrim (cleanFences (jsTrim content))) "\x7d" = true
    · simp only [h2, Bool.not_true, Bool.false_eq_true, if_false]
      by_cases h3 : (countChar (cleanFences (jsTrim content)) '{'
          != countChar (cleanFences (jsTrim content)) '}') = true
      · simp only [h3, if_true]
        intro h
        injection h with h
        have hd := congrArg (fun t => t.data.take 21) h
        simp only [String.data_append, List.append_assoc] at hd
        rw [List.take_append_of_le_length (by decide)] at hd
        revert hd
        decide
      · simp only [h3, if_false, quote_not_after_brace _ h2]
        cases parseWithRetry parseJson (cleanFences (jsTrim content)) with
        | some r => simp
        | none =>
          simp only []
          intro h
          injection h with h
          revert h
          decide
    · simp only [h2, Bool.not_false, if_true]
      intro h
      injection h with h
      revert h
      decide

/-- C17. Unclosed-string detection, at an input where the code departs from it: the response
is cut off inside a string value, so its cleaned text has its last double-quote character
(at index 30) after its last closing brace (there is none); the handler reports the
missing-closing-brace error of the first check, not the unclosed-string error of the third. -/
theorem soapRecover_cut_off_reports_incomplete :
    lastIndexOf (cleanFences (jsTrim exCutOff)) '"' = 30 ∧
    lastIndexOf (cleanFences (jsTrim exCutOff)) '}' = -1 ∧
    soapRecover jsonParse exCutOff "end_turn"
      = .error "The AI response was incomplete (no closing brace). Please try again." ∧
    soapRecover jsonParse exCutOff "end_turn"
      ≠ .error "The AI response has an unclosed string. Please try again." :=
  ⟨by decide, by decide, rfl, soapRecover_never_unclosed_string _ _ _⟩

/-- Supporting fact: for every SOAP response not stopped by the length limit whose cleaned
text has its last double-quote character at a later index than its last closing brace, the
text-to-value stage fails with the missing-closing-brace error, whatever the parser is: such
a text does not end with a closing brace, so the first check fires before the third. -/
theorem soapRecover_quote_after_brace (parseJson : String → Option JVal)
    (content stopReason : String) (hstop : stopReason ≠ "max_tokens")
    (hq : lastIndexOf (cleanFences (jsTrim content)) '"'
      > lastIndexOf (cleanFences (jsTrim content)) '}') :
    soapRecover parseJson content stopReason
      = .error "The AI response was incomplete (no closing brace). Please try again." := by
  unfold soapRecover
  have hend : endsWith (jsTrim (cleanFences (jsTrim content))) "\x7d" = false := by
    cases he : endsWith (jsTrim (cleanFences (jsTrim content))) "\x7d"
    · rfl
    · exact absurd hq (quote_not_after_brace _ he)
  simp only [beq_max_tokens stopReason hstop, Bool.false_eq_true, if_false, hend,
    Bool.not_false, if_true]

theorem soapRecover_quote_after_brace_witness :
    soapRecover jsonParse exCutOff "end_turn"
      = .error "The AI response was incomplete (no closing brace). Please try again." :=
  soapRecover_quote_after_brace jsonParse exCutOff "end_turn" (by decide) (by decide)

/-! ## Validation and the sanitised retry -/

theorem truthy_obj (fields : List (String × JVal)) : (JVal.obj fields).truthy = true := rfl

theorem validSoap_obj (fields : List (String × JVal)) :
    validSoap (.obj fields) = .ok (soapAccepted fields) := by
  unfold validSoap soapAccepted
  simp only [JVal.getProp, bind, Except.bind, pure, Except.pure]
  cases hl : fields.lookup "soap_content" with
  | none => simp [JVal.truthy]
  | some sc =>
    cases sc with
    | obj inner =>
      simp only [Option.getD_some, truthy_obj, Bool.not_true, Bool.false_eq_true, if_false,
        JVal.getProp]
      generalize ((inner.lookup "subjective").getD .undefined).truthy = b
      cases b <;> rfl
    | undefined => simp [JVal.truthy]
    | null => simp [JVal.truthy]
    | bool b => cases b <;> simp [JVal.truthy, JVal.getProp]
    | num n => by_cases hn : n = 0 <;> simp [JVal.truthy, JVal.getProp, hn]
    | numLit t =>
      cases ht : (JVal.numLit t).truthy <;> simp [JVal.getProp, ht, JVal.truthy]
    | str t => by_cases ht : t = "" <;> simp [JVal.truthy, JVal.getProp, ht]
    | arr items => simp [JVal.truthy, JVal.getProp]

theorem renderSoap_obj (inner : List (String × JVal)) :
    ∃ soap, renderSoap (.obj inner) = .ok soap :=
  ⟨_, rfl⟩

theorem soapAccepted_obj (fields : List (String × JVal)) (soapContent : JVal)
    (h : soapAccepted fields = some soapContent) : ∃ inner, soapContent = .obj inner := by
  unfold soapAccepted at h
  split at h
  · split at h
    · injection h with h
      exact ⟨_, h.symm⟩
    · exact absurd h (by simp)
  · exact absurd h (by simp)

/-- C18, as stated, fails: the response below has a subjective text and no objective,
assessment or plan; the handler accepts it, stores it as the last generated result and shows
the note. -/
theorem handleSoapGeneration_accepts_subjective_only :
    jsonParse exSubjectiveOnly = some (.obj [("soap_content", .obj [("subjective", .str "x")])]) ∧
    (handleSoapGeneration jsonParse (exSoapEnv exSubjectiveOnly "end_turn")
      exSessionWithPage).session.lastGeneratedData
      = .obj [("soap", .obj [("subjective", .str "x")])] ∧
    (handleSoapGeneration jsonParse (exSoapEnv exSubjectiveOnly "end_turn")
      exSessionWithPage).shown
      = .note { subjective := .str "x", objective := .undefined, assessment := .undefined,
                plan := .undefined } := by
  refine ⟨rfl, rfl, rfl⟩

/-- C18, amended. SOAP schema validation: for every response parsed to an object,
`handleSoapGeneration` accepts it (stores its `soap_content` as the last generated result and
shows the note) if and only if `soap_content` is an object whose `subjective` is present and
truthy (for a text: non-empty); `objective`, `assessment` and `plan` are not checked.
Otherwise it fails with the missing-SOAP-sections error, which differs from the invalid-JSON
error, and leaves the state as it was. -/
theorem handleSoapGeneration_validation (parseJson : String → Option JVal) (s : Session)
    (apiKey content stopReason : String) (fields : List (String × JVal))
    (hcontent : s.extractedContent ≠ "") (hkey : apiKey ≠ "")
    (hparse : soapRecover parseJson content stopReason = .ok (.obj fields)) :
    (∀ soapContent, soapAccepted fields = some soapContent →
      (handleSoapGeneration parseJson
        { apiKey := apiKey, reply := .text content, stopReason := stopReason } s).session
        = { s with lastGeneratedData := .obj [("soap", soapContent)] } ∧
      ∃ soap, renderSoap soapContent = .ok soap ∧
        (handleSoapGeneration parseJson
          { apiKey := apiKey, reply := .text content, stopReason := stopReason } s).shown
          = .note soap) ∧
    (soapAccepted fields = none →
      (handleSoapGeneration parseJson
        { apiKey := apiKey, reply := .text content, stopReason := stopReason } s).session = s ∧
      (handleSoapGeneration parseJson
        { apiKey := apiKey, reply := .text content, stopReason := stopReason } s).shown
        = .failure ("❌ I had trouble generating the note: " ++
            "The AI response is missing required SOAP sections.")) ∧
    "The AI response is missing required SOAP sections."
      ≠ "The AI returned invalid JSON. Please try generating the note again." := by
  refine ⟨?_, ?_, by decide⟩
  · intro soapContent hacc
    obtain ⟨inner, rfl⟩ := soapAccepted_obj fields soapContent hacc
    obtain ⟨soap, hsoap⟩ := renderSoap_obj inner
    unfold handleSoapGeneration soapTry
    simp only [hcontent, hkey, if_false, hparse, validSoap_obj, hacc, hsoap]
    refine ⟨?_, soap, ?_, ?_⟩ <;> first | rfl | trivial
  · intro hacc
    unfold handleSoapGeneration soapTry
    simp only [hcontent, hkey, if_false, hparse, validSoap_obj, hacc]
    exact ⟨trivial, rfl⟩

theorem handleSoapGeneration_validation_witness :
    soapAccepted [("soap_content", JVal.obj [("objective", JVal.str "y")])] = none ∧
      ((handleSoapGeneration jsonParse
        { apiKey := "key", reply := .text "\x7b\"soap_content\":\x7b\"objective\":\"y\"\x7d\x7d",
          stopReason := "end_turn" } exSessionWithPage).session = exSessionWithPage ∧
      (handleSoapGeneration jsonParse
        { apiKey := "key", reply := .text "\x7b\"soap_content\":\x7b\"objective\":\"y\"\x7d\x7d",
          stopReason := "end_turn" } exSessionWithPage).shown
        = .failure ("❌ I had trouble generating the note: " ++
            "The AI response is missing required SOAP sections.")) :=
  ⟨rfl, (handleSoapGeneration_validation jsonParse exSessionWithPage "key"
    "\x7b\"soap_content\":\x7b\"objective\":\"y\"\x7d\x7d" "end_turn"
    [("soap_content", JVal.obj [("objective", JVal.str "y")])]
    (by decide) (by decide) rfl).2.1 rfl⟩

theorem validBilling_obj (fields : List (String × JVal)) :
    validBilling (.obj fields) = .ok (billingAccepted fields) := by
  unfold validBilling billingAccepted
  simp only [JVal.getProp, bind, Except.bind, pure, Except.pure]
  cases hl : fields.lookup "billing" with
  | none => simp [JVal.truthy]
  | some sc =>
    cases sc with
    | obj inner =>
      simp only [Option.getD_some, truthy_obj, Bool.not_true, Bool.false_eq_true, if_false,
        JVal.getProp]
      generalize ((inner.lookup "icd").getD .undefined).truthy = b
      generalize ((inner.lookup "cpt").getD .undefined).truthy = c
      cases b <;> rfl
    | undefined => simp [JVal.truthy]
    | null => simp [JVal.truthy]
    | bool b => cases b <;> simp [JVal.truthy, JVal.getProp]
    | num n => by_cases hn : n = 0 <;> simp [JVal.truthy, JVal.getProp, hn]
    | numLit t =>
      cases ht : (JVal.numLit t).truthy <;> simp [JVal.getProp, ht, JVal.truthy]
    | str t => by_cases ht : t = "" <;> simp [JVal.truthy, JVal.getProp, ht]
    | arr items => simp [JVal.truthy, JVal.getProp]

/-- C19, as stated, fails: in the response below `icd` is a text, not a list; it passes
validation and is stored in the cache. -/
theorem handleFeeSlipGeneration_caches_text_icd :
    feeSlipParse jsonParse exIcdTextSlip
      = some (.obj [("billing", .obj [("icd", .str "E11.9"), ("cpt", .arr [])])]) ∧
    validBilling (.obj [("billing", .obj [("icd", .str "E11.9"), ("cpt", .arr [])])])
      = .ok true ∧
    (handleFeeSlipGeneration (feeSlipParse jsonParse)
      { page := none, apiKey := "key", reply := .text exIcdTextSlip }
      exSessionWithPage).session.generatedCodesCache
      = [("42_7", .obj [("billing", .obj [("icd", .str "E11.9"), ("cpt", .arr [])])])] := by
  refine ⟨rfl, rfl, rfl⟩

/-- C19, amended. Fee-slip schema validation: for every request that reaches the endpoint and
whose response parses to an object, the response passes validation, and is then stored in
the cache under the key of the request, if and only if `billing` is an object whose `icd` and
`cpt` are present and truthy (every list is, the empty one included; so is a non-empty text);
otherwise the run fails with the missing-billing-sections error and the state, the cache
included, stays as it was. -/
theorem handleFeeSlipGeneration_validation (parse : String → Option JVal) (env : FeeSlipEnv)
    (s : Session) (content : String) (fields : List (String × JVal))
    (hcontent : s.extractedContent ≠ "") (hkey : env.apiKey ≠ "")
    (hreply : env.reply = .text content)
    (hmiss : (cacheGet s.generatedCodesCache (cacheKey s.currentMetadata)).truthy = false)
    (hparse : parse content = some (.obj fields)) :
    (validBilling (.obj fields) = .ok (billingAccepted fields)) ∧
    (billingAccepted fields = true →
      (handleFeeSlipGeneration parse env s).session.generatedCodesCache
        = cachePut s.generatedCodesCache (cacheKey s.currentMetadata) (.obj fields)) ∧
    (billingAccepted fields = false →
      (handleFeeSlipGeneration parse env s).session = s ∧
      (handleFeeSlipGeneration parse env s).shown
        = some (.failure ("❌ I had trouble generating the fee slip: " ++
            "The AI response is missing required billing sections."))) ∧
    (∀ items, (JVal.arr items).truthy = true) := by
  refine ⟨validBilling_obj fields, ?_, ?_, fun _ => rfl⟩
  · intro hacc
    unfold handleFeeSlipGeneration
    simp only [hcontent, if_false, hmiss, Bool.false_eq_true, hkey, hreply, feeSlipTry, hparse,
      validBilling_obj, hacc]
    cases insertableOf (.obj fields) with
    | error e => rfl
    | ok data =>
      simp only []
      cases renderFeeSlip (.obj fields) <;> rfl
  · intro hacc
    unfold handleFeeSlipGeneration
    simp only [hcontent, if_false, hmiss, Bool.false_eq_true, hkey, hreply, feeSlipTry, hparse,
      validBilling_obj, hacc]
    exact ⟨trivial, rfl⟩

theorem handleFeeSlipGeneration_validation_witness :
    billingAccepted [("billing", JVal.obj [("icd", JVal.arr []), ("cpt", JVal.arr [])])] = true ∧
      ((handleFeeSlipGeneration (feeSlipParse jsonParse)
        { page := none, apiKey := "key", reply := .text "\x7b\"billing\":\x7b\"icd\":[],\"cpt\":[]\x7d\x7d" }
        exSessionWithPage).session.generatedCodesCache
        = cachePut exSessionWithPage.generatedCodesCache
            (cacheKey exSessionWithPage.currentMetadata)
            (.obj [("billing", JVal.obj [("icd", JVal.arr []), ("cpt", JVal.arr [])])])) :=
  ⟨rfl, (handleFeeSlipGeneration_validation (feeSlipParse jsonParse)
    { page := none, apiKey := "key", reply := .text "\x7b\"billing\":\x7b\"icd\":[],\"cpt\":[]\x7d\x7d" }
    exSessionWithPage "\x7b\"billing\":\x7b\"icd\":[],\"cpt\":[]\x7d\x7d"
    [("billing", JVal.obj [("icd", JVal.arr []), ("cpt", JVal.arr [])])]
    (by decide) (by decide) rfl rfl rfl).2.1 rfl⟩

theorem replaceControl_absent (control : Char) (escape : List Char) (l : List Char)
    (h : ∀ x ∈ l, (x == control) = false) : replaceControl control escape l = l := by
  induction l with
  | nil => rfl
  | cons x xs ih =>
    cases xs with
    | nil => rfl
    | cons y rest =>
      unfold replaceControl
      have hy : (y == control) = false := h y (by simp)
      simp only [hy, Bool.and_false, Bool.false_eq_true, if_false]
      rw [ih (fun z hz => h z (List.mem_cons_of_mem _ hz))]

theorem escapeNewlines_cons_ne (c : Char) (l : List Char) (h : (c == '\n') = false) :
    escapeNewlines (c :: l) = c :: escapeNewlines l := by
  simp only [escapeNewlines, h, Bool.false_eq_true, if_false]

theorem replaceControl_isolated (n : Nat) :
    ∀ (l : List Char) (x : Char), l.length ≤ n → isolatedNewlines (some x) l = true →
      replaceControl '\n' "\\n".data (x :: l) = x :: escapeNewlines l := by
  induction n with
  | zero =>
    intro l x hlen _
    have : l = [] := List.length_eq_zero.mp (Nat.le_zero.mp hlen)
    subst this
    rfl
  | succ n ih =>
    intro l x hlen hiso
    cases l with
    | nil => rfl
    | cons y rest =>
      unfold isolatedNewlines at hiso
      simp only [Bool.and_eq_true, Bool.or_eq_true] at hiso
      obtain ⟨⟨⟨_, _⟩, hy⟩, hrest⟩ := hiso
      have hlen2 : rest.length ≤ n := by
        simp only [List.length_cons] at hlen
        omega
      unfold replaceControl
      by_cases hyn : (y == '\n') = true
      · have hye : y = '\n' := by simpa using hyn
        have hx : (x != '\\') = true := by
          rcases hy with h | h
          · rw [hye] at h
            exact absurd h (by decide)
          · have h1 := h.1
            simp only [bne_iff_ne, ne_eq, Option.some.injEq] at h1
            simpa using h1
        simp only [hx, hyn, Bool.and_self, if_true]
        subst hye
        have hesc : escapeNewlines ('\n' :: rest) = '\\' :: 'n' :: escapeNewlines rest := rfl
        rw [hesc]
        cases rest with
        | nil => rfl
        | cons z rest2 =>
          unfold isolatedNewlines at hrest
          simp only [Bool.and_eq_true, Bool.or_eq_true] at hrest
          obtain ⟨⟨⟨_, _⟩, hz⟩, hrest2⟩ := hrest
          have hzn : (z == '\n') = false := by
            rcases hz with h | h
            · simpa using h
            · exact absurd h.2 (by decide)
          have hlen3 : rest2.length ≤ n := by
            simp only [List.length_cons] at hlen2
            omega
          rw [ih rest2 z hlen3 hrest2, escapeNewlines_cons_ne z rest2 hzn]
          rfl
      · have hyn2 : (y == '\n') = false := by simpa using hyn
        simp only [hyn2, Bool.and_false, Bool.false_eq_true, if_false]
        rw [ih rest y hlen2 hrest, escapeNewlines_cons_ne y rest hyn2]

theorem isolatedNewlines_no_control (l : List Char) :
    ∀ prev, isolatedNewlines prev l = true →
      ∀ x ∈ l, (x == '\r') = false ∧ (x == '\t') = false := by
  induction l with
  | nil =>
    intro _ _ x hx
    exact absurd hx (List.not_mem_nil x)
  | cons c cs ih =>
    intro prev h x hx
    unfold isolatedNewlines at h
    simp only [Bool.and_eq_true, Bool.or_eq_true] at h
    obtain ⟨⟨⟨h1, h2⟩, _⟩, hrest⟩ := h
    rcases List.mem_cons.mp hx with e | e
    · subst e
      exact ⟨by simpa using h1, by simpa using h2⟩
    · exact ih (some c) hrest x e

theorem escapeNewlines_no_control (l : List Char)
    (h : ∀ x ∈ l, (x == '\r') = false ∧ (x == '\t') = false) :
    ∀ x ∈ escapeNewlines l, (x == '\r') = false ∧ (x == '\t') = false := by
  induction l with
  | nil =>
    intro x hx
    exact absurd hx (List.not_mem_nil x)
  | cons c cs ih =>
    have ihc := ih (fun z hz => h z (List.mem_cons_of_mem _ hz))
    intro x hx
    by_cases hc : (c == '\n') = true
    · have e1 : escapeNewlines (c :: cs) = '\\' :: 'n' :: escapeNewlines cs := by
        simp only [escapeNewlines, hc, if_true]
      rw [e1] at hx
      rcases List.mem_cons.mp hx with e | e
      · subst e
        decide
      · rcases List.mem_cons.mp e with e2 | e2
        · subst e2
          decide
        · exact ihc x e2
    · have hc2 : (c == '\n') = false := by simpa using hc
      rw [escapeNewlines_cons_ne c cs hc2] at hx
      rcases List.mem_cons.mp hx with e | e
      · subst e
        exact h x (List.mem_cons_self _ _)
      · exact ihc x e

theorem replaceLeading_ne (control : Char) (escape : List Char) (x : Char) (l : List Char)
    (h : (x == control) = false) : replaceLeading control escape (x :: l) = x :: l := by
  unfold replaceLeading
  simp only [h, Bool.false_eq_true, if_false]

theorem sanitize_isolated (text : String) (h : isolatedNewlines none text.data = true) :
    sanitize text = String.mk (escapeNewlines text.data) := by
  unfold sanitize
  cases hd : text.data with
  | nil => rfl
  | cons x l =>
    rw [hd] at h
    have hctl := isolatedNewlines_no_control _ _ h
    have hx := hctl x (List.mem_cons_self _ _)
    unfold isolatedNewlines at h
    simp only [Bool.and_eq_true] at h
    have hrest := h.2
    have hl : ∀ z ∈ l, (z == '\r') = false ∧ (z == '\t') = false :=
      fun z hz => hctl z (List.mem_cons_of_mem _ hz)
    have hel := escapeNewlines_no_control l hl
    have hall : ∀ z ∈ x :: escapeNewlines l, (z == '\r') = false ∧ (z == '\t') = false := by
      intro z hz
      rcases List.mem_cons.mp hz with e | e
      · subst e
        exact hx
      · exact hel z e
    simp only []
    rw [replaceControl_isolated l.length l x (le_refl _) hrest,
      replaceControl_absent '\r' _ _ (fun z hz => (hall z hz).1),
      replaceControl_absent '\t' _ _ (fun z hz => (hall z hz).2)]
    congr 1
    by_cases hxn : (x == '\n') = true
    · have hxe : x = '\n' := by simpa using hxn
      subst hxe
      rfl
    · have hxn2 : (x == '\n') = false := by simpa using hxn
      rw [replaceLeading_ne '\n' _ x _ hxn2, replaceLeading_ne '\r' _ x _ hx.1,
        replaceLeading_ne '\t' _ x _ hx.2, escapeNewlines_cons_ne x l hxn2]

/-- C14, as stated, fails: the multi-line, indented object below has one line feed inside its
string value and is well-formed once that line feed is written as an escape; the pass also
escapes the line feeds between the tokens, and the second parse fails as the first did. -/
theorem parseWithRetry_multi_line_fails :
    jsonParse exMultiLine = none ∧
    jsonParse "\x7b\n  \"note\": \"first\\nsecond\"\n\x7d" = some (.obj [("note", .str "first\nsecond")]) ∧
    sanitize exMultiLine = "\x7b\\n  \"note\": \"first\\nsecond\"\\n\x7d" ∧
    parseWithRetry jsonParse exMultiLine = none ∧
    feeSlipParse jsonParse exMultiLine = none := by
  refine ⟨rfl, rfl, by decide, rfl, rfl⟩

/-- C14, amended. Sanitization round-trip: for every text without carriage return and tab in
which no line feed follows a backslash or another line feed, whose direct parse fails and
which is well-formed JSON once every one of its line feeds is written as the two-character
escape (so that every line feed stands inside a string value and the rest is on one line),
the pass yields exactly that escaped text, and the parser succeeds after the pass and returns
the value of the escaped text. -/
theorem parseWithRetry_escapes_line_feeds (parseJson : String → Option JVal) (text : String)
    (v : JVal) (hiso : isolatedNewlines none text.data = true)
    (hfail : parseJson text = none)
    (hescaped : parseJson (String.mk (escapeNewlines text.data)) = some v) :
    sanitize text = String.mk (escapeNewlines text.data) ∧
    parseWithRetry parseJson text = some v := by
  have hs := sanitize_isolated text hiso
  refine ⟨hs, ?_⟩
  unfold parseWithRetry
  rw [hfail]
  simp only []
  rw [hs, hescaped]

theorem parseWithRetry_escapes_line_feeds_witness :
    parseWithRetry jsonParse exOneLine = some (.obj [("note", .str "first\nsecond")]) :=
  (parseWithRetry_escapes_line_feeds jsonParse exOneLine
    (.obj [("note", .str "first\nsecond")]) (by decide) rfl rfl).2

/-! ## Fences and white space around a JSON text -/

theorem isJsonWs_cases (c : Char) (h : isJsonWs c = true) :
    c = ' ' ∨ c = '\t' ∨ c = '\n' ∨ c = '\r' := by
  unfold isJsonWs at h
  simp only [Bool.or_eq_true, beq_iff_eq] at h
  tauto

theorem lexStep_ws_finish (st : LexState) (c : Char) (h : isJsonWs c = true) :
    (lexStep st c).bind lexFinish = lexFinish st := by
  obtain ⟨tokens, mode⟩ := st
  rcases isJsonWs_cases c h with e | e | e | e
  all_goals
    subst e
    cases mode <;> rfl

theorem lexStep_idle_ws (c : Char) (h : isJsonWs c = true) :
    lexStep { tokens := [], mode := .idle } c = some { tokens := [], mode := .idle } := by
  rcases isJsonWs_cases c h with e | e | e | e
  all_goals
    subst e
    rfl

theorem tokenize_cons_ws (c : Char) (l : List Char) (h : isJsonWs c = true) :
    tokenize (c :: l) = tokenize l := by
  unfold tokenize
  rw [List.foldlM_cons, lexStep_idle_ws c h]
  rfl

theorem tokenize_append_ws (l : List Char) (c : Char) (h : isJsonWs c = true) :
    tokenize (l ++ [c]) = tokenize l := by
  unfold tokenize
  rw [List.foldlM_append]
  cases l.foldlM lexStep { tokens := [], mode := .idle } with
  | none => rfl
  | some st =>
    show (lexStep st c >>= fun x => pure x).bind lexFinish = lexFinish st
    rw [bind_pure]
    exact lexStep_ws_finish st c h

theorem lexStep_other_space (c : Char) (h1 : jsIsWhiteSpace c = true)
    (h2 : isJsonWs c = false) :
    startKind c = none ∧ ∀ st : LexState, (lexStep st c).bind lexFinish = none := by
  obtain ⟨n, hn⟩ : ∃ n, c.toNat = n := ⟨_, rfl⟩
  have hc : c = Char.ofNat n := by rw [← hn, Char.ofNat_toNat]
  unfold jsIsWhiteSpace at h1
  simp only [hn, Bool.or_eq_true, beq_iff_eq, Bool.and_eq_true, decide_eq_true_eq] at h1
  subst hc
  have key : ∀ m : Nat, isJsonWs (Char.ofNat m) = false →
      (m = 9 ∨ m = 10 ∨ m = 11 ∨ m = 12 ∨ m = 13 ∨ m = 32 ∨ m = 160 ∨ m = 5760 ∨
        (8192 ≤ m ∧ m ≤ 8202) ∨ m = 8232 ∨ m = 8233 ∨ m = 8239 ∨ m = 8287 ∨ m = 12288 ∨
        m = 65279) →
      startKind (Char.ofNat m) = none ∧
        ∀ st : LexState, (lexStep st (Char.ofNat m)).bind lexFinish = none := by
    intro m hm hcases
    have hfin : ∀ d : Char, startKind d = none → isNumberChar d = false →
        isWordChar d = false → escapeChar d = none → hexDigitValue d = none →
        (d == '"') = false → (d == '\\') = false → (d == 'u') = false →
        ∀ st : LexState, (lexStep st d).bind lexFinish = none := by
      intro d k1 k2 k3 k4 k5 k6 k7 k8 st
      obtain ⟨tokens, mode⟩ := st
      cases mode with
      | idle => simp [lexStep, startToken, k1]
      | inString acc =>
        simp only [lexStep, k6, k7, Bool.false_eq_true, if_false]
        by_cases hlt : d.toNat < 32
        · simp [hlt]
        · simp [hlt, lexFinish]
      | inEscape acc => simp [lexStep, k8, k4]
      | inUnicode acc digits => simp [lexStep, k5]
      | inNumber acc => simp [lexStep, k2, startToken, k1]
      | inWord acc => simp [lexStep, k3, startToken, k1]
    have hall : startKind (Char.ofNat m) = none ∧ isNumberChar (Char.ofNat m) = false ∧
        isWordChar (Char.ofNat m) = false ∧ escapeChar (Char.ofNat m) = none ∧
        hexDigitValue (Char.ofNat m) = none ∧ (Char.ofNat m == '"') = false ∧
        (Char.ofNat m == '\\') = false ∧ (Char.ofNat m == 'u') = false := by
      rcases hcases with e | e | e | e | e | e | e | e | e | e | e | e | e | e | e
      any_goals
        subst e
        first
          | exact absurd hm (by decide)
          | decide
      obtain ⟨lo, hi⟩ := e
      interval_cases m <;> decide
    obtain ⟨k1, k2, k3, k4, k5, k6, k7, k8⟩ := hall
    exact ⟨k1, hfin _ k1 k2 k3 k4 k5 k6 k7 k8⟩
  have h1b : n = 9 ∨ n = 10 ∨ n = 11 ∨ n = 12 ∨ n = 13 ∨ n = 32 ∨ n = 160 ∨ n = 5760 ∨
      (8192 ≤ n ∧ n ≤ 8202) ∨ n = 8232 ∨ n = 8233 ∨ n = 8239 ∨ n = 8287 ∨ n = 12288 ∨
      n = 65279 := by
    tauto
  exact key n h2 h1b

theorem tokenize_cons_none (c : Char) (l : List Char) (h : startKind c = none) :
    tokenize (c :: l) = none := by
  unfold tokenize
  rw [List.foldlM_cons]
  have : lexStep { tokens := [], mode := .idle } c = none := by
    simp [lexStep, startToken, h]
  rw [this]
  rfl

theorem tokenize_append_none (l : List Char) (c : Char)
    (h : ∀ st : LexState, (lexStep st c).bind lexFinish = none) :
    tokenize (l ++ [c]) = none := by
  unfold tokenize
  rw [List.foldlM_append]
  cases l.foldlM lexStep { tokens := [], mode := .idle } with
  | none => rfl
  | some st =>
    show (lexStep st c >>= fun x => pure x).bind lexFinish = none
    rw [bind_pure]
    exact h st

theorem tokenize_dropWhile (l : List Char) (h : tokenize l ≠ none) :
    tokenize (l.dropWhile jsIsWhiteSpace) = tokenize l := by
  induction l with
  | nil => rfl
  | cons c cs ih =>
    by_cases hws : jsIsWhiteSpace c = true
    · rw [List.dropWhile_cons_of_pos hws]
      by_cases hj : isJsonWs c = true
      · rw [tokenize_cons_ws c cs hj] at h ⊢
        exact ih h
      · have hj2 : isJsonWs c = false := by simpa using hj
        exact absurd (tokenize_cons_none c cs (lexStep_other_space c hws hj2).1) h
    · rw [List.dropWhile_cons_of_neg hws]

theorem tokenize_dropWhile_end (r : List Char) (h : tokenize r.reverse ≠ none) :
    tokenize (r.dropWhile jsIsWhiteSpace).reverse = tokenize r.reverse := by
  induction r with
  | nil => rfl
  | cons c cs ih =>
    by_cases hws : jsIsWhiteSpace c = true
    · rw [List.dropWhile_cons_of_pos hws]
      rw [List.reverse_cons] at h ⊢
      by_cases hj : isJsonWs c = true
      · rw [tokenize_append_ws _ c hj] at h ⊢
        exact ih h
      · have hj2 : isJsonWs c = false := by simpa using hj
        exact absurd (tokenize_append_none _ c (lexStep_other_space c hws hj2).2) h
    · rw [List.dropWhile_cons_of_neg hws]

theorem tokenize_trimChars (l : List Char) (h : tokenize l ≠ none) :
    tokenize (trimChars l) = tokenize l := by
  unfold trimChars
  have h1 := tokenize_dropWhile l h
  have h2 : tokenize (l.dropWhile jsIsWhiteSpace).reverse.reverse ≠ none := by
    rw [List.reverse_reverse, h1]
    exact h
  rw [tokenize_dropWhile_end _ h2, List.reverse_reverse, h1]

theorem tokenize_ne_none_of_jsonParse (j : String) (v : JVal) (h : jsonParse j = some v) :
    tokenize j.data ≠ none := by
  intro e
  unfold jsonParse at h
  rw [e] at h
  exact absurd h (by simp)

theorem jsonParse_congr (a b : String) (h : tokenize a.data = tokenize b.data) :
    jsonParse a = jsonParse b := by
  unfold jsonParse
  rw [h]

theorem jsonParse_jsTrim (j : String) (v : JVal) (h : jsonParse j = some v) :
    jsonParse (jsTrim j) = some v := by
  rw [jsonParse_congr (jsTrim j) j (tokenize_trimChars j.data (tokenize_ne_none_of_jsonParse j v h))]
  exact h

theorem startToken_tokens (tokens : List Token) (c : Char) (st : LexState)
    (h : startToken tokens c = some st) : ∃ more, st.tokens = tokens ++ more := by
  unfold startToken at h
  cases hk : startKind c with
  | none => simp [hk] at h
  | some k =>
    cases k with
    | space =>
      simp only [hk, Option.some.injEq] at h
      exact ⟨[], by rw [← h]; simp⟩
    | punct t =>
      simp only [hk, Option.some.injEq] at h
      exact ⟨[t], by rw [← h]⟩
    | quote =>
      simp only [hk, Option.some.injEq] at h
      exact ⟨[], by rw [← h]; simp⟩
    | number =>
      simp only [hk, Option.some.injEq] at h
      exact ⟨[], by rw [← h]; simp⟩
    | word =>
      simp only [hk, Option.some.injEq] at h
      exact ⟨[], by rw [← h]; simp⟩

theorem lexStep_tokens (st : LexState) (c : Char) (st2 : LexState)
    (h : lexStep st c = some st2) :
    (∃ more, st2.tokens = st.tokens ++ more) ∧
    (∀ acc, st.mode = .inWord acc →
      (st2.tokens = st.tokens ∧ st2.mode = .inWord (acc ++ [c])) ∨
      (∃ more, st2.tokens = st.tokens ++ .word acc :: more)) := by
  obtain ⟨tokens, mode⟩ := st
  cases mode with
  | idle =>
    refine ⟨startToken_tokens tokens c st2 h, ?_⟩
    intro acc hacc
    exact absurd hacc (by simp)
  | inString acc =>
    refine ⟨?_, fun a ha => absurd ha (by simp)⟩
    simp only [lexStep] at h
    split at h
    · injection h with h
      exact ⟨_, by rw [← h]⟩
    · split at h
      · injection h with h
        exact ⟨[], by rw [← h]; simp⟩
      · split at h
        · exact absurd h (by simp)
        · injection h with h
          exact ⟨[], by rw [← h]; simp⟩
  | inEscape acc =>
    refine ⟨?_, fun a ha => absurd ha (by simp)⟩
    simp only [lexStep] at h
    split at h
    · injection h with h
      exact ⟨[], by rw [← h]; simp⟩
    · split at h
      · injection h with h
        exact ⟨[], by rw [← h]; simp⟩
      · exact absurd h (by simp)
  | inUnicode acc digits =>
    refine ⟨?_, fun a ha => absurd ha (by simp)⟩
    simp only [lexStep] at h
    split at h
    · exact absurd h (by simp)
    · split at h
      · injection h with h
        exact ⟨[], by rw [← h]; simp⟩
      · injection h with h
        exact ⟨[], by rw [← h]; simp⟩
  | inNumber acc =>
    refine ⟨?_, fun a ha => absurd ha (by simp)⟩
    simp only [lexStep] at h
    split at h
    · injection h with h
      exact ⟨[], by rw [← h]; simp⟩
    · obtain ⟨more, hm⟩ := startToken_tokens _ c st2 h
      exact ⟨.num acc :: more, by rw [hm]; simp⟩
  | inWord acc =>
    simp only [lexStep] at h
    split at h
    · injection h with h
      refine ⟨⟨[], by rw [← h]; simp⟩, ?_⟩
      intro a ha
      injection ha with ha
      subst ha
      left
      rw [← h]
      exact ⟨rfl, rfl⟩
    · obtain ⟨more, hm⟩ := startToken_tokens _ c st2 h
      refine ⟨⟨.word acc :: more, by rw [hm]; simp⟩, ?_⟩
      intro a ha
      injection ha with ha
      subst ha
      right
      exact ⟨more, by rw [hm]; simp⟩

theorem foldlM_word_head (first : Char) (l : List Char) :
    ∀ st st2 : LexState,
      ((st.tokens = [] ∧ ∃ acc, st.mode = .inWord (first :: acc)) ∨
        (∃ acc ts, st.tokens = .word (first :: acc) :: ts)) →
      l.foldlM lexStep st = some st2 →
      ((st2.tokens = [] ∧ ∃ acc, st2.mode = .inWord (first :: acc)) ∨
        (∃ acc ts, st2.tokens = .word (first :: acc) :: ts)) := by
  induction l with
  | nil =>
    intro st st2 hP h
    have e : st = st2 := by
      have : (some st : Option LexState) = some st2 := h
      injection this
    rw [← e]
    exact hP
  | cons c cs ih =>
    intro st st2 hP h
    rw [List.foldlM_cons] at h
    cases hstep : lexStep st c with
    | none =>
      rw [hstep] at h
      exact absurd h (by simp)
    | some st1 =>
      rw [hstep] at h
      have h2 : cs.foldlM lexStep st1 = some st2 := h
      apply ih st1 st2 _ h2
      obtain ⟨⟨more, hmore⟩, hword⟩ := lexStep_tokens st c st1 hstep
      rcases hP with ⟨ht, acc, hm⟩ | ⟨acc, ts, ht⟩
      · rcases hword (first :: acc) hm with ⟨h1, h2⟩ | ⟨more2, h1⟩
        · left
          exact ⟨by rw [h1, ht], acc ++ [c], by rw [h2]; rfl⟩
        · right
          exact ⟨acc, more2, by rw [h1, ht]; rfl⟩
      · right
        exact ⟨acc, ts ++ more, by rw [hmore, ht]; rfl⟩

theorem tokenize_word_head (first : Char) (l : List Char) (ts : List Token)
    (hk : startKind first = some .word) (h : tokenize (first :: l) = some ts) :
    ∃ acc rest, ts = .word (first :: acc) :: rest := by
  unfold tokenize at h
  rw [List.foldlM_cons] at h
  have hstep : lexStep { tokens := [], mode := .idle } first
      = some { tokens := [], mode := .inWord [first] } := by
    simp [lexStep, startToken, hk]
  rw [hstep] at h
  change (l.foldlM lexStep { tokens := [], mode := .inWord [first] }).bind lexFinish
    = some ts at h
  cases hf : l.foldlM lexStep { tokens := [], mode := .inWord [first] } with
  | none =>
    rw [hf] at h
    exact absurd h (by simp)
  | some st2 =>
    rw [hf] at h
    have hfin : lexFinish st2 = some ts := h
    have hinv := foldlM_word_head first l _ st2 (Or.inl ⟨rfl, [], rfl⟩) hf
    obtain ⟨tokens, mode⟩ := st2
    rcases hinv with ⟨ht, acc, hm⟩ | ⟨acc, rest, ht⟩
    · simp only at ht hm
      subst ht
      subst hm
      simp only [lexFinish, List.nil_append, Option.some.injEq] at hfin
      exact ⟨acc, [], hfin.symm⟩
    · simp only at ht
      subst ht
      cases mode with
      | idle =>
        simp only [lexFinish, Option.some.injEq] at hfin
        exact ⟨acc, rest, hfin.symm⟩
      | inNumber a =>
        simp only [lexFinish, Option.some.injEq] at hfin
        exact ⟨acc, rest ++ [.num a], by rw [← hfin]; rfl⟩
      | inWord a =>
        simp only [lexFinish, Option.some.injEq] at hfin
        exact ⟨acc, rest ++ [.word a], by rw [← hfin]; rfl⟩
      | inString a => exact absurd hfin (by simp [lexFinish])
      | inEscape a => exact absurd hfin (by simp [lexFinish])
      | inUnicode a d => exact absurd hfin (by simp [lexFinish])

theorem parseTokens_word (text : List Char) (rest : List Token) (h : wordValue text = none) :
    parseTokens (.word text :: rest) = none := by
  unfold parseTokens
  simp only [List.length_cons, parseValue, h, Option.map_none']

theorem jsonParse_head (c : Char) (l : List Char) (v : JVal)
    (h : jsonParse (String.mk (c :: l)) = some v) : c ≠ '`' ∧ c ≠ 'j' := by
  constructor
  · intro e
    subst e
    have := tokenize_ne_none_of_jsonParse _ v h
    exact this (tokenize_cons_none _ l (by decide))
  · intro e
    subst e
    unfold jsonParse at h
    cases ht : tokenize (String.mk ('j' :: l)).data with
    | none =>
      rw [ht] at h
      exact absurd h (by simp)
    | some ts =>
      rw [ht] at h
      obtain ⟨acc, rest, hts⟩ := tokenize_word_head 'j' l ts (by decide) ht
      subst hts
      have hw : wordValue ('j' :: acc) = none := by
        simp [wordValue]
      have hp := parseTokens_word ('j' :: acc) rest hw
      have h2 : parseTokens (.word ('j' :: acc) :: rest) = some v := h
      rw [hp] at h2
      exact absurd h2 (by simp)

theorem fenced_data (marker : String) (a b : Bool) (j : String) :
    (fenced marker a b j).data =
      marker.data ++ (((if a then ['\n'] else []) ++ j.data ++ (if b then ['\n'] else []))
        ++ "```".data) := by
  unfold fenced
  cases a <;> cases b <;> simp [String.data_append]

theorem trimChars_fixed (c d : Char) (m : List Char) (hc : jsIsWhiteSpace c = false)
    (hd : jsIsWhiteSpace d = false) : trimChars (c :: (m ++ [d])) = c :: (m ++ [d]) := by
  unfold trimChars
  have hc2 : ¬ jsIsWhiteSpace c = true := by simp [hc]
  have hd2 : ¬ jsIsWhiteSpace d = true := by simp [hd]
  rw [List.dropWhile_cons_of_neg hc2]
  have e : (c :: (m ++ [d])).reverse = d :: (m.reverse ++ [c]) := by simp
  rw [e, List.dropWhile_cons_of_neg hd2, ← e, List.reverse_reverse]

theorem dropTrailingFence_append (z : List Char) :
    dropTrailingFence (z ++ "```".data) = z := by
  unfold dropTrailingFence
  have hs : "```".data.isSuffixOf (z ++ "```".data) = true := by
    rw [List.isSuffixOf_iff_suffix]
    exact List.suffix_append _ _
  rw [if_pos hs]
  have hl : (z ++ "```".data).length - 3 = z.length := by
    rw [List.length_append]
    show z.length + 3 - 3 = z.length
    omega
  rw [hl, List.take_left']
  rfl

theorem not_fence_prefix (z : List Char) (h : tokenize z ≠ none) :
    "```".data.isPrefixOf z = false := by
  cases z with
  | nil => rfl
  | cons c rest =>
    by_cases hc : c = '`'
    · subst hc
      exact absurd (tokenize_cons_none _ rest (by decide)) h
    · have hb : ('`' == c) = false := by
        simp only [beq_eq_false_iff_ne, ne_eq]
        exact fun e => hc e.symm
      show (('`' == c) && _) = false
      rw [hb]
      rfl

theorem dropFirstFence_json (y : List Char) :
    dropFirstFence "```json".data ("```json".data ++ y) = dropLineFeed y := by
  show dropFirstFence ['`', '`', '`', 'j', 's', 'o', 'n']
    ('`' :: '`' :: '`' :: 'j' :: 's' :: 'o' :: 'n' :: y) = _
  simp [dropFirstFence, List.isPrefixOf]

theorem dropFirstFence_plain (y : List Char) :
    dropFirstFence "```".data ("```".data ++ y) = dropLineFeed y := by
  show dropFirstFence ['`', '`', '`'] ('`' :: '`' :: '`' :: y) = _
  simp [dropFirstFence, List.isPrefixOf]

theorem cleanFences_json (t : String) (y z : List Char)
    (ht : t.data = "```json".data ++ y) (hy : dropLineFeed y = z ++ "```".data)
    (hz : tokenize z ≠ none) : cleanFences t = String.mk z := by
  have h1 : startsWith t "```json" = true := by
    unfold startsWith
    rw [ht, List.isPrefixOf_iff_prefix]
    exact List.prefix_append _ _
  have h2 : dropTrailingFence (dropFirstFence "```json".data t.data) = z := by
    rw [ht, dropFirstFence_json, hy, dropTrailingFence_append]
  have h3 : startsWith (String.mk z) "```" = false := not_fence_prefix z hz
  show (if startsWith (if startsWith t "```json" = true then
      String.mk (dropTrailingFence (dropFirstFence "```json".data t.data)) else t) "```" = true
    then String.mk (dropTrailingFence (dropFirstFence "```".data
      (if startsWith t "```json" = true then
        String.mk (dropTrailingFence (dropFirstFence "```json".data t.data)) else t).data))
    else (if startsWith t "```json" = true then
      String.mk (dropTrailingFence (dropFirstFence "```json".data t.data)) else t)) = _
  rw [if_pos h1, h2, if_neg (by rw [h3]; decide)]

theorem cleanFences_plain (t : String) (y z : List Char)
    (ht : t.data = "```".data ++ y) (hj : "json".data.isPrefixOf y = false)
    (hy : dropLineFeed y = z ++ "```".data) : cleanFences t = String.mk z := by
  have h1 : startsWith t "```json" = false := by
    unfold startsWith
    rw [ht]
    show (('`' == '`') && (('`' == '`') && (('`' == '`') && "json".data.isPrefixOf y))) = false
    rw [hj]
    rfl
  have h0 : startsWith t "```" = true := by
    unfold startsWith
    rw [ht, List.isPrefixOf_iff_prefix]
    exact List.prefix_append _ _
  have h2 : dropTrailingFence (dropFirstFence "```".data t.data) = z := by
    rw [ht, dropFirstFence_plain, hy, dropTrailingFence_append]
  show (if startsWith (if startsWith t "```json" = true then
      String.mk (dropTrailingFence (dropFirstFence "```json".data t.data)) else t) "```" = true
    then String.mk (dropTrailingFence (dropFirstFence "```".data
      (if startsWith t "```json" = true then
        String.mk (dropTrailingFence (dropFirstFence "```json".data t.data)) else t).data))
    else (if startsWith t "```json" = true then
      String.mk (dropTrailingFence (dropFirstFence "```json".data t.data)) else t)) = _
  rw [h1]
  simp only [Bool.false_eq_true, if_false]
  rw [if_pos h0, h2]

theorem cleanFences_unfenced (t : String) (h : tokenize t.data ≠ none) : cleanFences t = t := by
  unfold cleanFences
  have h3 : startsWith t "```" = false := not_fence_prefix t.data h
  have h1 : startsWith t "```json" = false := by
    unfold startsWith
    cases hd : t.data with
    | nil => rfl
    | cons c rest =>
      have := h3
      unfold startsWith at this
      rw [hd] at this
      by_cases hc : c = '`'
      · subst hc
        rw [hd] at h
        exact absurd (tokenize_cons_none _ rest (by decide)) h
      · have hb : ('`' == c) = false := by
          simp only [beq_eq_false_iff_ne, ne_eq]
          exact fun e => hc e.symm
        show (('`' == c) && _) = false
        rw [hb]
        rfl
  simp only [h1, Bool.false_eq_true, if_false, h3]

theorem dropLineFeed_fenced (a b : Bool) (l : List Char) (hl : tokenize l ≠ none)
    (hne : l ≠ []) :
    ∃ z, dropLineFeed (((if a then ['\n'] else []) ++ l ++ (if b then ['\n'] else []))
        ++ "```".data) = z ++ "```".data ∧
      tokenize z = tokenize l ∧ trimChars z = trimChars l ∧
      (∀ c, jsIsWhiteSpace c = false → z.count c = l.count c) := by
  have hnl : isJsonWs '\n' = true := by decide
  have hend : ∀ m : List Char, tokenize (m ++ (if b then ['\n'] else [])) = tokenize m := by
    intro m
    cases b
    · simp
    · exact tokenize_append_ws m '\n' hnl
  have htrimEnd : ∀ m : List Char,
      trimChars (m ++ (if b then ['\n'] else [])) = trimChars m := by
    intro m
    cases b
    · simp
    · unfold trimChars
      simp only [if_true]
      have hsplit : (m ++ ['\n']).dropWhile jsIsWhiteSpace = [] ∧
          m.dropWhile jsIsWhiteSpace = [] ∨
          (m ++ ['\n']).dropWhile jsIsWhiteSpace = m.dropWhile jsIsWhiteSpace ++ ['\n'] := by
        induction m with
        | nil =>
          left
          exact ⟨by decide, rfl⟩
        | cons x xs ih =>
          by_cases hx : jsIsWhiteSpace x = true
          · simp only [List.cons_append, List.dropWhile_cons_of_pos hx]
            exact ih
          · right
            simp only [List.cons_append, List.dropWhile_cons_of_neg hx]
      rcases hsplit with ⟨e1, e2⟩ | e
      · rw [e1, e2]
      · rw [e, List.reverse_append]
        have hw : jsIsWhiteSpace '\n' = true := by decide
        show (List.dropWhile jsIsWhiteSpace
          ('\n' :: (m.dropWhile jsIsWhiteSpace).reverse)).reverse = _
        rw [List.dropWhile_cons_of_pos hw]
  have hcountEnd : ∀ (m : List Char) (c : Char), jsIsWhiteSpace c = false →
      (m ++ (if b then ['\n'] else [])).count c = m.count c := by
    intro m c hc
    cases b
    · simp
    · have hne : ('\n' == c) = false := by
        by_cases e : c = '\n'
        · subst e
          exact absurd hc (by decide)
        · simp only [beq_eq_false_iff_ne, ne_eq]
          exact fun e2 => e e2.symm
      simp only [if_true, List.count_append, List.count_cons, List.count_nil, hne,
        Bool.false_eq_true, if_false, Nat.add_zero]
  cases a with
  | true =>
    refine ⟨l ++ (if b then ['\n'] else []), ?_, hend l, htrimEnd l, hcountEnd l⟩
    simp [dropLineFeed]
  | false =>
    cases l with
    | nil => exact absurd rfl hne
    | cons x xs =>
      by_cases hx : x = '\n'
      · subst hx
        refine ⟨xs ++ (if b then ['\n'] else []), ?_, ?_, ?_, ?_⟩
        · simp [dropLineFeed]
        · rw [hend, tokenize_cons_ws '\n' xs hnl]
        · rw [htrimEnd]
          unfold trimChars
          have hw : jsIsWhiteSpace '\n' = true := by decide
          rw [List.dropWhile_cons_of_pos hw]
        · intro c hc
          rw [hcountEnd xs c hc]
          have hne2 : ('\n' == c) = false := by
            by_cases e : c = '\n'
            · subst e
              exact absurd hc (by decide)
            · simp only [beq_eq_false_iff_ne, ne_eq]
              exact fun e2 => e e2.symm
          simp only [List.count_cons, hne2, Bool.false_eq_true, if_false, Nat.add_zero]
      · refine ⟨(x :: xs) ++ (if b then ['\n'] else []), ?_, hend _, htrimEnd _, hcountEnd _⟩
        have : dropLineFeed (x :: (xs ++ (if b then ['\n'] else []) ++ "```".data))
            = x :: (xs ++ (if b then ['\n'] else []) ++ "```".data) := by
          unfold dropLineFeed
          split
          · rename_i heq
            injection heq with h1 _
            exact absurd h1 hx
          · rfl
        simpa using this

theorem dropWhile_head_not (p : Char → Bool) (l : List Char) (c : Char) (r : List Char)
    (h : l.dropWhile p = c :: r) : p c = false := by
  induction l with
  | nil => exact absurd h (by simp)
  | cons x xs ih =>
    by_cases hx : p x = true
    · rw [List.dropWhile_cons_of_pos hx] at h
      exact ih h
    · rw [List.dropWhile_cons_of_neg hx] at h
      injection h with h1 _
      subst h1
      simpa using hx

theorem dropWhile_fixed (p : Char → Bool) (l : List Char) :
    (l.dropWhile p).dropWhile p = l.dropWhile p := by
  cases h : l.dropWhile p with
  | nil => rfl
  | cons c r =>
    have hc := dropWhile_head_not p l c r h
    rw [List.dropWhile_cons_of_neg (by simp [hc])]

theorem trimChars_idem (l : List Char) : trimChars (trimChars l) = trimChars l := by
  have hB : ((trimChars l).reverse.dropWhile jsIsWhiteSpace).reverse = trimChars l := by
    unfold trimChars
    rw [List.reverse_reverse, dropWhile_fixed]
  have hA : (trimChars l).dropWhile jsIsWhiteSpace = trimChars l := by
    cases ht : trimChars l with
    | nil => rfl
    | cons c t =>
      obtain ⟨w, hw, _⟩ :=
        dropWhile_reverse_split jsIsWhiteSpace (l.dropWhile jsIsWhiteSpace)
      have ht2 : ((l.dropWhile jsIsWhiteSpace).reverse.dropWhile jsIsWhiteSpace).reverse
          = c :: t := ht
      rw [ht2] at hw
      have hc := dropWhile_head_not jsIsWhiteSpace l c (t ++ w) (by rw [hw]; rfl)
      rw [List.dropWhile_cons_of_neg (by simp [hc])]
  show (((trimChars l).dropWhile jsIsWhiteSpace).reverse.dropWhile jsIsWhiteSpace).reverse
    = trimChars l
  rw [hA, hB]

theorem count_trimChars (l : List Char) (c : Char) (hc : jsIsWhiteSpace c = false) :
    (trimChars l).count c = l.count c := by
  obtain ⟨w, hw, hall⟩ := dropWhile_reverse_split jsIsWhiteSpace (l.dropWhile jsIsWhiteSpace)
  have hsplit : l = l.takeWhile jsIsWhiteSpace ++ (trimChars l ++ w) := by
    unfold trimChars
    rw [← hw, List.takeWhile_append_dropWhile]
  have h1 : (l.takeWhile jsIsWhiteSpace).count c = 0 := by
    apply List.count_eq_zero_of_not_mem
    intro hm
    have := List.mem_takeWhile_imp hm
    rw [hc] at this
    exact absurd this (by decide)
  have h2 : w.count c = 0 := by
    apply List.count_eq_zero_of_not_mem
    intro hm
    have := hall c hm
    rw [hc] at this
    exact absurd this (by decide)
  have h3 : l.count c = (l.takeWhile jsIsWhiteSpace).count c +
      ((trimChars l).count c + w.count c) := by
    conv_lhs => rw [hsplit]
    rw [List.count_append, List.count_append]
  omega

theorem jsonParse_data_ne_nil (j : String) (v : JVal) (h : jsonParse j = some v) :
    j.data ≠ [] := by
  intro e
  unfold jsonParse at h
  rw [e] at h
  have hnone : (tokenize []).bind parseTokens = none := rfl
  rw [hnone] at h
  exact absurd h (by simp)

theorem json_prefix_false (a b : Bool) (j : String) (v : JVal) (h : jsonParse j = some v) :
    "json".data.isPrefixOf (((if a then ['\n'] else []) ++ j.data ++
      (if b then ['\n'] else [])) ++ "```".data) = false := by
  cases a with
  | true => rfl
  | false =>
    cases hd : j.data with
    | nil => exact absurd hd (jsonParse_data_ne_nil j v h)
    | cons c rest =>
      have hj : jsonParse (String.mk (c :: rest)) = some v := by
        rw [← hd]
        exact h
      have hc := (jsonParse_head c rest v hj).2
      have hb : ('j' == c) = false := by
        simp only [beq_eq_false_iff_ne, ne_eq]
        exact fun e => hc e.symm
      show (('j' == c) && _) = false
      rw [hb]
      rfl

theorem jsTrim_fenced (marker : String) (hm : marker = "```json" ∨ marker = "```")
    (a b : Bool) (j : String) : jsTrim (fenced marker a b j) = fenced marker a b j := by
  have hdata : ∃ m, (fenced marker a b j).data = '`' :: (m ++ ['`']) := by
    rw [fenced_data]
    rcases hm with e | e
    · subst e
      exact ⟨['`', '`', 'j', 's', 'o', 'n'] ++ ((if a then ['\n'] else []) ++ j.data ++
        (if b then ['\n'] else [])) ++ ['`', '`'], by simp⟩
    · subst e
      exact ⟨['`', '`'] ++ ((if a then ['\n'] else []) ++ j.data ++
        (if b then ['\n'] else [])) ++ ['`', '`'], by simp⟩
  obtain ⟨m, hm2⟩ := hdata
  show String.mk (trimChars (fenced marker a b j).data) = fenced marker a b j
  rw [hm2, trimChars_fixed '`' '`' m (by decide) (by decide), ← hm2]

theorem cleanFences_fenced (marker : String) (hm : marker = "```json" ∨ marker = "```")
    (a b : Bool) (j : String) (v : JVal) (h : jsonParse j = some v) :
    ∃ z, cleanFences (jsTrim (fenced marker a b j)) = String.mk z ∧
      tokenize z = tokenize j.data ∧ trimChars z = trimChars j.data ∧
      (∀ c, jsIsWhiteSpace c = false → z.count c = j.data.count c) := by
  have htok := tokenize_ne_none_of_jsonParse j v h
  obtain ⟨z, hz, h1, h2, h3⟩ :=
    dropLineFeed_fenced a b j.data htok (jsonParse_data_ne_nil j v h)
  refine ⟨z, ?_, h1, h2, h3⟩
  rw [jsTrim_fenced marker hm]
  rcases hm with e | e
  · subst e
    exact cleanFences_json _ _ z (fenced_data _ a b j) hz (by rw [h1]; exact htok)
  · subst e
    exact cleanFences_plain _ _ z (fenced_data _ a b j) (json_prefix_false a b j v h) hz

theorem soapRecover_of_clean (content stopReason : String) (l : List Char) (v : JVal)
    (jsonStr : String) (hclean : cleanFences (jsTrim content) = jsonStr)
    (htrim : trimChars jsonStr.data = trimChars l)
    (hcount : ∀ c, jsIsWhiteSpace c = false → jsonStr.data.count c = l.count c)
    (hparse : jsonParse jsonStr = some v) :
    soapRecover jsonParse content stopReason =
      if stopReason == "max_tokens" then
        .error ("The SOAP note was too long and got cut off. Try reducing the encounter " ++
          "details or generate a shorter note.")
      else if !endsWith (String.mk (trimChars l)) "\x7d" then
        .error "The AI response was incomplete (no closing brace). Please try again."
      else if l.count '{' != l.count '}' then
        .error ("The AI response has mismatched braces (" ++ toString (l.count '{') ++
          " open, " ++ toString (l.count '}') ++ " close). Please try again.")
      else .ok v := by
  unfold soapRecover
  simp only [hclean]
  have e1 : jsTrim jsonStr = String.mk (trimChars l) := by
    show String.mk (trimChars jsonStr.data) = _
    rw [htrim]
  have e2 : countChar jsonStr '{' = l.count '{' := hcount '{' (by decide)
  have e3 : countChar jsonStr '}' = l.count '}' := hcount '}' (by decide)
  rw [e1, e2, e3]
  cases hs : (stopReason == "max_tokens")
  · cases hend : endsWith (String.mk (trimChars l)) "\x7d"
    · rfl
    · cases hc : (l.count '{' != l.count '}')
      · simp only [Bool.not_true, Bool.false_eq_true, if_false]
        have hq := quote_not_after_brace jsonStr (by rw [e1]; exact hend)
        simp only [hq, if_false]
        unfold parseWithRetry
        rw [hparse]
      · rfl
  · rfl

/-- C12. Fence-stripping determinism: for every well-formed JSON text, the text-to-value stage
of the fee-slip handler and that of the SOAP handler give, on the text wrapped in a fence
(opening marker with or without `json`, with or without a line feed after the opening marker
and before the closing one), the result they give on the text itself, namely its value for
the fee-slip stage; on the Scenario A input the result is the SOAP object with subjective
`x`, objective `y`, assessment `z`, plan `w`. -/
theorem feeSlipParse_fenced (j : String) (v : JVal) (marker : String) (a b : Bool)
    (hj : jsonParse j = some v) (hm : marker = "```json" ∨ marker = "```") :
    feeSlipParse jsonParse j = some v ∧
    feeSlipParse jsonParse (fenced marker a b j) = some v ∧
    (∀ stopReason, soapRecover jsonParse (fenced marker a b j) stopReason
      = soapRecover jsonParse j stopReason) ∧
    soapRecover jsonParse exScenarioA "end_turn" =
      .ok (.obj [("soap_content", .obj [("subjective", .str "x"), ("objective", .str "y"),
                                        ("assessment", .str "z"), ("plan", .str "w")])]) := by
  have htok := tokenize_ne_none_of_jsonParse j v hj
  have htrimParse := jsonParse_jsTrim j v hj
  have hcleanJ : cleanFences (jsTrim j) = jsTrim j := by
    apply cleanFences_unfenced
    show tokenize (trimChars j.data) ≠ none
    rw [tokenize_trimChars j.data htok]
    exact htok
  obtain ⟨z, hz, hz1, hz2, hz3⟩ := cleanFences_fenced marker hm a b j v hj
  have hzParse : jsonParse (String.mk z) = some v := by
    rw [jsonParse_congr (String.mk z) j hz1]
    exact hj
  refine ⟨?_, ?_, ?_, rfl⟩
  · unfold feeSlipParse parseWithRetry
    rw [hcleanJ, htrimParse]
  · unfold feeSlipParse parseWithRetry
    rw [hz, hzParse]
  · intro stopReason
    rw [soapRecover_of_clean (fenced marker a b j) stopReason j.data v (String.mk z) hz hz2 hz3
      hzParse]
    rw [soapRecover_of_clean j stopReason j.data v (jsTrim j) hcleanJ (trimChars_idem j.data)
      (fun c hc => count_trimChars j.data c hc) htrimParse]

theorem feeSlipParse_fenced_witness :
    feeSlipParse jsonParse
      (fenced "```json" true true
        "\x7b\"soap_content\":\x7b\"subjective\":\"x\",\"objective\":\"y\",\"assessment\":\"z\",\"plan\":\"w\"\x7d\x7d")
      = some (.obj [("soap_content", .obj [("subjective", .str "x"), ("objective", .str "y"),
                                           ("assessment", .str "z"), ("plan", .str "w")])]) ∧
    fenced "```json" true true
        "\x7b\"soap_content\":\x7b\"subjective\":\"x\",\"objective\":\"y\",\"assessment\":\"z\",\"plan\":\"w\"\x7d\x7d"
      = exScenarioA :=
  ⟨(feeSlipParse_fenced
    "\x7b\"soap_content\":\x7b\"subjective\":\"x\",\"objective\":\"y\",\"assessment\":\"z\",\"plan\":\"w\"\x7d\x7d"
    (.obj [("soap_content", .obj [("subjective", .str "x"), ("objective", .str "y"),
                                  ("assessment", .str "z"), ("plan", .str "w")])])
    "```json" true true rfl (Or.inl rfl)).2.1, by decide⟩

end OpenEMR
